import Mathlib

/-! OHLC candle pipeline (`domain/common.go`)

Shallow embedding of the candle aggregation code of `domain/common.go`.

Modelling conventions.

* A `time.Time` is a `Time`: the instant it denotes, as an integer number of
  nanoseconds since the Go zero time, the identity of its `*Location` pointer,
  and its monotonic clock reading if it has one.  Two `Time` values are equal
  exactly when Go's `==` holds for the values the code uses as map keys, which
  are all results of `Truncate`.  A `time.Duration` is an integer number of
  nanoseconds.  A numeral `n` written for a `Time` is the instant `n` in UTC
  without monotonic reading.
* A `float64` is an `F64`: `NaN`, `-Inf`, `+Inf`, or the rational number a
  finite float denotes.  The code never does arithmetic on prices, it only
  copies them and compares them with `<` and `>`.  A numeral `n` written for
  an `F64` is the number `n`.
* A Go map is an association list with at most one entry per key.  The order
  of the list carries no meaning; where the code ranges over a map, the
  iteration order is supplied from outside (`MapOrder`).
* A goroutine that reads a channel until it is closed is a function over the
  list of values received; what it sends on `out`, to a receiver that takes
  every value, is the list `out`.  Cancellation of the context ends the list
  of values received.
* `writeToCSV` appends a row to a file and its error is discarded by the
  caller; it has no influence on the returned candle and is left out.
-/

namespace Domain

/-! ## Time -/

/-- Go `time.Minute`, in nanoseconds. -/
def Minute : Int := 60000000000

/-- Largest `time.Duration` (`math.MaxInt64`). -/
def maxDuration : Int := 9223372036854775807

/-- Smallest `time.Duration` (`math.MinInt64`). -/
def minDuration : Int := -9223372036854775808

/-- The difference `t - u` of two clock readings in nanoseconds, saturated to
the range of `time.Duration` as `Time.Sub` does. -/
def subInstant (t u : Int) : Int :=
  if maxDuration < t - u then maxDuration
  else if t - u < minDuration then minDuration
  else t - u

/-- The instant `t` rounded down to a multiple of `d` nanoseconds since the
zero time; `t` itself when `d ≤ 0`. -/
def floorInstant (t d : Int) : Int :=
  if d ≤ 0 then t else t - t % d

/-- Go `time.Time`: the wall-clock instant `ns` in nanoseconds since the zero
time, the `*Location` pointer `loc` (`0` is the nil pointer, which means UTC)
and the monotonic clock reading `mono`, if present. -/
structure Time where
  ns : Int
  loc : Nat
  mono : Option Int
  deriving DecidableEq, Repr

instance (n : Nat) : OfNat Time n := ⟨{ ns := n, loc := 0, mono := none }⟩

/-- Go `t.Sub(u)`: computed from the monotonic clock readings when both times
have one, from the wall-clock instants otherwise; the Location plays no
part. -/
def Time.Sub (t u : Time) : Int :=
  match t.mono, u.mono with
  | some a, some b => subInstant a b
  | _, _ => subInstant t.ns u.ns

/-- Go `t.Truncate(d)`: the monotonic clock reading is stripped, the instant
is rounded down to a multiple of `d` since the zero time, the Location is
kept. -/
def Time.Truncate (t : Time) (d : Int) : Time :=
  { ns := floorInstant t.ns d, loc := t.loc, mono := none }

/-! ## Prices -/

/-- Go `float64` as far as `<`, `>`, `<=` and `==` tell: `NaN`, `-Inf`, a
finite float (the rational number it denotes; the two zeros are the same
number, as they are for `==`), or `+Inf`. -/
inductive F64 where
  | nan
  | negInf
  | num (x : ℚ)
  | posInf
  deriving DecidableEq, Repr

instance (n : Nat) : OfNat F64 n := ⟨F64.num n⟩

/-- Go `a < b` on `float64`: false whenever one side is `NaN`. -/
def F64.lt : F64 → F64 → Prop
  | F64.negInf, F64.num _ => True
  | F64.negInf, F64.posInf => True
  | F64.num _, F64.posInf => True
  | F64.num x, F64.num y => x < y
  | _, _ => False

/-- Go `a <= b` on `float64`: false whenever one side is `NaN`. -/
def F64.le : F64 → F64 → Prop
  | F64.negInf, F64.negInf => True
  | F64.negInf, F64.num _ => True
  | F64.negInf, F64.posInf => True
  | F64.num _, F64.posInf => True
  | F64.posInf, F64.posInf => True
  | F64.num x, F64.num y => x ≤ y
  | _, _ => False

instance : LT F64 := ⟨F64.lt⟩

instance : LE F64 := ⟨F64.le⟩

instance F64.decLt (a b : F64) : Decidable (a < b) :=
  match a, b with
  | F64.nan, F64.nan => isFalse (fun h => h)
  | F64.nan, F64.negInf => isFalse (fun h => h)
  | F64.nan, F64.num _ => isFalse (fun h => h)
  | F64.nan, F64.posInf => isFalse (fun h => h)
  | F64.negInf, F64.nan => isFalse (fun h => h)
  | F64.negInf, F64.negInf => isFalse (fun h => h)
  | F64.negInf, F64.num _ => isTrue trivial
  | F64.negInf, F64.posInf => isTrue trivial
  | F64.num _, F64.nan => isFalse (fun h => h)
  | F64.num _, F64.negInf => isFalse (fun h => h)
  | F64.num x, F64.num y => inferInstanceAs (Decidable (x < y))
  | F64.num _, F64.posInf => isTrue trivial
  | F64.posInf, F64.nan => isFalse (fun h => h)
  | F64.posInf, F64.negInf => isFalse (fun h => h)
  | F64.posInf, F64.num _ => isFalse (fun h => h)
  | F64.posInf, F64.posInf => isFalse (fun h => h)

instance F64.decLe (a b : F64) : Decidable (a ≤ b) :=
  match a, b with
  | F64.nan, F64.nan => isFalse (fun h => h)
  | F64.nan, F64.negInf => isFalse (fun h => h)
  | F64.nan, F64.num _ => isFalse (fun h => h)
  | F64.nan, F64.posInf => isFalse (fun h => h)
  | F64.negInf, F64.nan => isFalse (fun h => h)
  | F64.negInf, F64.negInf => isTrue trivial
  | F64.negInf, F64.num _ => isTrue trivial
  | F64.negInf, F64.posInf => isTrue trivial
  | F64.num _, F64.nan => isFalse (fun h => h)
  | F64.num _, F64.negInf => isFalse (fun h => h)
  | F64.num x, F64.num y => inferInstanceAs (Decidable (x ≤ y))
  | F64.num _, F64.posInf => isTrue trivial
  | F64.posInf, F64.nan => isFalse (fun h => h)
  | F64.posInf, F64.negInf => isFalse (fun h => h)
  | F64.posInf, F64.num _ => isFalse (fun h => h)
  | F64.posInf, F64.posInf => isTrue trivial

/-- The larger of two prices as the comparison `a < b` decides it. -/
def F64.larger (a b : F64) : F64 := if a < b then b else a

/-- The smaller of two prices as the comparison `b < a` decides it. -/
def F64.smaller (a b : F64) : F64 := if b < a then b else a

/-! ## Data model -/

/-- Go `type Price struct`. -/
structure Price where
  Ticker : String
  Value : F64
  TS : Time
  deriving DecidableEq, Repr

/-- Go `type CandlePeriod string`. -/
abbrev CandlePeriod := String

def CandlePeriod1m : CandlePeriod := "1m"
def CandlePeriod2m : CandlePeriod := "2m"
def CandlePeriod10m : CandlePeriod := "10m"

/-- Go error values of the package. -/
inductive Error where
  | ErrUnknownPeriod
  deriving DecidableEq, Repr

/-- Go `PeriodTS`: the pair `(time, error)` the function returns. -/
def PeriodTS (period : CandlePeriod) (ts : Time) : Time × Option Error :=
  if period = CandlePeriod1m then (ts.Truncate Minute, none)
  else if period = CandlePeriod2m then (ts.Truncate (2 * Minute), none)
  else if period = CandlePeriod10m then (ts.Truncate (10 * Minute), none)
  else (0, some Error.ErrUnknownPeriod)

/-- Go `type Candle struct`. -/
structure Candle where
  Ticker : String
  Period : CandlePeriod
  Open : F64
  High : F64
  Low : F64
  Close : F64
  TS : Time
  deriving DecidableEq, Repr

/-! ## The reducer `calculateCandle` -/

/-- The four running prices of the loop of `calculateCandle`. -/
structure Running where
  openPrice : F64
  closePrice : F64
  highPrice : F64
  lowPrice : F64
  deriving DecidableEq, Repr

/-- One iteration of the `for _, price := range prices` loop of
`calculateCandle`.  `timeBegin` and `timeEnd` are not assigned in the loop, so
they are parameters rather than part of the running state. -/
def calculateStep (timeBegin timeEnd : Time) (r : Running) (price : Price) : Running :=
  let r1 := if price.TS.Sub timeBegin < 0 then { r with openPrice := price.Value } else r
  let r2 := if 0 < price.TS.Sub timeEnd then { r1 with closePrice := price.Value } else r1
  let r3 := if r2.highPrice < price.Value then { r2 with highPrice := price.Value } else r2
  if price.Value < r3.lowPrice then { r3 with lowPrice := price.Value } else r3

/-- The loop of `calculateCandle`. -/
def calculateLoop (timeBegin timeEnd : Time) (r : Running) (prices : List Price) : Running :=
  prices.foldl (calculateStep timeBegin timeEnd) r

/-- Go `calculateCandle`.  `none` is the run-time panic of `prices[0]` on an
empty slice.  The composite literal that builds the candle has no `Period`
key, so the field keeps the zero value of `CandlePeriod`, the empty string;
`period` is only used for the name of the CSV file. -/
def calculateCandle (prices : List Price) (startTime : Time) (_period : CandlePeriod) :
    Option Candle :=
  match prices with
  | [] => none
  | p0 :: _ =>
    let r := calculateLoop p0.TS p0.TS
      { openPrice := p0.Value, closePrice := p0.Value,
        highPrice := p0.Value, lowPrice := p0.Value } prices
    some { Ticker := p0.Ticker, Period := "", TS := startTime,
           Open := r.openPrice, Close := r.closePrice,
           High := r.highPrice, Low := r.lowPrice }

/-! ## Go maps -/

/-- Go `m[k]` with the comma-ok result: the value stored under `k`, if any. -/
def mapGet {κ β : Type} [DecidableEq κ] : List (κ × β) → κ → Option β
  | [], _ => none
  | (k1, v) :: rest, k => if k1 = k then some v else mapGet rest k

/-- Go `m[k] = v`. -/
def mapSet {κ β : Type} [DecidableEq κ] : List (κ × β) → κ → β → List (κ × β)
  | [], k, v => [(k, v)]
  | (k1, v1) :: rest, k, v =>
    if k1 = k then (k, v) :: rest else (k1, v1) :: mapSet rest k v

/-- Go `delete(m, k)`. -/
def mapDelete {κ β : Type} [DecidableEq κ] (m : List (κ × β)) (k : κ) : List (κ × β) :=
  m.filter (fun e => decide (e.1 ≠ k))

/-- The keys of a Go map. -/
def mapKeys {κ β : Type} (m : List (κ × β)) : List κ :=
  m.map Prod.fst

/-- Go `m[k]` for a map of slices: a missing key reads as the nil slice. -/
def mapSlice {κ β : Type} [DecidableEq κ] (m : List (κ × List β)) (k : κ) : List β :=
  (mapGet m k).getD []

/-- Go `m[t][k]` for `m : map[string]map[time.Time][]T`: reading through a
missing (nil) inner map gives the nil slice. -/
def mapSlice2 {β : Type} (m : List (String × List (Time × List β))) (t : String) (k : Time) :
    List β :=
  mapSlice ((mapGet m t).getD []) k

/-! ## Aggregation stages -/

/-- How the goroutine of a stage stands: still in its loop, left by `return`,
or stopped by a run-time panic. -/
inductive Status where
  | running
  | returned
  | panicked
  deriving DecidableEq, Repr

/-- The state of a stage goroutine: its local `candleMap`
(`map[string]map[time.Time][]T`), the candles sent on `out` so far, its
status, and `calls`, the slice passed to `calculateCandle` in each call the
goroutine has made so far. -/
structure Stage (α : Type) where
  candleMap : List (String × List (Time × List α))
  out : List Candle
  status : Status
  calls : List (List Price)

/-- The state of a stage before its first input: `candleMap` freshly made. -/
def Stage.fresh {α : Type} : Stage α :=
  { candleMap := [], out := [], status := Status.running, calls := [] }

/-- The two statements shared by the three stages:
`if candleMap[ticker] == nil { candleMap[ticker] = make(...) }` and
`candleMap[ticker][ts] = append(candleMap[ticker][ts], x)`. -/
def accumulate {α : Type} (candleMap : List (String × List (Time × List α)))
    (ticker : String) (ts : Time) (x : α) : List (String × List (Time × List α)) :=
  let m1 := if (mapGet candleMap ticker).isNone then mapSet candleMap ticker [] else candleMap
  let inner := (mapGet m1 ticker).getD []
  mapSet m1 ticker (mapSet inner ts (mapSlice inner ts ++ [x]))

/-- The statement `delete(candleMap[ticker], ts)`. -/
def discard {α : Type} (candleMap : List (String × List (Time × List α)))
    (ticker : String) (ts : Time) : List (String × List (Time × List α)) :=
  match mapGet candleMap ticker with
  | none => candleMap
  | some inner => mapSet candleMap ticker (mapDelete inner ts)

/-- The statements `out <- calculateCandle(prices, ts, period)` and
`delete(candleMap[ticker], ts)`.  The call of `calculateCandle` is recorded in
`calls`. -/
def emit {α : Type} (st : Stage α) (prices : List Price) (ticker : String) (ts : Time)
    (period : CandlePeriod) : Stage α :=
  match calculateCandle prices ts period with
  | none => { st with status := Status.panicked, calls := st.calls ++ [prices] }
  | some c =>
    { st with candleMap := discard st.candleMap ticker ts, out := st.out ++ [c],
              calls := st.calls ++ [prices] }

/-- The four `Price` literals the roll-up stages build from one stored candle:
its open, close, high and low, each with the candle's own `TS`. -/
def candlePrices (ticker : String) (c : Candle) : List Price :=
  [ { Ticker := ticker, Value := c.Open, TS := c.TS },
    { Ticker := ticker, Value := c.Close, TS := c.TS },
    { Ticker := ticker, Value := c.High, TS := c.TS },
    { Ticker := ticker, Value := c.Low, TS := c.TS } ]

/-- One iteration of `for candle := range inside` in `Create2mCandles`. -/
def step2m (st : Stage Candle) (candle : Candle) : Stage Candle :=
  if st.status ≠ Status.running then st else
  let ticker := candle.Ticker
  let r := PeriodTS CandlePeriod2m candle.TS
  if r.2 ≠ none then { st with status := Status.returned } else
  let timeStamp := r.1
  let st1 := { st with candleMap := accumulate st.candleMap ticker timeStamp candle }
  match mapSlice2 st1.candleMap ticker timeStamp with
  | [c0, c1] =>
    emit st1 (candlePrices ticker c0 ++ candlePrices ticker c1) ticker timeStamp CandlePeriod2m
  | _ => st1

/-- Go `Create2mCandles`, run on the candles received until `inside` is
closed. -/
def Create2mCandles (inside : List Candle) : Stage Candle :=
  inside.foldl step2m Stage.fresh

/-- One iteration of `for candle := range inside` in `Create10mCandles`. -/
def step10m (st : Stage Candle) (candle : Candle) : Stage Candle :=
  if st.status ≠ Status.running then st else
  let r := PeriodTS CandlePeriod10m candle.TS
  if r.2 ≠ none then { st with status := Status.returned } else
  let startTime := r.1
  let ticker := candle.Ticker
  let st1 := { st with candleMap := accumulate st.candleMap ticker startTime candle }
  let acc := mapSlice2 st1.candleMap ticker startTime
  if acc.length = 5 then
    emit st1 ((acc.take 5).flatMap (candlePrices ticker)) ticker startTime CandlePeriod10m
  else st1

/-- Go `Create10mCandles`, run on the candles received until `inside` is
closed. -/
def Create10mCandles (inside : List Candle) : Stage Candle :=
  inside.foldl step10m Stage.fresh

/-- The iteration orders of the three `range` loops over maps in one pass of
`Create1mCandles`.  Go leaves the order of a map range unspecified, so it is
an input of the model: `tickers` orders the keys of `candleMap`, `firstRange`
and `secondRange` order the keys of `timeGroups` of a ticker. -/
structure MapOrder where
  tickers : List String → List String
  firstRange : String → List Time → List Time
  secondRange : String → List Time → List Time

/-- An iteration order is one Go can produce: every range visits each key of
the map once. -/
def MapOrder.Valid (o : MapOrder) : Prop :=
  (∀ ks, (o.tickers ks).Perm ks) ∧
  (∀ t ks, (o.firstRange t ks).Perm ks) ∧
  (∀ t ks, (o.secondRange t ks).Perm ks)

/-- The order that follows the association list. -/
def MapOrder.listOrder : MapOrder :=
  { tickers := fun ks => ks, firstRange := fun _ ks => ks, secondRange := fun _ ks => ks }

/-- The loop `for startTime, prices := range timeGroups` of `Create1mCandles`
for one ticker, visiting the keys in the order `visit`.  A key deleted before
it is reached is not produced. -/
def flushLoop (ticker : String) (prevTS : Time) : List Time → Stage Price → Stage Price
  | [], st => st
  | startTime :: rest, st =>
    if st.status ≠ Status.running then st else
    match mapGet ((mapGet st.candleMap ticker).getD []) startTime with
    | none => flushLoop ticker prevTS rest st
    | some prices =>
      if prevTS.Sub startTime = Minute then
        flushLoop ticker prevTS rest (emit st prices ticker startTime CandlePeriod1m)
      else flushLoop ticker prevTS rest st

/-- The body of `for ticker, timeGroups := range candleMap` of
`Create1mCandles`: `prevTS` is the key the first range produces first (the
zero time when `timeGroups` is empty), then the flush loop runs. -/
def flushTicker (o : MapOrder) (st : Stage Price) (ticker : String) : Stage Price :=
  if st.status ≠ Status.running then st else
  match mapGet st.candleMap ticker with
  | none => st
  | some timeGroups =>
    let prevTS := ((o.firstRange ticker (mapKeys timeGroups)).head?).getD 0
    flushLoop ticker prevTS (o.secondRange ticker (mapKeys timeGroups)) st

/-- One `case price, ok := <-inside` of `Create1mCandles` with `ok` true. -/
def step1m (o : MapOrder) (st : Stage Price) (price : Price) : Stage Price :=
  if st.status ≠ Status.running then st else
  let r := PeriodTS CandlePeriod1m price.TS
  if r.2 ≠ none then { st with status := Status.returned } else
  let startTime := r.1
  let st1 := { st with candleMap := accumulate st.candleMap price.Ticker startTime price }
  (o.tickers (mapKeys st1.candleMap)).foldl (flushTicker o) st1

/-- The run of `Create1mCandles` from state `st` on the ticks `inside`, the
pass for the `i`-th remaining tick using the iteration order `order i`. -/
def run1m (order : Nat → MapOrder) : Stage Price → List Price → Stage Price
  | st, [] => st
  | st, price :: rest => run1m (fun i => order (i + 1)) (step1m (order 0) st price) rest

/-- Go `Create1mCandles`, run on the ticks received until `inside` is closed
or the context is cancelled. -/
def Create1mCandles (order : Nat → MapOrder) (inside : List Price) : Stage Price :=
  run1m order Stage.fresh inside

/-! ## The loop bodies as functions of the result of `PeriodTS` -/

/-- The body of the loop of `Create1mCandles` from the statement
`if err != nil { return }` on, where `r` is the pair `(startTime, err)` the
call of `PeriodTS` returned. -/
def step1mOn (o : MapOrder) (r : Time × Option Error) (st : Stage Price) (price : Price) :
    Stage Price :=
  if st.status ≠ Status.running then st else
  if r.2 ≠ none then { st with status := Status.returned } else
  let startTime := r.1
  let st1 := { st with candleMap := accumulate st.candleMap price.Ticker startTime price }
  (o.tickers (mapKeys st1.candleMap)).foldl (flushTicker o) st1

/-- The body of the loop of `Create2mCandles` from the statement
`if err != nil { return }` on, where `r` is the pair `(timeStamp, err)` the
call of `PeriodTS` returned. -/
def step2mOn (r : Time × Option Error) (st : Stage Candle) (candle : Candle) : Stage Candle :=
  if st.status ≠ Status.running then st else
  let ticker := candle.Ticker
  if r.2 ≠ none then { st with status := Status.returned } else
  let timeStamp := r.1
  let st1 := { st with candleMap := accumulate st.candleMap ticker timeStamp candle }
  match mapSlice2 st1.candleMap ticker timeStamp with
  | [c0, c1] =>
    emit st1 (candlePrices ticker c0 ++ candlePrices ticker c1) ticker timeStamp CandlePeriod2m
  | _ => st1

/-- The body of the loop of `Create10mCandles` from the statement
`if err != nil { return }` on, where `r` is the pair `(startTime, err)` the
call of `PeriodTS` returned. -/
def step10mOn (r : Time × Option Error) (st : Stage Candle) (candle : Candle) : Stage Candle :=
  if st.status ≠ Status.running then st else
  if r.2 ≠ none then { st with status := Status.returned } else
  let startTime := r.1
  let ticker := candle.Ticker
  let st1 := { st with candleMap := accumulate st.candleMap ticker startTime candle }
  let acc := mapSlice2 st1.candleMap ticker startTime
  if acc.length = 5 then
    emit st1 ((acc.take 5).flatMap (candlePrices ticker)) ticker startTime CandlePeriod10m
  else st1

/-! ## Notions used to state the properties of the stages -/

/-- The accumulator present in `candleMap` under the symbol `t` and the window
start `k`, if there is one: `candleMap[t][k]` with the comma-ok result. -/
def stored {β : Type} (m : List (String × List (Time × List β))) (t : String) (k : Time) :
    Option (List β) :=
  (mapGet m t).bind (fun tg => mapGet tg k)

/-- The loop body common to the two roll-up stages, for a stage of period
`period` that reduces `n` stored candles: `step2m` is `stepRoll` for `2m` and
2, `step10m` is `stepRoll` for `10m` and 5 (`step2m_eq_stepRoll`,
`step10m_eq_stepRoll`). -/
def stepRoll (period : CandlePeriod) (n : Nat) (st : Stage Candle) (candle : Candle) :
    Stage Candle :=
  if st.status ≠ Status.running then st else
  let r := PeriodTS period candle.TS
  if r.2 ≠ none then { st with status := Status.returned } else
  let st1 := { st with candleMap := accumulate st.candleMap candle.Ticker r.1 candle }
  let acc := mapSlice2 st1.candleMap candle.Ticker r.1
  if acc.length = n then
    emit st1 (acc.flatMap (candlePrices candle.Ticker)) candle.Ticker r.1 period
  else st1

/-- An iteration order in which the first range over a table produces the key
stored last first. -/
def MapOrder.newestFirst : MapOrder :=
  { tickers := fun ks => ks, firstRange := fun _ ks => ks.reverse,
    secondRange := fun _ ks => ks }

/-- What holds of a roll-up stage of period `period` (windows of `d`
nanoseconds, `n` candles per window) after it has received the candles `done`:
it is running; every accumulator present holds at least one and fewer than `n`
candles, each received, of the accumulator's symbol and window key; every
candle sent was reduced from `n` received candles of its symbol and window
key; per symbol and window key, the candles received are `n` times the candles
sent plus those still accumulated; every call of `calculateCandle` passed
`4 * n` prices; and the candles sent are, in order, the results of the calls
of `calculateCandle`. -/
def RollInv (period : CandlePeriod) (d : Int) (n : Nat) (done : List Candle)
    (st : Stage Candle) : Prop :=
  st.status = Status.running ∧
  (∀ t k acc, stored st.candleMap t k = some acc →
    1 ≤ acc.length ∧ acc.length < n ∧
      ∀ x ∈ acc, x.Ticker = t ∧ x.TS.Truncate d = k ∧ x ∈ done) ∧
  (∀ c ∈ st.out, ∃ acc : List Candle, acc.length = n ∧
    (∀ x ∈ acc, x ∈ done ∧ x.Ticker = c.Ticker ∧ x.TS.Truncate d = c.TS) ∧
    calculateCandle (acc.flatMap (candlePrices c.Ticker)) c.TS period = some c) ∧
  (∀ s W, done.countP (fun c => decide (c.Ticker = s ∧ c.TS.Truncate d = W)) =
    n * st.out.countP (fun c => decide (c.Ticker = s ∧ c.TS = W)) +
      (mapSlice2 st.candleMap s W).length) ∧
  (∀ prices ∈ st.calls, prices.length = 4 * n) ∧
  List.Forall₂ (fun prices c => calculateCandle prices c.TS period = some c) st.calls st.out

/-- Every accumulator present in the map `m` of the 1-minute stage is
non-empty and holds ticks, all among `done`, of the accumulator's symbol and
1-minute window key. -/
def TickRec (done : List Price) (m : List (String × List (Time × List Price))) : Prop :=
  ∀ t k acc, stored m t k = some acc →
    acc ≠ [] ∧ ∀ x ∈ acc, x.Ticker = t ∧ x.TS.Truncate 60000000000 = k ∧ x ∈ done

/-- How the state `st` inside a flush pass of the 1-minute stage relates to
the state `st0` at the start of the pass, `new` being the candles sent in
between: the stage is running, the symbols of its map are distinct, every
accumulator is as at the start or has been sent and deleted, every candle
sent was reduced from the accumulator of its symbol and window key at the
start, when a key exactly one minute later was stored for that symbol as
well, the accumulator of a candle sent is gone, no two candles sent have the
same symbol and window key, no call of `calculateCandle` passed an empty
slice, and the candles sent by the stage are, in order, the results of its
calls of `calculateCandle`. -/
def Flushed (st0 st : Stage Price) (new : List Candle) : Prop :=
  st.status = Status.running ∧ (mapKeys st.candleMap).Nodup ∧ st.out = st0.out ++ new ∧
  (∀ t k, stored st.candleMap t k = stored st0.candleMap t k ∨
    (stored st.candleMap t k = none ∧
      ∃ acc c, stored st0.candleMap t k = some acc ∧
        calculateCandle acc k CandlePeriod1m = some c ∧ c ∈ new ∧ c.Ticker = t ∧ c.TS = k)) ∧
  (∀ c ∈ new, ∃ acc k2 acc2, stored st0.candleMap c.Ticker c.TS = some acc ∧
    calculateCandle acc c.TS CandlePeriod1m = some c ∧
    stored st0.candleMap c.Ticker k2 = some acc2 ∧ k2.Sub c.TS = Minute) ∧
  (∀ c ∈ new, stored st.candleMap c.Ticker c.TS = none) ∧
  (new.map (fun c => (c.Ticker, c.TS))).Nodup ∧
  (∀ prices ∈ st.calls, prices ≠ []) ∧
  List.Forall₂ (fun prices c => calculateCandle prices c.TS CandlePeriod1m = some c)
    st.calls st.out

/-- What holds of the 1-minute stage after it has received the ticks `done`:
it is running, the symbols of its map are distinct, its accumulators satisfy
`TickRec`, every candle sent was reduced from a non-empty slice of received
ticks of its symbol and window key, at a moment when a tick of that symbol
with a window start exactly one minute later had been received, no call of
`calculateCandle` passed an empty slice, and the candles sent are, in order,
the results of the calls of `calculateCandle`. -/
def TickInv (done : List Price) (st : Stage Price) : Prop :=
  st.status = Status.running ∧ (mapKeys st.candleMap).Nodup ∧ TickRec done st.candleMap ∧
  (∀ c ∈ st.out, ∃ prices : List Price, prices ≠ [] ∧
    (∀ q ∈ prices, q ∈ done ∧ q.Ticker = c.Ticker ∧ q.TS.Truncate 60000000000 = c.TS) ∧
    calculateCandle prices c.TS CandlePeriod1m = some c ∧
    ∃ q ∈ done, q.Ticker = c.Ticker ∧ (q.TS.Truncate 60000000000).Sub c.TS = Minute) ∧
  (∀ prices ∈ st.calls, prices ≠ []) ∧
  List.Forall₂ (fun prices c => calculateCandle prices c.TS CandlePeriod1m = some c)
    st.calls st.out

/-! ## Facts about time -/

theorem PeriodTS_1m (ts : Time) :
    PeriodTS CandlePeriod1m ts = (ts.Truncate 60000000000, none) := by
  simp [PeriodTS, CandlePeriod1m, Minute]

theorem PeriodTS_2m (ts : Time) :
    PeriodTS CandlePeriod2m ts = (ts.Truncate 120000000000, none) := by
  simp [PeriodTS, CandlePeriod1m, CandlePeriod2m, Minute]

theorem PeriodTS_10m (ts : Time) :
    PeriodTS CandlePeriod10m ts = (ts.Truncate 600000000000, none) := by
  simp [PeriodTS, CandlePeriod1m, CandlePeriod2m, CandlePeriod10m, Minute]

theorem Truncate_1m (ts : Time) :
    ts.Truncate 60000000000 = { ns := ts.ns - ts.ns % 60000000000, loc := ts.loc, mono := none } := by
  simp [Time.Truncate, floorInstant]

theorem Truncate_2m (ts : Time) :
    ts.Truncate 120000000000
      = { ns := ts.ns - ts.ns % 120000000000, loc := ts.loc, mono := none } := by
  simp [Time.Truncate, floorInstant]

theorem Truncate_10m (ts : Time) :
    ts.Truncate 600000000000
      = { ns := ts.ns - ts.ns % 600000000000, loc := ts.loc, mono := none } := by
  simp [Time.Truncate, floorInstant]

/-- Shifting both instants by the same amount does not change their
difference. -/
theorem subInstant_add_left (b x y : Int) : subInstant (b + x) (b + y) = subInstant x y := by
  unfold subInstant
  rw [show b + x - (b + y) = x - y by omega]

/-- A saturated difference of exactly one minute is a difference of exactly
one minute. -/
theorem subInstant_eq_Minute (a b : Int) (h : subInstant a b = Minute) : a = b + Minute := by
  unfold subInstant maxDuration minDuration Minute at *
  split at h
  · omega
  · split at h <;> omega

/-- `Sub` from a time without monotonic reading compares wall-clock
instants. -/
theorem Sub_of_mono_none (a b : Time) (h : a.mono = none) : a.Sub b = subInstant a.ns b.ns := by
  unfold Time.Sub
  rw [h]

/-! ## Facts about prices -/

theorem F64.num_lt_num (x y : ℚ) : (F64.num x < F64.num y) ↔ x < y := Iff.rfl

theorem F64.num_le_num (x y : ℚ) : (F64.num x ≤ F64.num y) ↔ x ≤ y := Iff.rfl

theorem F64.le_ne_nan {a b : F64} (h : a ≤ b) : a ≠ F64.nan ∧ b ≠ F64.nan := by
  cases a <;> cases b <;> first | exact absurd h (fun h => h) | exact ⟨by simp, by simp⟩

theorem F64.le_trans {a b c : F64} (h1 : a ≤ b) (h2 : b ≤ c) : a ≤ c := by
  cases a <;> cases b <;> cases c <;>
    first
    | exact absurd h1 (fun h => h)
    | exact absurd h2 (fun h => h)
    | exact trivial
    | exact (F64.num_le_num _ _).mpr
        (((F64.num_le_num _ _).mp h1).trans ((F64.num_le_num _ _).mp h2))

theorem F64.le_antisymm {a b : F64} (h1 : a ≤ b) (h2 : b ≤ a) : a = b := by
  cases a <;> cases b <;>
    first
    | exact absurd h1 (fun h => h)
    | exact absurd h2 (fun h => h)
    | rfl
    | exact congrArg F64.num
        (((F64.num_le_num _ _).mp h1).antisymm ((F64.num_le_num _ _).mp h2))

theorem F64.le_refl {a : F64} (h : a ≠ F64.nan) : a ≤ a := by
  cases a with
  | nan => exact absurd rfl h
  | negInf => exact trivial
  | num x => exact (F64.num_le_num x x).mpr le_rfl
  | posInf => exact trivial

/-- Of two prices that are not `NaN`, one is `<` the other or it is `>=` the
other. -/
theorem F64.lt_or_le {a b : F64} (ha : a ≠ F64.nan) (hb : b ≠ F64.nan) : a < b ∨ b ≤ a := by
  cases a <;> cases b <;>
    first
    | exact absurd rfl ha
    | exact absurd rfl hb
    | exact Or.inl trivial
    | exact Or.inr trivial
    | exact (lt_or_ge _ _).imp (F64.num_lt_num _ _).mpr (F64.num_le_num _ _).mpr

theorem F64.le_of_lt {a b : F64} (h : a < b) : a ≤ b := by
  cases a <;> cases b <;>
    first
    | exact absurd h (fun h => h)
    | exact trivial
    | exact (F64.num_le_num _ _).mpr ((F64.num_lt_num _ _).mp h).le

/-- The larger of two prices that are not `NaN` is a price above both. -/
theorem F64.larger_spec {a b : F64} (ha : a ≠ F64.nan) (hb : b ≠ F64.nan) :
    a ≤ F64.larger a b ∧ b ≤ F64.larger a b ∧ F64.larger a b ≠ F64.nan := by
  unfold F64.larger
  rcases F64.lt_or_le ha hb with h | h
  · rw [if_pos h]
    exact ⟨F64.le_of_lt h, F64.le_refl hb, hb⟩
  · by_cases h2 : a < b
    · rw [if_pos h2]
      exact ⟨F64.le_of_lt h2, F64.le_refl hb, hb⟩
    · rw [if_neg h2]
      exact ⟨F64.le_refl ha, h, ha⟩

/-- The smaller of two prices that are not `NaN` is a price below both. -/
theorem F64.smaller_spec {a b : F64} (ha : a ≠ F64.nan) (hb : b ≠ F64.nan) :
    F64.smaller a b ≤ a ∧ F64.smaller a b ≤ b ∧ F64.smaller a b ≠ F64.nan := by
  unfold F64.smaller
  rcases F64.lt_or_le hb ha with h | h
  · rw [if_pos h]
    exact ⟨F64.le_of_lt h, F64.le_refl hb, hb⟩
  · by_cases h2 : b < a
    · rw [if_pos h2]
      exact ⟨F64.le_of_lt h2, F64.le_refl hb, hb⟩
    · rw [if_neg h2]
      exact ⟨F64.le_refl ha, h, ha⟩

theorem F64.larger_choice (a b : F64) : F64.larger a b = a ∨ F64.larger a b = b := by
  unfold F64.larger
  by_cases h : a < b
  · rw [if_pos h]; exact Or.inr rfl
  · rw [if_neg h]; exact Or.inl rfl

theorem F64.smaller_choice (a b : F64) : F64.smaller a b = a ∨ F64.smaller a b = b := by
  unfold F64.smaller
  by_cases h : b < a
  · rw [if_pos h]; exact Or.inr rfl
  · rw [if_neg h]; exact Or.inl rfl

/-- The larger of two prices that are not `NaN` does not depend on their
order. -/
theorem F64.larger_comm {a b : F64} (ha : a ≠ F64.nan) (hb : b ≠ F64.nan) :
    F64.larger a b = F64.larger b a := by
  obtain ⟨h1, h2, _⟩ := F64.larger_spec ha hb
  obtain ⟨h3, h4, _⟩ := F64.larger_spec hb ha
  apply F64.le_antisymm
  · rcases F64.larger_choice a b with h | h <;> rw [h]
    · exact h4
    · exact h3
  · rcases F64.larger_choice b a with h | h <;> rw [h]
    · exact h2
    · exact h1

/-- The smaller of two prices that are not `NaN` does not depend on their
order. -/
theorem F64.smaller_comm {a b : F64} (ha : a ≠ F64.nan) (hb : b ≠ F64.nan) :
    F64.smaller a b = F64.smaller b a := by
  obtain ⟨h1, h2, _⟩ := F64.smaller_spec ha hb
  obtain ⟨h3, h4, _⟩ := F64.smaller_spec hb ha
  apply F64.le_antisymm
  · rcases F64.smaller_choice b a with h | h <;> rw [h]
    · exact h2
    · exact h1
  · rcases F64.smaller_choice a b with h | h <;> rw [h]
    · exact h4
    · exact h3

/-! ## Facts about the reducer -/

theorem calculateStep_highPrice (tb te : Time) (r : Running) (p : Price) :
    (calculateStep tb te r p).highPrice = F64.larger r.highPrice p.Value := by
  unfold calculateStep F64.larger
  by_cases h1 : p.TS.Sub tb < 0 <;> by_cases h2 : 0 < p.TS.Sub te <;>
    by_cases h3 : r.highPrice < p.Value <;> by_cases h4 : p.Value < r.lowPrice <;>
    simp [h1, h2, h3, h4]

theorem calculateStep_lowPrice (tb te : Time) (r : Running) (p : Price) :
    (calculateStep tb te r p).lowPrice = F64.smaller r.lowPrice p.Value := by
  unfold calculateStep F64.smaller
  by_cases h1 : p.TS.Sub tb < 0 <;> by_cases h2 : 0 < p.TS.Sub te <;>
    by_cases h3 : r.highPrice < p.Value <;> by_cases h4 : p.Value < r.lowPrice <;>
    simp [h1, h2, h3, h4]

theorem calculateStep_openPrice (tb te : Time) (r : Running) (p : Price) :
    (calculateStep tb te r p).openPrice = r.openPrice ∨
      (calculateStep tb te r p).openPrice = p.Value := by
  unfold calculateStep
  by_cases h1 : p.TS.Sub tb < 0 <;> by_cases h2 : 0 < p.TS.Sub te <;>
    by_cases h3 : r.highPrice < p.Value <;> by_cases h4 : p.Value < r.lowPrice <;>
    simp [h1, h2, h3, h4]

theorem calculateStep_closePrice (tb te : Time) (r : Running) (p : Price) :
    (calculateStep tb te r p).closePrice = r.closePrice ∨
      (calculateStep tb te r p).closePrice = p.Value := by
  unfold calculateStep
  by_cases h1 : p.TS.Sub tb < 0 <;> by_cases h2 : 0 < p.TS.Sub te <;>
    by_cases h3 : r.highPrice < p.Value <;> by_cases h4 : p.Value < r.lowPrice <;>
    simp [h1, h2, h3, h4]

theorem calculateLoop_cons (tb te : Time) (r : Running) (p : Price) (l : List Price) :
    calculateLoop tb te r (p :: l) = calculateLoop tb te (calculateStep tb te r p) l := rfl

/-- With no `NaN` involved the running high never decreases along the loop
and the final high bounds every value seen by the loop. -/
theorem calculateLoop_highPrice_bound (tb te : Time) (l : List Price) (r : Running)
    (hr : r.highPrice ≠ F64.nan) (hl : ∀ q ∈ l, q.Value ≠ F64.nan) :
    r.highPrice ≤ (calculateLoop tb te r l).highPrice ∧
      ∀ q ∈ l, q.Value ≤ (calculateLoop tb te r l).highPrice := by
  induction l generalizing r with
  | nil => exact ⟨F64.le_refl hr, fun q hq => by cases hq⟩
  | cons p l ih =>
    rw [calculateLoop_cons]
    have hp : p.Value ≠ F64.nan := hl p (List.mem_cons_self _ _)
    obtain ⟨h1, h2, h3⟩ := F64.larger_spec hr hp
    have hstep := calculateStep_highPrice tb te r p
    obtain ⟨i1, i2⟩ := ih (calculateStep tb te r p) (by rw [hstep]; exact h3)
      (fun q hq => hl q (List.mem_cons_of_mem _ hq))
    rw [hstep] at i1
    refine ⟨F64.le_trans h1 i1, ?_⟩
    intro q hq
    rcases List.mem_cons.mp hq with h | h
    · subst h
      exact F64.le_trans h2 i1
    · exact i2 q h

/-- The final high is the initial high or a value seen by the loop. -/
theorem calculateLoop_highPrice_mem (tb te : Time) (l : List Price) (r : Running) :
    (calculateLoop tb te r l).highPrice = r.highPrice ∨
      ∃ q ∈ l, q.Value = (calculateLoop tb te r l).highPrice := by
  induction l generalizing r with
  | nil => exact Or.inl rfl
  | cons p l ih =>
    rw [calculateLoop_cons]
    rcases ih (calculateStep tb te r p) with h | ⟨q, hq, h⟩
    · rw [calculateStep_highPrice] at h
      rcases F64.larger_choice r.highPrice p.Value with hm | hm
      · exact Or.inl (by rw [h, hm])
      · exact Or.inr ⟨p, List.mem_cons_self _ _, by rw [h, hm]⟩
    · exact Or.inr ⟨q, List.mem_cons_of_mem _ hq, h⟩

/-- With no `NaN` involved the running low never increases along the loop and
the final low bounds every value seen by the loop. -/
theorem calculateLoop_lowPrice_bound (tb te : Time) (l : List Price) (r : Running)
    (hr : r.lowPrice ≠ F64.nan) (hl : ∀ q ∈ l, q.Value ≠ F64.nan) :
    (calculateLoop tb te r l).lowPrice ≤ r.lowPrice ∧
      ∀ q ∈ l, (calculateLoop tb te r l).lowPrice ≤ q.Value := by
  induction l generalizing r with
  | nil => exact ⟨F64.le_refl hr, fun q hq => by cases hq⟩
  | cons p l ih =>
    rw [calculateLoop_cons]
    have hp : p.Value ≠ F64.nan := hl p (List.mem_cons_self _ _)
    obtain ⟨h1, h2, h3⟩ := F64.smaller_spec hr hp
    have hstep := calculateStep_lowPrice tb te r p
    obtain ⟨i1, i2⟩ := ih (calculateStep tb te r p) (by rw [hstep]; exact h3)
      (fun q hq => hl q (List.mem_cons_of_mem _ hq))
    rw [hstep] at i1
    refine ⟨F64.le_trans i1 h1, ?_⟩
    intro q hq
    rcases List.mem_cons.mp hq with h | h
    · subst h
      exact F64.le_trans i1 h2
    · exact i2 q h

/-- The final low is the initial low or a value seen by the loop. -/
theorem calculateLoop_lowPrice_mem (tb te : Time) (l : List Price) (r : Running) :
    (calculateLoop tb te r l).lowPrice = r.lowPrice ∨
      ∃ q ∈ l, q.Value = (calculateLoop tb te r l).lowPrice := by
  induction l generalizing r with
  | nil => exact Or.inl rfl
  | cons p l ih =>
    rw [calculateLoop_cons]
    rcases ih (calculateStep tb te r p) with h | ⟨q, hq, h⟩
    · rw [calculateStep_lowPrice] at h
      rcases F64.smaller_choice r.lowPrice p.Value with hm | hm
      · exact Or.inl (by rw [h, hm])
      · exact Or.inr ⟨p, List.mem_cons_self _ _, by rw [h, hm]⟩
    · exact Or.inr ⟨q, List.mem_cons_of_mem _ hq, h⟩

/-- The final open is the initial open or a value seen by the loop. -/
theorem calculateLoop_openPrice_mem (tb te : Time) (l : List Price) (r : Running) :
    (calculateLoop tb te r l).openPrice = r.openPrice ∨
      ∃ q ∈ l, q.Value = (calculateLoop tb te r l).openPrice := by
  induction l generalizing r with
  | nil => exact Or.inl rfl
  | cons p l ih =>
    rw [calculateLoop_cons]
    rcases ih (calculateStep tb te r p) with h | ⟨q, hq, h⟩
    · rcases calculateStep_openPrice tb te r p with hs | hs
      · exact Or.inl (by rw [h, hs])
      · exact Or.inr ⟨p, List.mem_cons_self _ _, by rw [h, hs]⟩
    · exact Or.inr ⟨q, List.mem_cons_of_mem _ hq, h⟩

/-- The final close is the initial close or a value seen by the loop. -/
theorem calculateLoop_closePrice_mem (tb te : Time) (l : List Price) (r : Running) :
    (calculateLoop tb te r l).closePrice = r.closePrice ∨
      ∃ q ∈ l, q.Value = (calculateLoop tb te r l).closePrice := by
  induction l generalizing r with
  | nil => exact Or.inl rfl
  | cons p l ih =>
    rw [calculateLoop_cons]
    rcases ih (calculateStep tb te r p) with h | ⟨q, hq, h⟩
    · rcases calculateStep_closePrice tb te r p with hs | hs
      · exact Or.inl (by rw [h, hs])
      · exact Or.inr ⟨p, List.mem_cons_self _ _, by rw [h, hs]⟩
    · exact Or.inr ⟨q, List.mem_cons_of_mem _ hq, h⟩

/-- The running high of the loop is the larger price folded over the
values. -/
theorem calculateLoop_highPrice_fold (tb te : Time) (l : List Price) (r : Running) :
    (calculateLoop tb te r l).highPrice
      = l.foldl (fun h q => F64.larger h q.Value) r.highPrice := by
  induction l generalizing r with
  | nil => rfl
  | cons p l ih =>
    rw [calculateLoop_cons, ih, calculateStep_highPrice]
    rfl

/-- The running low of the loop is the smaller price folded over the
values. -/
theorem calculateLoop_lowPrice_fold (tb te : Time) (l : List Price) (r : Running) :
    (calculateLoop tb te r l).lowPrice
      = l.foldl (fun h q => F64.smaller h q.Value) r.lowPrice := by
  induction l generalizing r with
  | nil => rfl
  | cons p l ih =>
    rw [calculateLoop_cons, ih, calculateStep_lowPrice]
    rfl

/-- The candle `calculateCandle` returns on a non-empty slice, field by
field. -/
theorem calculateCandle_cons (p0 : Price) (l : List Price) (ws : Time) (p : CandlePeriod) :
    calculateCandle (p0 :: l) ws p =
      some { Ticker := p0.Ticker, Period := "", TS := ws,
             Open := (calculateLoop p0.TS p0.TS ⟨p0.Value, p0.Value, p0.Value, p0.Value⟩
                       (p0 :: l)).openPrice,
             Close := (calculateLoop p0.TS p0.TS ⟨p0.Value, p0.Value, p0.Value, p0.Value⟩
                       (p0 :: l)).closePrice,
             High := (calculateLoop p0.TS p0.TS ⟨p0.Value, p0.Value, p0.Value, p0.Value⟩
                       (p0 :: l)).highPrice,
             Low := (calculateLoop p0.TS p0.TS ⟨p0.Value, p0.Value, p0.Value, p0.Value⟩
                       (p0 :: l)).lowPrice } := rfl

/-- On a non-empty slice without `NaN`, `calculateCandle` returns a candle
whose high is a value of the slice that bounds all its values from above, and
whose low is a value of the slice that bounds them from below. -/
theorem calculateCandle_extrema (prices : List Price) (ws : Time) (p : CandlePeriod)
    (hne : prices ≠ []) (hnan : ∀ q ∈ prices, q.Value ≠ F64.nan) :
    ∃ c, calculateCandle prices ws p = some c ∧
      ((∃ q ∈ prices, q.Value = c.High) ∧ ∀ q ∈ prices, q.Value ≤ c.High) ∧
      ((∃ q ∈ prices, q.Value = c.Low) ∧ ∀ q ∈ prices, c.Low ≤ q.Value) := by
  cases prices with
  | nil => exact absurd rfl hne
  | cons p0 l =>
    have h0 : p0.Value ≠ F64.nan := hnan p0 (List.mem_cons_self _ _)
    refine ⟨_, calculateCandle_cons p0 l ws p, ⟨?_, ?_⟩, ⟨?_, ?_⟩⟩
    · rcases calculateLoop_highPrice_mem p0.TS p0.TS (p0 :: l)
          ⟨p0.Value, p0.Value, p0.Value, p0.Value⟩ with h | h
      · exact ⟨p0, List.mem_cons_self _ _, h.symm⟩
      · exact h
    · exact (calculateLoop_highPrice_bound p0.TS p0.TS (p0 :: l) _ h0 hnan).2
    · rcases calculateLoop_lowPrice_mem p0.TS p0.TS (p0 :: l)
          ⟨p0.Value, p0.Value, p0.Value, p0.Value⟩ with h | h
      · exact ⟨p0, List.mem_cons_self _ _, h.symm⟩
      · exact h
    · exact (calculateLoop_lowPrice_bound p0.TS p0.TS (p0 :: l) _ h0 hnan).2

/-- On a non-empty slice the open and the close `calculateCandle` returns are
values of the slice. -/
theorem calculateCandle_open_close_mem (prices : List Price) (ws : Time) (p : CandlePeriod)
    (c : Candle) (hc : calculateCandle prices ws p = some c) :
    (∃ q ∈ prices, q.Value = c.Open) ∧ (∃ q ∈ prices, q.Value = c.Close) := by
  cases prices with
  | nil => simp [calculateCandle] at hc
  | cons p0 l =>
    rw [calculateCandle_cons] at hc
    cases hc
    constructor
    · rcases calculateLoop_openPrice_mem p0.TS p0.TS (p0 :: l)
          ⟨p0.Value, p0.Value, p0.Value, p0.Value⟩ with h | h
      · exact ⟨p0, List.mem_cons_self _ _, h.symm⟩
      · exact h
    · rcases calculateLoop_closePrice_mem p0.TS p0.TS (p0 :: l)
          ⟨p0.Value, p0.Value, p0.Value, p0.Value⟩ with h | h
      · exact ⟨p0, List.mem_cons_self _ _, h.symm⟩
      · exact h

/-! ## The reducer: open, close, high, low -/

/-- C1 (code defect).  `calculateCandle` on five ticks with pairwise distinct
timestamps 3, 1, 2, 5, 4 and values 10, 20, 30, 40, 50: the tick with the
earliest timestamp has value 20 and the one with the latest has value 40, but
the returned candle has Open 30 and Close 50.  `timeBegin` and `timeEnd` stay
at the first tick's timestamp, so every tick earlier than the first overwrites
the open and every tick later than the first overwrites the close. -/
theorem calculateCandle_open_close_distinct_ts :
    calculateCandle
        [ { Ticker := "AAPL", Value := 10, TS := 3 }, { Ticker := "AAPL", Value := 20, TS := 1 },
          { Ticker := "AAPL", Value := 30, TS := 2 }, { Ticker := "AAPL", Value := 40, TS := 5 },
          { Ticker := "AAPL", Value := 50, TS := 4 } ] 0 CandlePeriod1m
      = some { Ticker := "AAPL", Period := "", Open := 30, High := 50, Low := 10,
               Close := 50, TS := 0 } := by
  decide

/-- C2 (as stated, refuted).  Three AAPL ticks with the values `NaN`, 5, 3:
`calculateCandle` returns a candle whose High and Low are both `NaN`, because
every comparison with the `NaN` taken from the first tick is false.  The value
5 of the slice is not below that High and the value 3 is not above that
Low. -/
theorem calculateCandle_high_low_nan :
    calculateCandle
        [ { Ticker := "AAPL", Value := F64.nan, TS := 1 },
          { Ticker := "AAPL", Value := 5, TS := 2 },
          { Ticker := "AAPL", Value := 3, TS := 3 } ] 0 CandlePeriod1m
      = some { Ticker := "AAPL", Period := "", Open := F64.nan, High := F64.nan,
               Low := F64.nan, Close := 3, TS := 0 } ∧
    ¬ ((5 : F64) ≤ F64.nan) ∧ ¬ (F64.nan ≤ (3 : F64)) := by
  decide

/-- C2 (amended).  On every non-empty slice of prices none of whose values is
`NaN`, `calculateCandle` returns a candle whose High is the maximum and whose
Low is the minimum of the `Value` fields of the slice: High is a value of the
slice and every value of the slice is `<=` High, Low is a value of the slice
and Low is `<=` every value of the slice. -/
theorem calculateCandle_high_low (prices : List Price) (ws : Time) (p : CandlePeriod)
    (hne : prices ≠ []) (hnan : ∀ q ∈ prices, q.Value ≠ F64.nan) :
    ∃ c, calculateCandle prices ws p = some c ∧
      (∃ q ∈ prices, q.Value = c.High) ∧ (∀ q ∈ prices, q.Value ≤ c.High) ∧
      (∃ q ∈ prices, q.Value = c.Low) ∧ (∀ q ∈ prices, c.Low ≤ q.Value) := by
  obtain ⟨c, hc, ⟨h1, h2⟩, ⟨h3, h4⟩⟩ := calculateCandle_extrema prices ws p hne hnan
  exact ⟨c, hc, h1, h2, h3, h4⟩

theorem calculateCandle_high_low_witness :
    ∃ c, calculateCandle [ { Ticker := "AAPL", Value := 7, TS := 1 },
                           { Ticker := "AAPL", Value := 3, TS := 2 } ] 0 CandlePeriod1m = some c ∧
      (∃ q ∈ [ ({ Ticker := "AAPL", Value := 7, TS := 1 } : Price),
               { Ticker := "AAPL", Value := 3, TS := 2 } ], q.Value = c.High) ∧
      (∀ q ∈ [ ({ Ticker := "AAPL", Value := 7, TS := 1 } : Price),
               { Ticker := "AAPL", Value := 3, TS := 2 } ], q.Value ≤ c.High) ∧
      (∃ q ∈ [ ({ Ticker := "AAPL", Value := 7, TS := 1 } : Price),
               { Ticker := "AAPL", Value := 3, TS := 2 } ], q.Value = c.Low) ∧
      (∀ q ∈ [ ({ Ticker := "AAPL", Value := 7, TS := 1 } : Price),
               { Ticker := "AAPL", Value := 3, TS := 2 } ], c.Low ≤ q.Value) :=
  calculateCandle_high_low _ 0 CandlePeriod1m (by simp) (by decide)

/-- C5 (code defect).  `calculateCandle` called with period `1m` on a single
AAPL tick and window start 0 returns a candle with Ticker `AAPL` and TS 0, but
with the empty string as Period: the candle literal never sets `Period`. -/
theorem calculateCandle_period_unset :
    calculateCandle [ { Ticker := "AAPL", Value := 100, TS := 10 } ] 0 CandlePeriod1m
        = some { Ticker := "AAPL", Period := "", Open := 100, High := 100, Low := 100,
                 Close := 100, TS := 0 } ∧
      ("" : CandlePeriod) ≠ CandlePeriod1m := by
  decide

/-- C6 (as stated, refuted).  Two AAPL ticks with the same timestamp and the
values 1 and 2: the slice and its permutation give different candles (Open and
Close are 1 for one order and 2 for the other).  And three AAPL ticks with the
values `NaN`, 5, 3: with `NaN` first the High and the Low are `NaN`, with `NaN`
second they are 5 and 3. -/
theorem calculateCandle_not_perm_invariant :
    ([ ({ Ticker := "AAPL", Value := 2, TS := 0 } : Price),
       { Ticker := "AAPL", Value := 1, TS := 0 } ]).Perm
      [ { Ticker := "AAPL", Value := 1, TS := 0 }, { Ticker := "AAPL", Value := 2, TS := 0 } ] ∧
    calculateCandle [ { Ticker := "AAPL", Value := 1, TS := 0 },
                      { Ticker := "AAPL", Value := 2, TS := 0 } ] 0 CandlePeriod1m
      = some { Ticker := "AAPL", Period := "", Open := 1, High := 2, Low := 1,
               Close := 1, TS := 0 } ∧
    calculateCandle [ { Ticker := "AAPL", Value := 2, TS := 0 },
                      { Ticker := "AAPL", Value := 1, TS := 0 } ] 0 CandlePeriod1m
      = some { Ticker := "AAPL", Period := "", Open := 2, High := 2, Low := 1,
               Close := 2, TS := 0 } ∧
    calculateCandle [ { Ticker := "AAPL", Value := 1, TS := 0 },
                      { Ticker := "AAPL", Value := 2, TS := 0 } ] 0 CandlePeriod1m
      ≠ calculateCandle [ { Ticker := "AAPL", Value := 2, TS := 0 },
                          { Ticker := "AAPL", Value := 1, TS := 0 } ] 0 CandlePeriod1m ∧
    ([ ({ Ticker := "AAPL", Value := 5, TS := 0 } : Price),
       { Ticker := "AAPL", Value := F64.nan, TS := 0 },
       { Ticker := "AAPL", Value := 3, TS := 0 } ]).Perm
      [ { Ticker := "AAPL", Value := F64.nan, TS := 0 },
        { Ticker := "AAPL", Value := 5, TS := 0 },
        { Ticker := "AAPL", Value := 3, TS := 0 } ] ∧
    calculateCandle [ { Ticker := "AAPL", Value := F64.nan, TS := 0 },
                      { Ticker := "AAPL", Value := 5, TS := 0 },
                      { Ticker := "AAPL", Value := 3, TS := 0 } ] 0 CandlePeriod1m
      = some { Ticker := "AAPL", Period := "", Open := F64.nan, High := F64.nan,
               Low := F64.nan, Close := F64.nan, TS := 0 } ∧
    calculateCandle [ { Ticker := "AAPL", Value := 5, TS := 0 },
                      { Ticker := "AAPL", Value := F64.nan, TS := 0 },
                      { Ticker := "AAPL", Value := 3, TS := 0 } ] 0 CandlePeriod1m
      = some { Ticker := "AAPL", Period := "", Open := 5, High := 5, Low := 3,
               Close := 5, TS := 0 } := by
  refine ⟨List.Perm.swap _ _ _, ?_, ?_, ?_, List.Perm.swap _ _ _, ?_, ?_⟩ <;> decide

/-- C6 (amended).  For every non-empty slice of prices of one symbol and every
permutation of it, `calculateCandle` with the same window start and period
returns a candle for each, and the two candles have the same Ticker, Period
and TS; when no value of the slice is `NaN`, they also have the same High and
the same Low. -/
theorem calculateCandle_perm (prices prices2 : List Price) (s : String) (ws : Time)
    (p : CandlePeriod) (hne : prices ≠ []) (hs : ∀ q ∈ prices, q.Ticker = s)
    (hperm : prices2.Perm prices) :
    ∃ c c2, calculateCandle prices ws p = some c ∧ calculateCandle prices2 ws p = some c2 ∧
      c2.Ticker = c.Ticker ∧ c2.Period = c.Period ∧ c2.TS = c.TS ∧
      ((∀ q ∈ prices, q.Value ≠ F64.nan) → c2.High = c.High ∧ c2.Low = c.Low) := by
  have hne2 : prices2 ≠ [] := by
    intro h
    rw [h] at hperm
    exact hne (List.Perm.eq_nil hperm.symm)
  cases prices with
  | nil => exact absurd rfl hne
  | cons a l =>
    cases prices2 with
    | nil => exact absurd rfl hne2
    | cons a2 l2 =>
      refine ⟨_, _, calculateCandle_cons a l ws p, calculateCandle_cons a2 l2 ws p, ?_, rfl, rfl,
        ?_⟩
      · show a2.Ticker = a.Ticker
        rw [hs a (List.mem_cons_self _ _),
          hs a2 (hperm.mem_iff.mp (List.mem_cons_self _ _))]
      · intro hnan
        have hnan2 : ∀ q ∈ a2 :: l2, q.Value ≠ F64.nan :=
          fun q hq => hnan q (hperm.mem_iff.mp hq)
        obtain ⟨c, hc, ⟨⟨q, hq, hqv⟩, hub⟩, ⟨⟨r, hr, hrv⟩, hlb⟩⟩ :=
          calculateCandle_extrema (a :: l) ws p hne hnan
        obtain ⟨c2, hc2, ⟨⟨q2, hq2, hqv2⟩, hub2⟩, ⟨⟨r2, hr2, hrv2⟩, hlb2⟩⟩ :=
          calculateCandle_extrema (a2 :: l2) ws p hne2 hnan2
        rw [calculateCandle_cons] at hc hc2
        cases hc
        cases hc2
        constructor
        · apply F64.le_antisymm
          · rw [← hqv2]; exact hub q2 (hperm.mem_iff.mp hq2)
          · rw [← hqv]; exact hub2 q (hperm.mem_iff.mpr hq)
        · apply F64.le_antisymm
          · rw [← hrv]; exact hlb2 r (hperm.mem_iff.mpr hr)
          · rw [← hrv2]; exact hlb r2 (hperm.mem_iff.mp hr2)

theorem calculateCandle_perm_witness :
    ∃ c c2,
      calculateCandle [ { Ticker := "AAPL", Value := 1, TS := 3 },
                        { Ticker := "AAPL", Value := 2, TS := 1 },
                        { Ticker := "AAPL", Value := 3, TS := 2 } ] 0 CandlePeriod1m = some c ∧
      calculateCandle [ { Ticker := "AAPL", Value := 2, TS := 1 },
                        { Ticker := "AAPL", Value := 3, TS := 2 },
                        { Ticker := "AAPL", Value := 1, TS := 3 } ] 0 CandlePeriod1m = some c2 ∧
      c2.Ticker = c.Ticker ∧ c2.Period = c.Period ∧ c2.TS = c.TS ∧
      c2.High = c.High ∧ c2.Low = c.Low := by
  obtain ⟨c, c2, h1, h2, h3, h4, h5, h6⟩ :=
    calculateCandle_perm
      [ { Ticker := "AAPL", Value := 1, TS := 3 }, { Ticker := "AAPL", Value := 2, TS := 1 },
        { Ticker := "AAPL", Value := 3, TS := 2 } ]
      [ { Ticker := "AAPL", Value := 2, TS := 1 }, { Ticker := "AAPL", Value := 3, TS := 2 },
        { Ticker := "AAPL", Value := 1, TS := 3 } ]
      "AAPL" 0 CandlePeriod1m (by simp) (by simp) (by decide)
  exact ⟨c, c2, h1, h2, h3, h4, h5, h6 (by decide)⟩

/-- C7.  The four AAPL ticks with values 100, 105, 95, 102 at 10 s, 20 s, 40 s
and 50 s after midnight of any day, in any Location, without monotonic clock
readings or with readings `m + 10 s`, `m + 20 s`, `m + 40 s`, `m + 50 s`, in
that arrival order: `PeriodTS` for `1m` maps each of them to that midnight
without error, and `calculateCandle` with that window start returns the
candle with symbol AAPL, open 100, close 102, high 105, low 95 and window
start midnight. -/
theorem calculateCandle_aapl_scenario (day : Int) (loc : Nat) (m : Option Int) :
    PeriodTS CandlePeriod1m
        { ns := day * 86400000000000 + 10000000000, loc := loc,
          mono := m.map (fun x => x + 10000000000) }
        = ({ ns := day * 86400000000000, loc := loc, mono := none }, none) ∧
      PeriodTS CandlePeriod1m
        { ns := day * 86400000000000 + 20000000000, loc := loc,
          mono := m.map (fun x => x + 20000000000) }
        = ({ ns := day * 86400000000000, loc := loc, mono := none }, none) ∧
      PeriodTS CandlePeriod1m
        { ns := day * 86400000000000 + 40000000000, loc := loc,
          mono := m.map (fun x => x + 40000000000) }
        = ({ ns := day * 86400000000000, loc := loc, mono := none }, none) ∧
      PeriodTS CandlePeriod1m
        { ns := day * 86400000000000 + 50000000000, loc := loc,
          mono := m.map (fun x => x + 50000000000) }
        = ({ ns := day * 86400000000000, loc := loc, mono := none }, none) ∧
      calculateCandle
          [ { Ticker := "AAPL", Value := 100,
              TS := { ns := day * 86400000000000 + 10000000000, loc := loc,
                      mono := m.map (fun x => x + 10000000000) } },
            { Ticker := "AAPL", Value := 105,
              TS := { ns := day * 86400000000000 + 20000000000, loc := loc,
                      mono := m.map (fun x => x + 20000000000) } },
            { Ticker := "AAPL", Value := 95,
              TS := { ns := day * 86400000000000 + 40000000000, loc := loc,
                      mono := m.map (fun x => x + 40000000000) } },
            { Ticker := "AAPL", Value := 102,
              TS := { ns := day * 86400000000000 + 50000000000, loc := loc,
                      mono := m.map (fun x => x + 50000000000) } } ]
          { ns := day * 86400000000000, loc := loc, mono := none } CandlePeriod1m
        = some { Ticker := "AAPL", Period := "", Open := 100, High := 105, Low := 95,
                 Close := 102,
                 TS := { ns := day * 86400000000000, loc := loc, mono := none } } := by
  have h1 : subInstant 10000000000 10000000000 = 0 := by decide
  have h2 : subInstant 20000000000 10000000000 = 10000000000 := by decide
  have h3 : subInstant 40000000000 10000000000 = 30000000000 := by decide
  have h4 : subInstant 50000000000 10000000000 = 40000000000 := by decide
  have c1 : ¬ ((100 : F64) < 100) := by decide
  have c2 : (100 : F64) < 105 := by decide
  have c3 : ¬ ((105 : F64) < 100) := by decide
  have c4 : ¬ ((105 : F64) < 95) := by decide
  have c5 : (95 : F64) < 100 := by decide
  have c6 : ¬ ((105 : F64) < 102) := by decide
  have c7 : ¬ ((102 : F64) < 95) := by decide
  refine ⟨?_, ?_, ?_, ?_, ?_⟩
  · rw [PeriodTS_1m, Truncate_1m]; congr 2; simp only []; omega
  · rw [PeriodTS_1m, Truncate_1m]; congr 2; simp only []; omega
  · rw [PeriodTS_1m, Truncate_1m]; congr 2; simp only []; omega
  · rw [PeriodTS_1m, Truncate_1m]; congr 2; simp only []; omega
  · rw [calculateCandle_cons]
    cases m with
    | none =>
      simp only [calculateLoop, List.foldl, calculateStep, Time.Sub, subInstant_add_left,
        Option.map_none']
      simp [h1, h2, h3, h4, c1, c2, c3, c4, c5, c6, c7]
    | some x =>
      simp only [calculateLoop, List.foldl, calculateStep, Time.Sub, subInstant_add_left,
        Option.map_some']
      simp [h1, h2, h3, h4, c1, c2, c3, c4, c5, c6, c7]

/-- C18 (as stated, refuted).  Three AAPL ticks with the values `NaN`, 5, 3 at
the timestamps 1, 2, 3: `calculateCandle` returns Low and High `NaN` and Close
3, and neither `Low <= Close` nor `Close <= High` holds. -/
theorem calculateCandle_unordered_nan :
    calculateCandle
        [ { Ticker := "AAPL", Value := F64.nan, TS := 1 },
          { Ticker := "AAPL", Value := 5, TS := 2 },
          { Ticker := "AAPL", Value := 3, TS := 3 } ] 0 CandlePeriod1m
      = some { Ticker := "AAPL", Period := "", Open := F64.nan, High := F64.nan,
               Low := F64.nan, Close := 3, TS := 0 } ∧
    ¬ (F64.nan ≤ (3 : F64)) ∧ ¬ ((3 : F64) ≤ F64.nan) := by
  decide

/-- C18 (amended).  On every non-empty slice of prices `calculateCandle`
returns a candle whose Open and Close are values of records of the slice; when
no value of the slice is `NaN`, the candle has `Low <= Open <= High` and
`Low <= Close <= High`. -/
theorem calculateCandle_ordered (prices : List Price) (ws : Time) (p : CandlePeriod)
    (hne : prices ≠ []) :
    ∃ c, calculateCandle prices ws p = some c ∧
      (∃ q ∈ prices, q.Value = c.Open) ∧ (∃ q ∈ prices, q.Value = c.Close) ∧
      ((∀ q ∈ prices, q.Value ≠ F64.nan) →
        c.Low ≤ c.Open ∧ c.Open ≤ c.High ∧ c.Low ≤ c.Close ∧ c.Close ≤ c.High) := by
  cases prices with
  | nil => exact absurd rfl hne
  | cons p0 l =>
    have hc := calculateCandle_cons p0 l ws p
    obtain ⟨⟨q, hq, hqv⟩, ⟨q2, hq2, hqv2⟩⟩ := calculateCandle_open_close_mem _ ws p _ hc
    refine ⟨_, hc, ⟨q, hq, hqv⟩, ⟨q2, hq2, hqv2⟩, ?_⟩
    intro hnan
    obtain ⟨c, hc2, ⟨_, hub⟩, ⟨_, hlb⟩⟩ := calculateCandle_extrema (p0 :: l) ws p hne hnan
    rw [hc] at hc2
    cases hc2
    refine ⟨?_, ?_, ?_, ?_⟩
    · rw [← hqv]; exact hlb q hq
    · rw [← hqv]; exact hub q hq
    · rw [← hqv2]; exact hlb q2 hq2
    · rw [← hqv2]; exact hub q2 hq2

theorem calculateCandle_ordered_witness :
    ∃ c, calculateCandle [ { Ticker := "AAPL", Value := 7, TS := 2 },
                           { Ticker := "AAPL", Value := 3, TS := 1 },
                           { Ticker := "AAPL", Value := 9, TS := 3 } ] 0 CandlePeriod1m = some c ∧
      (∃ q ∈ [ ({ Ticker := "AAPL", Value := 7, TS := 2 } : Price),
               { Ticker := "AAPL", Value := 3, TS := 1 },
               { Ticker := "AAPL", Value := 9, TS := 3 } ], q.Value = c.Open) ∧
      (∃ q ∈ [ ({ Ticker := "AAPL", Value := 7, TS := 2 } : Price),
               { Ticker := "AAPL", Value := 3, TS := 1 },
               { Ticker := "AAPL", Value := 9, TS := 3 } ], q.Value = c.Close) ∧
      c.Low ≤ c.Open ∧ c.Open ≤ c.High ∧ c.Low ≤ c.Close ∧ c.Close ≤ c.High := by
  obtain ⟨c, h1, h2, h3, h4⟩ :=
    calculateCandle_ordered
      [ { Ticker := "AAPL", Value := 7, TS := 2 }, { Ticker := "AAPL", Value := 3, TS := 1 },
        { Ticker := "AAPL", Value := 9, TS := 3 } ] 0 CandlePeriod1m (by simp)
  exact ⟨c, h1, h2, h3, h4 (by decide)⟩

/-! ## Window keys -/

/-- C8.  For each of the periods `1m`, `2m`, `10m` with duration `d` of 1, 2,
10 minutes and every timestamp `ts`, `PeriodTS` returns without error a window
start `w` whose instant is a multiple of `d` counted from the zero time, with
`w ≤ ts < w + d`, in the Location of `ts`, and `PeriodTS` maps `w` to
itself. -/
theorem PeriodTS_floor (p : CandlePeriod) (d : Int) (ts : Time)
    (hp : (p, d) ∈ [(CandlePeriod1m, Minute), (CandlePeriod2m, 2 * Minute),
                    (CandlePeriod10m, 10 * Minute)]) :
    ∃ w, PeriodTS p ts = (w, none) ∧ d ∣ w.ns ∧ w.ns ≤ ts.ns ∧ ts.ns < w.ns + d ∧
      w.loc = ts.loc ∧ PeriodTS p w = (w, none) := by
  simp only [List.mem_cons, Prod.mk.injEq, List.mem_singleton, List.not_mem_nil,
    or_false] at hp
  rcases hp with ⟨rfl, rfl⟩ | ⟨rfl, rfl⟩ | ⟨rfl, rfl⟩
  · refine ⟨ts.Truncate 60000000000, PeriodTS_1m ts, ?_, ?_, ?_, rfl, ?_⟩
    · rw [Truncate_1m]; exact Int.dvd_of_emod_eq_zero (by unfold Minute; simp only []; omega)
    · rw [Truncate_1m]; simp only []; omega
    · rw [Truncate_1m]; unfold Minute; simp only []; omega
    · rw [PeriodTS_1m, Truncate_1m, Truncate_1m]; congr 2; simp only []; omega
  · refine ⟨ts.Truncate 120000000000, PeriodTS_2m ts, ?_, ?_, ?_, rfl, ?_⟩
    · rw [Truncate_2m]; exact Int.dvd_of_emod_eq_zero (by unfold Minute; simp only []; omega)
    · rw [Truncate_2m]; simp only []; omega
    · rw [Truncate_2m]; unfold Minute; simp only []; omega
    · rw [PeriodTS_2m, Truncate_2m, Truncate_2m]; congr 2; simp only []; omega
  · refine ⟨ts.Truncate 600000000000, PeriodTS_10m ts, ?_, ?_, ?_, rfl, ?_⟩
    · rw [Truncate_10m]; exact Int.dvd_of_emod_eq_zero (by unfold Minute; simp only []; omega)
    · rw [Truncate_10m]; simp only []; omega
    · rw [Truncate_10m]; unfold Minute; simp only []; omega
    · rw [PeriodTS_10m, Truncate_10m, Truncate_10m]; congr 2; simp only []; omega

theorem PeriodTS_floor_witness :
    ∃ w, PeriodTS CandlePeriod2m { ns := 3 * Minute + 5, loc := 0, mono := none } = (w, none) ∧
      2 * Minute ∣ w.ns ∧
      w.ns ≤ ({ ns := 3 * Minute + 5, loc := 0, mono := none } : Time).ns ∧
      ({ ns := 3 * Minute + 5, loc := 0, mono := none } : Time).ns < w.ns + 2 * Minute ∧
      w.loc = ({ ns := 3 * Minute + 5, loc := 0, mono := none } : Time).loc ∧
      PeriodTS CandlePeriod2m w = (w, none) :=
  PeriodTS_floor CandlePeriod2m (2 * Minute) { ns := 3 * Minute + 5, loc := 0, mono := none }
    (by simp)

/-- C9.  Windows nest across periods.  For every timestamp `ts`, the `2m`
window of the `1m` window start of `ts` is the `2m` window of `ts`, and the
`10m` window of its `2m` window start is its `10m` window.  For every
2-minute-aligned instant `W = k * 2m`, `ts` lies in the `2m` window `W`
exactly when its `1m` window starts at `W` or at `W + 1m`; for every
10-minute-aligned `W = k * 10m`, `ts` lies in the `10m` window `W` exactly
when its `2m` window starts at one of `W`, `W + 2m`, `W + 4m`, `W + 6m`,
`W + 8m`.  The listed window starts are pairwise different and `PeriodTS` is a
function, so the finer windows are disjoint. -/
theorem PeriodTS_nest (ts : Time) (k : Int) :
    PeriodTS CandlePeriod2m (PeriodTS CandlePeriod1m ts).1 = PeriodTS CandlePeriod2m ts ∧
    PeriodTS CandlePeriod10m (PeriodTS CandlePeriod2m ts).1 = PeriodTS CandlePeriod10m ts ∧
    ((PeriodTS CandlePeriod2m ts).1.ns = k * (2 * Minute) ↔
      (PeriodTS CandlePeriod1m ts).1.ns = k * (2 * Minute) ∨
      (PeriodTS CandlePeriod1m ts).1.ns = k * (2 * Minute) + Minute) ∧
    ((PeriodTS CandlePeriod10m ts).1.ns = k * (10 * Minute) ↔
      (PeriodTS CandlePeriod2m ts).1.ns = k * (10 * Minute) ∨
      (PeriodTS CandlePeriod2m ts).1.ns = k * (10 * Minute) + 2 * Minute ∨
      (PeriodTS CandlePeriod2m ts).1.ns = k * (10 * Minute) + 4 * Minute ∨
      (PeriodTS CandlePeriod2m ts).1.ns = k * (10 * Minute) + 6 * Minute ∨
      (PeriodTS CandlePeriod2m ts).1.ns = k * (10 * Minute) + 8 * Minute) ∧
    (PeriodTS CandlePeriod1m ts).2 = none ∧ (PeriodTS CandlePeriod2m ts).2 = none ∧
    (PeriodTS CandlePeriod10m ts).2 = none ∧
    [k * (2 * Minute), k * (2 * Minute) + Minute].Nodup ∧
    [k * (10 * Minute), k * (10 * Minute) + 2 * Minute, k * (10 * Minute) + 4 * Minute,
      k * (10 * Minute) + 6 * Minute, k * (10 * Minute) + 8 * Minute].Nodup := by
  simp only [PeriodTS_1m, PeriodTS_2m, PeriodTS_10m, Truncate_1m, Truncate_2m, Truncate_10m,
    Prod.mk.injEq, and_true, Minute, Time.mk.injEq, true_and,
    List.nodup_cons, List.mem_cons, List.mem_singleton, List.not_mem_nil, List.nodup_nil,
    or_false, not_false_eq_true]
  refine ⟨by omega, by omega, ⟨?_, ?_⟩, ⟨?_, ?_⟩, by omega, by omega⟩
  · intro h; omega
  · intro h; omega
  · intro h; omega
  · intro h; omega

/-! ## Unknown periods -/

/-- A stage of 2-minute candles that has left its loop stays as it is. -/
theorem foldl_step2m_stopped (l : List Candle) (st : Stage Candle)
    (h : st.status ≠ Status.running) : l.foldl step2m st = st := by
  induction l with
  | nil => rfl
  | cons c l ih =>
    have hs : step2m st c = st := by unfold step2m; rw [if_pos h]
    rw [List.foldl_cons, hs, ih]

/-- A stage of 10-minute candles that has left its loop stays as it is. -/
theorem foldl_step10m_stopped (l : List Candle) (st : Stage Candle)
    (h : st.status ≠ Status.running) : l.foldl step10m st = st := by
  induction l with
  | nil => rfl
  | cons c l ih =>
    have hs : step10m st c = st := by unfold step10m; rw [if_pos h]
    rw [List.foldl_cons, hs, ih]

/-- A stage of 1-minute candles that has left its loop stays as it is. -/
theorem run1m_stopped (l : List Price) (order : Nat → MapOrder) (st : Stage Price)
    (h : st.status ≠ Status.running) : run1m order st l = st := by
  induction l generalizing order with
  | nil => rfl
  | cons p l ih =>
    have hs : step1m (order 0) st p = st := by unfold step1m; rw [if_pos h]
    rw [run1m, hs, ih]

/-- C15.  `PeriodTS` returns the zero time together with `ErrUnknownPeriod`
exactly when the period is none of `1m`, `2m`, `10m`, and returns no error
otherwise.  Each stage calls `PeriodTS` and hands the result to the rest of
its loop body (`step1mOn`, `step2mOn`, `step10mOn`); a loop body that receives
the zero time with `ErrUnknownPeriod` leaves the loop without sending
anything, and whatever input follows, the candles sent stay those sent
before. -/
theorem PeriodTS_unknown_period (p : CandlePeriod) (ts : Time)
    (o : MapOrder) (order : Nat → MapOrder) (st1 : Stage Price) (q : Price) (rest1 : List Price)
    (st2 : Stage Candle) (c : Candle) (rest2 : List Candle) :
    (PeriodTS p ts = (0, some Error.ErrUnknownPeriod) ↔
      (p ≠ CandlePeriod1m ∧ p ≠ CandlePeriod2m ∧ p ≠ CandlePeriod10m)) ∧
    ((PeriodTS p ts).2 = none ↔
      (p = CandlePeriod1m ∨ p = CandlePeriod2m ∨ p = CandlePeriod10m)) ∧
    step1m o st1 q = step1mOn o (PeriodTS CandlePeriod1m q.TS) st1 q ∧
    step2m st2 c = step2mOn (PeriodTS CandlePeriod2m c.TS) st2 c ∧
    step10m st2 c = step10mOn (PeriodTS CandlePeriod10m c.TS) st2 c ∧
    (step1mOn o (0, some Error.ErrUnknownPeriod) st1 q).status ≠ Status.running ∧
    (run1m order (step1mOn o (0, some Error.ErrUnknownPeriod) st1 q) rest1).out = st1.out ∧
    (step2mOn (0, some Error.ErrUnknownPeriod) st2 c).status ≠ Status.running ∧
    (rest2.foldl step2m (step2mOn (0, some Error.ErrUnknownPeriod) st2 c)).out = st2.out ∧
    (step10mOn (0, some Error.ErrUnknownPeriod) st2 c).status ≠ Status.running ∧
    (rest2.foldl step10m (step10mOn (0, some Error.ErrUnknownPeriod) st2 c)).out = st2.out := by
  have e1 : (step1mOn o (0, some Error.ErrUnknownPeriod) st1 q).status ≠ Status.running ∧
      (step1mOn o (0, some Error.ErrUnknownPeriod) st1 q).out = st1.out := by
    unfold step1mOn
    by_cases h : st1.status ≠ Status.running
    · rw [if_pos h]; exact ⟨h, rfl⟩
    · rw [if_neg h]; simp
  have e2 : (step2mOn (0, some Error.ErrUnknownPeriod) st2 c).status ≠ Status.running ∧
      (step2mOn (0, some Error.ErrUnknownPeriod) st2 c).out = st2.out := by
    unfold step2mOn
    by_cases h : st2.status ≠ Status.running
    · rw [if_pos h]; exact ⟨h, rfl⟩
    · rw [if_neg h]; simp
  have e10 : (step10mOn (0, some Error.ErrUnknownPeriod) st2 c).status ≠ Status.running ∧
      (step10mOn (0, some Error.ErrUnknownPeriod) st2 c).out = st2.out := by
    unfold step10mOn
    by_cases h : st2.status ≠ Status.running
    · rw [if_pos h]; exact ⟨h, rfl⟩
    · rw [if_neg h]; simp
  refine ⟨?_, ?_, rfl, rfl, rfl, e1.1, ?_, e2.1, ?_, e10.1, ?_⟩
  · unfold PeriodTS
    by_cases h1 : p = CandlePeriod1m
    · rw [if_pos h1]; simp [h1]
    · rw [if_neg h1]
      by_cases h2 : p = CandlePeriod2m
      · rw [if_pos h2]; simp [h2]
      · rw [if_neg h2]
        by_cases h3 : p = CandlePeriod10m
        · rw [if_pos h3]; simp [h3]
        · rw [if_neg h3]; simp [h1, h2, h3]
  · unfold PeriodTS
    by_cases h1 : p = CandlePeriod1m
    · rw [if_pos h1]; simp [h1]
    · rw [if_neg h1]
      by_cases h2 : p = CandlePeriod2m
      · rw [if_pos h2]; simp [h2]
      · rw [if_neg h2]
        by_cases h3 : p = CandlePeriod10m
        · rw [if_pos h3]; simp [h3]
        · rw [if_neg h3]; simp [h1, h2, h3]
  · rw [run1m_stopped _ _ _ e1.1]; exact e1.2
  · rw [foldl_step2m_stopped _ _ e2.1]; exact e2.2
  · rw [foldl_step10m_stopped _ _ e10.1]; exact e10.2

/-! ## Facts about Go maps -/

theorem mapGet_mapSet_self {κ β : Type} [DecidableEq κ] (m : List (κ × β)) (k : κ) (v : β) :
    mapGet (mapSet m k v) k = some v := by
  induction m with
  | nil => simp [mapSet, mapGet]
  | cons e m ih =>
    obtain ⟨k1, v1⟩ := e
    by_cases h : k1 = k
    · simp [mapSet, mapGet, h]
    · simp [mapSet, mapGet, h, ih]

theorem mapGet_mapSet_ne {κ β : Type} [DecidableEq κ] (m : List (κ × β)) (k k2 : κ) (v : β)
    (hne : k2 ≠ k) : mapGet (mapSet m k v) k2 = mapGet m k2 := by
  induction m with
  | nil => simp [mapSet, mapGet, Ne.symm hne]
  | cons e m ih =>
    obtain ⟨k1, v1⟩ := e
    by_cases h : k1 = k
    · subst h
      simp [mapSet, mapGet, Ne.symm hne]
    · by_cases h2 : k1 = k2
      · subst h2
        simp [mapSet, mapGet, h]
      · simp [mapSet, mapGet, h, h2, ih]

theorem mapDelete_cons {κ β : Type} [DecidableEq κ] (m : List (κ × β)) (k k1 : κ) (v1 : β) :
    mapDelete ((k1, v1) :: m) k = if k1 = k then mapDelete m k else (k1, v1) :: mapDelete m k := by
  unfold mapDelete
  by_cases h : k1 = k
  · simp [List.filter, h]
  · simp [List.filter, h]

theorem mapGet_mapDelete_self {κ β : Type} [DecidableEq κ] (m : List (κ × β)) (k : κ) :
    mapGet (mapDelete m k) k = none := by
  induction m with
  | nil => rfl
  | cons e m ih =>
    obtain ⟨k1, v1⟩ := e
    rw [mapDelete_cons]
    by_cases h : k1 = k
    · rw [if_pos h]; exact ih
    · rw [if_neg h]
      simp [mapGet, h, ih]

theorem mapGet_mapDelete_ne {κ β : Type} [DecidableEq κ] (m : List (κ × β)) (k k2 : κ)
    (hne : k2 ≠ k) : mapGet (mapDelete m k) k2 = mapGet m k2 := by
  induction m with
  | nil => rfl
  | cons e m ih =>
    obtain ⟨k1, v1⟩ := e
    rw [mapDelete_cons]
    by_cases h : k1 = k
    · rw [if_pos h, ih]
      subst h
      simp [mapGet, Ne.symm hne]
    · rw [if_neg h]
      by_cases h2 : k1 = k2
      · simp [mapGet, h2]
      · simp [mapGet, h2, ih]

theorem mem_mapKeys_iff {κ β : Type} [DecidableEq κ] (m : List (κ × β)) (k : κ) :
    k ∈ mapKeys m ↔ ∃ v, mapGet m k = some v := by
  induction m with
  | nil => simp [mapKeys, mapGet]
  | cons e m ih =>
    obtain ⟨k1, v1⟩ := e
    have ih2 : k ∈ List.map Prod.fst m ↔ ∃ v, mapGet m k = some v := ih
    by_cases h : k1 = k
    · simp [mapKeys, mapGet, h]
    · simp [mapKeys, mapGet, h, ih2, Ne.symm h]

theorem mem_mapKeys_mapSet {κ β : Type} [DecidableEq κ] (m : List (κ × β)) (k x : κ) (v : β) :
    x ∈ mapKeys (mapSet m k v) ↔ x = k ∨ x ∈ mapKeys m := by
  rw [mem_mapKeys_iff, mem_mapKeys_iff]
  by_cases h : x = k
  · subst h
    simp [mapGet_mapSet_self]
  · rw [mapGet_mapSet_ne m k x v h]
    simp [h]

theorem nodup_mapKeys_mapSet {κ β : Type} [DecidableEq κ] (m : List (κ × β)) (k : κ) (v : β)
    (hnd : (mapKeys m).Nodup) : (mapKeys (mapSet m k v)).Nodup := by
  induction m with
  | nil => simp [mapSet, mapKeys]
  | cons e m ih =>
    obtain ⟨k1, v1⟩ := e
    have hnd2 : k1 ∉ mapKeys m ∧ (mapKeys m).Nodup := by
      simpa [mapKeys] using hnd
    by_cases h : k1 = k
    · subst h
      simpa [mapSet, mapKeys] using hnd
    · have hmem : k1 ∉ mapKeys (mapSet m k v) := by
        rw [mem_mapKeys_mapSet]
        simp [h, hnd2.1]
      have := ih hnd2.2
      simp only [mapSet, h, if_false, mapKeys, List.map_cons, List.nodup_cons]
      exact ⟨hmem, this⟩

/-! ## Facts about accumulators -/

theorem mapSlice2_eq_stored {β : Type} (m : List (String × List (Time × List β))) (t : String)
    (k : Time) : mapSlice2 m t k = (stored m t k).getD [] := by
  unfold mapSlice2 mapSlice stored
  cases mapGet m t with
  | none => rfl
  | some tg => rfl

/-- What `accumulate` stores: the accumulator under `(t, k)` grows by `x` at
its end, every other accumulator stays. -/
theorem stored_accumulate {β : Type} (m : List (String × List (Time × List β))) (t : String)
    (k : Time) (x : β) (t2 : String) (k2 : Time) :
    stored (accumulate m t k x) t2 k2 =
      if t2 = t ∧ k2 = k then some (mapSlice2 m t k ++ [x]) else stored m t2 k2 := by
  unfold accumulate stored mapSlice2
  by_cases ht : t2 = t
  · subst ht
    cases hg : mapGet m t2 with
    | none =>
      simp only [Option.isNone_none, if_true, mapGet_mapSet_self, Option.getD_some,
        Option.getD_none, Option.bind_some, Option.bind_none, true_and]
      by_cases hk : k2 = k
      · subst hk
        simp [mapGet_mapSet_self]
      · simp [hk, mapGet_mapSet_ne _ _ _ _ hk, mapGet, Ne.symm hk]
    | some tg =>
      simp only [Option.isNone_some, Bool.false_eq_true, if_false, hg, mapGet_mapSet_self,
        Option.getD_some, Option.bind_some, true_and]
      by_cases hk : k2 = k
      · subst hk
        simp [mapGet_mapSet_self]
      · simp [hk, mapGet_mapSet_ne _ _ _ _ hk]
  · cases hg : mapGet m t with
    | none =>
      simp [ht, mapGet_mapSet_ne _ _ _ _ ht]
    | some tg =>
      simp [ht, mapGet_mapSet_ne _ _ _ _ ht]

/-- What `discard` removes: the accumulator under `(t, k)` is gone, every
other accumulator stays. -/
theorem stored_discard {β : Type} (m : List (String × List (Time × List β))) (t : String)
    (k : Time) (t2 : String) (k2 : Time) :
    stored (discard m t k) t2 k2 = if t2 = t ∧ k2 = k then none else stored m t2 k2 := by
  unfold discard stored
  cases hg : mapGet m t with
  | none =>
    by_cases ht : t2 = t
    · subst ht
      simp [hg]
    · simp [ht]
  | some tg =>
    by_cases ht : t2 = t
    · subst ht
      simp only [mapGet_mapSet_self, Option.bind_some, hg, true_and]
      by_cases hk : k2 = k
      · subst hk
        simp [mapGet_mapDelete_self]
      · simp [hk, mapGet_mapDelete_ne _ _ _ hk]
    · simp [ht, mapGet_mapSet_ne _ _ _ _ ht]

theorem nodup_mapKeys_accumulate {β : Type} (m : List (String × List (Time × List β)))
    (t : String) (k : Time) (x : β) (hnd : (mapKeys m).Nodup) :
    (mapKeys (accumulate m t k x)).Nodup := by
  unfold accumulate
  apply nodup_mapKeys_mapSet
  by_cases h : (mapGet m t).isNone
  · simp only [h, if_true]
    exact nodup_mapKeys_mapSet _ _ _ hnd
  · simp only [h, if_false]
    exact hnd

theorem nodup_mapKeys_discard {β : Type} (m : List (String × List (Time × List β)))
    (t : String) (k : Time) (hnd : (mapKeys m).Nodup) :
    (mapKeys (discard m t k)).Nodup := by
  unfold discard
  cases mapGet m t with
  | none => exact hnd
  | some tg => exact nodup_mapKeys_mapSet _ _ _ hnd

/-! ## The roll-up stages: one loop body for both -/

theorem step2m_eq_stepRoll (st : Stage Candle) (c : Candle) :
    step2m st c = stepRoll CandlePeriod2m 2 st c := by
  unfold step2m stepRoll
  by_cases hst : st.status ≠ Status.running
  · rw [if_pos hst, if_pos hst]
  · rw [if_neg hst, if_neg hst]
    simp only [PeriodTS_2m, ne_eq, not_true_eq_false, if_false]
    rcases h : mapSlice2 (accumulate st.candleMap c.Ticker (c.TS.Truncate 120000000000) c)
        c.Ticker (c.TS.Truncate 120000000000) with _ | ⟨a, _ | ⟨b, _ | ⟨e, l⟩⟩⟩
    · simp
    · simp
    · simp
    · simp

theorem step10m_eq_stepRoll (st : Stage Candle) (c : Candle) :
    step10m st c = stepRoll CandlePeriod10m 5 st c := by
  unfold step10m stepRoll
  by_cases hst : st.status ≠ Status.running
  · rw [if_pos hst, if_pos hst]
  · rw [if_neg hst, if_neg hst]
    simp only [PeriodTS_10m, ne_eq, not_true_eq_false, if_false]
    by_cases hl : (mapSlice2 (accumulate st.candleMap c.Ticker (c.TS.Truncate 600000000000) c)
        c.Ticker (c.TS.Truncate 600000000000)).length = 5
    · rw [if_pos hl, if_pos hl, List.take_of_length_le (le_of_eq hl)]
    · rw [if_neg hl, if_neg hl]

theorem Create2mCandles_eq_foldl (inside : List Candle) :
    Create2mCandles inside = inside.foldl (stepRoll CandlePeriod2m 2) Stage.fresh := by
  unfold Create2mCandles
  congr 1
  funext st c
  exact step2m_eq_stepRoll st c

theorem Create10mCandles_eq_foldl (inside : List Candle) :
    Create10mCandles inside = inside.foldl (stepRoll CandlePeriod10m 5) Stage.fresh := by
  unfold Create10mCandles
  congr 1
  funext st c
  exact step10m_eq_stepRoll st c

theorem mem_flatMap_candlePrices (t : String) (acc : List Candle) (q : Price)
    (h : q ∈ acc.flatMap (candlePrices t)) : q.Ticker = t := by
  rw [List.mem_flatMap] at h
  obtain ⟨a, _, hq⟩ := h
  simp only [candlePrices, List.mem_cons, List.mem_singleton, List.not_mem_nil, or_false] at hq
  rcases hq with rfl | rfl | rfl | rfl <;> rfl

theorem length_flatMap_candlePrices (t : String) (acc : List Candle) :
    (acc.flatMap (candlePrices t)).length = 4 * acc.length := by
  induction acc with
  | nil => rfl
  | cons a l ih =>
    simp only [List.flatMap_cons, List.length_append, ih, List.length_cons, candlePrices,
      List.length_nil]
    omega

/-- The reducer on the prices built from a non-empty list of stored candles
returns a candle with the stage's ticker and window start. -/
theorem calculateCandle_flatMap (t : String) (acc : List Candle) (k : Time) (p : CandlePeriod)
    (hne : acc ≠ []) :
    ∃ x, calculateCandle (acc.flatMap (candlePrices t)) k p = some x ∧
      x.Ticker = t ∧ x.TS = k := by
  cases acc with
  | nil => exact absurd rfl hne
  | cons a l =>
    simp only [List.flatMap_cons, candlePrices, List.cons_append, List.nil_append,
      calculateCandle_cons]
    exact ⟨_, rfl, rfl, rfl⟩

/-- The loop body of a roll-up stage in a running state: either the candle is
only appended to its accumulator, or the accumulator has reached `n` candles,
one candle is sent and the accumulator is deleted. -/
theorem stepRoll_running (period : CandlePeriod) (d : Int) (n : Nat)
    (hP : ∀ ts, PeriodTS period ts = (ts.Truncate d, none))
    (st : Stage Candle) (c : Candle) (hst : st.status = Status.running) :
    ((mapSlice2 st.candleMap c.Ticker (c.TS.Truncate d) ++ [c]).length ≠ n ∧
      stepRoll period n st c =
        { candleMap := accumulate st.candleMap c.Ticker (c.TS.Truncate d) c,
          out := st.out, status := Status.running, calls := st.calls }) ∨
    ((mapSlice2 st.candleMap c.Ticker (c.TS.Truncate d) ++ [c]).length = n ∧
      ∃ x, calculateCandle
            ((mapSlice2 st.candleMap c.Ticker (c.TS.Truncate d) ++ [c]).flatMap
              (candlePrices c.Ticker)) (c.TS.Truncate d) period = some x ∧
        x.Ticker = c.Ticker ∧ x.TS = c.TS.Truncate d ∧
        stepRoll period n st c =
          { candleMap :=
              discard (accumulate st.candleMap c.Ticker (c.TS.Truncate d) c) c.Ticker
                (c.TS.Truncate d),
            out := st.out ++ [x], status := Status.running,
            calls := st.calls ++
              [(mapSlice2 st.candleMap c.Ticker (c.TS.Truncate d) ++ [c]).flatMap
                (candlePrices c.Ticker)] }) := by
  have hacc : mapSlice2 (accumulate st.candleMap c.Ticker (c.TS.Truncate d) c) c.Ticker
      (c.TS.Truncate d) = mapSlice2 st.candleMap c.Ticker (c.TS.Truncate d) ++ [c] := by
    rw [mapSlice2_eq_stored, stored_accumulate]
    simp
  unfold stepRoll
  simp only [hst, ne_eq, not_true_eq_false, if_false, hP, hacc]
  by_cases hl : (mapSlice2 st.candleMap c.Ticker (c.TS.Truncate d) ++ [c]).length = n
  · right
    refine ⟨hl, ?_⟩
    obtain ⟨x, hx, hxt, hxk⟩ := calculateCandle_flatMap c.Ticker
      (mapSlice2 st.candleMap c.Ticker (c.TS.Truncate d) ++ [c]) (c.TS.Truncate d) period
      (by simp)
    refine ⟨x, hx, hxt, hxk, ?_⟩
    rw [if_pos hl]
    unfold emit
    rw [hx]
  · left
    refine ⟨hl, ?_⟩
    rw [if_neg hl]

theorem mapSlice2_accumulate {β : Type} (m : List (String × List (Time × List β))) (t : String)
    (k : Time) (x : β) (t2 : String) (k2 : Time) :
    mapSlice2 (accumulate m t k x) t2 k2 =
      if t2 = t ∧ k2 = k then mapSlice2 m t k ++ [x] else mapSlice2 m t2 k2 := by
  rw [mapSlice2_eq_stored, stored_accumulate]
  by_cases h : t2 = t ∧ k2 = k
  · rw [if_pos h, if_pos h]; rfl
  · rw [if_neg h, if_neg h, mapSlice2_eq_stored]

theorem mapSlice2_discard {β : Type} (m : List (String × List (Time × List β))) (t : String)
    (k : Time) (t2 : String) (k2 : Time) :
    mapSlice2 (discard m t k) t2 k2 = if t2 = t ∧ k2 = k then [] else mapSlice2 m t2 k2 := by
  rw [mapSlice2_eq_stored, stored_discard]
  by_cases h : t2 = t ∧ k2 = k
  · rw [if_pos h, if_pos h]; rfl
  · rw [if_neg h, if_neg h, mapSlice2_eq_stored]

/-- The invariant of a roll-up stage holds before the first candle. -/
theorem RollInv_fresh (period : CandlePeriod) (d : Int) (n : Nat) :
    RollInv period d n [] Stage.fresh := by
  refine ⟨rfl, ?_, ?_, ?_, ?_, List.Forall₂.nil⟩
  · intro t k acc h
    simp [stored, Stage.fresh, mapGet] at h
  · intro c hc
    simp [Stage.fresh] at hc
  · intro s W
    simp [Stage.fresh, mapSlice2, mapSlice, mapGet]
  · intro prices hp
    simp [Stage.fresh] at hp

/-- The loop body of a roll-up stage keeps the invariant. -/
theorem stepRoll_inv (period : CandlePeriod) (d : Int) (n : Nat)
    (hP : ∀ ts, PeriodTS period ts = (ts.Truncate d, none)) (hn : 1 < n)
    (done : List Candle) (st : Stage Candle) (c : Candle)
    (h : RollInv period d n done st) :
    RollInv period d n (done ++ [c]) (stepRoll period n st c) := by
  obtain ⟨hst, hacc, hout, hcnt, hcalls, hlog⟩ := h
  have hold : (mapSlice2 st.candleMap c.Ticker (c.TS.Truncate d)).length < n ∧
      ∀ x ∈ mapSlice2 st.candleMap c.Ticker (c.TS.Truncate d),
        x.Ticker = c.Ticker ∧ x.TS.Truncate d = c.TS.Truncate d ∧ x ∈ done := by
    rw [mapSlice2_eq_stored]
    cases hs : stored st.candleMap c.Ticker (c.TS.Truncate d) with
    | none => simp; omega
    | some a => exact ⟨(hacc _ _ _ hs).2.1, (hacc _ _ _ hs).2.2⟩
  have hnew : ∀ x ∈ mapSlice2 st.candleMap c.Ticker (c.TS.Truncate d) ++ [c],
      x.Ticker = c.Ticker ∧ x.TS.Truncate d = c.TS.Truncate d ∧ x ∈ done ++ [c] := by
    intro x hx
    rcases List.mem_append.mp hx with hx | hx
    · obtain ⟨h1, h2, h3⟩ := hold.2 x hx
      exact ⟨h1, h2, List.mem_append_left _ h3⟩
    · have : x = c := by simpa using hx
      subst this
      exact ⟨rfl, rfl, by simp⟩
  have hout2 : ∀ c2 ∈ st.out, ∃ acc : List Candle, acc.length = n ∧
      (∀ x ∈ acc, x ∈ done ++ [c] ∧ x.Ticker = c2.Ticker ∧ x.TS.Truncate d = c2.TS) ∧
      calculateCandle (acc.flatMap (candlePrices c2.Ticker)) c2.TS period = some c2 := by
    intro c2 hc2
    obtain ⟨acc, h1, h2, h3⟩ := hout c2 hc2
    exact ⟨acc, h1, fun x hx => ⟨List.mem_append_left _ (h2 x hx).1, (h2 x hx).2⟩, h3⟩
  rcases stepRoll_running period d n hP st c hst with ⟨hl, heq⟩ | ⟨hl, x, hx, hxt, hxk, heq⟩
  · rw [heq]
    refine ⟨rfl, ?_, hout2, ?_, hcalls, hlog⟩
    · intro t k acc hs
      rw [stored_accumulate] at hs
      by_cases hkey : t = c.Ticker ∧ k = c.TS.Truncate d
      · rw [if_pos hkey] at hs
        obtain ⟨rfl, rfl⟩ := hkey
        cases hs
        refine ⟨by simp, ?_, hnew⟩
        have h1 := hold.1
        simp only [List.length_append, List.length_singleton] at hl ⊢
        omega
      · rw [if_neg hkey] at hs
        obtain ⟨h1, h2, h3⟩ := hacc t k acc hs
        exact ⟨h1, h2, fun y hy => ⟨(h3 y hy).1, (h3 y hy).2.1,
          List.mem_append_left _ (h3 y hy).2.2⟩⟩
    · intro s W
      have hc := hcnt s W
      simp only [List.countP_append, List.countP_cons, List.countP_nil, mapSlice2_accumulate]
      by_cases hkey : c.Ticker = s ∧ c.TS.Truncate d = W
      · obtain ⟨rfl, rfl⟩ := hkey
        simp only [and_self, decide_True, if_true, List.length_append, List.length_singleton]
        omega
      · have hkey2 : ¬ (s = c.Ticker ∧ W = c.TS.Truncate d) := fun hh => hkey ⟨hh.1.symm, hh.2.symm⟩
        simp only [hkey, hkey2, decide_False, Bool.false_eq_true, if_false, Nat.add_zero,
          Nat.zero_add]
        omega
  · rw [heq]
    refine ⟨rfl, ?_, ?_, ?_, ?_, ?_⟩
    · intro t k acc hs
      rw [stored_discard] at hs
      by_cases hkey : t = c.Ticker ∧ k = c.TS.Truncate d
      · rw [if_pos hkey] at hs
        cases hs
      · rw [if_neg hkey, stored_accumulate, if_neg hkey] at hs
        obtain ⟨h1, h2, h3⟩ := hacc t k acc hs
        exact ⟨h1, h2, fun y hy => ⟨(h3 y hy).1, (h3 y hy).2.1,
          List.mem_append_left _ (h3 y hy).2.2⟩⟩
    · intro c2 hc2
      rcases List.mem_append.mp hc2 with hc2 | hc2
      · exact hout2 c2 hc2
      · have : c2 = x := by simpa using hc2
        subst this
        refine ⟨mapSlice2 st.candleMap c.Ticker (c.TS.Truncate d) ++ [c], hl, ?_, ?_⟩
        · intro y hy
          obtain ⟨h1, h2, h3⟩ := hnew y hy
          exact ⟨h3, by rw [hxt, h1], by rw [hxk, h2]⟩
        · rw [hxt, hxk]
          exact hx
    · intro s W
      have hc := hcnt s W
      simp only [List.countP_append, List.countP_cons, List.countP_nil, mapSlice2_discard,
        mapSlice2_accumulate, hxt, hxk]
      by_cases hkey : c.Ticker = s ∧ c.TS.Truncate d = W
      · obtain ⟨rfl, rfl⟩ := hkey
        simp only [and_self, decide_True, if_true, List.length_nil, Nat.mul_add]
        simp only [List.length_append, List.length_singleton] at hl
        omega
      · have hkey2 : ¬ (s = c.Ticker ∧ W = c.TS.Truncate d) := fun hh => hkey ⟨hh.1.symm, hh.2.symm⟩
        simp only [hkey, hkey2, decide_False, Bool.false_eq_true, if_false, Nat.add_zero,
          Nat.zero_add]
        omega
    · intro prices hp
      rcases List.mem_append.mp hp with hp | hp
      · exact hcalls prices hp
      · have : prices = (mapSlice2 st.candleMap c.Ticker (c.TS.Truncate d) ++ [c]).flatMap
            (candlePrices c.Ticker) := by simpa using hp
        rw [this, length_flatMap_candlePrices, hl]
    · refine List.rel_append hlog (List.Forall₂.cons ?_ List.Forall₂.nil)
      rw [hxk]
      exact hx

/-- The invariant of a roll-up stage holds along every run. -/
theorem foldl_stepRoll_inv (period : CandlePeriod) (d : Int) (n : Nat)
    (hP : ∀ ts, PeriodTS period ts = (ts.Truncate d, none)) (hn : 1 < n)
    (inside done : List Candle) (st : Stage Candle) (h : RollInv period d n done st) :
    RollInv period d n (done ++ inside) (inside.foldl (stepRoll period n) st) := by
  induction inside generalizing done st with
  | nil => simpa using h
  | cons c l ih =>
    have h2 := ih (done ++ [c]) (stepRoll period n st c) (stepRoll_inv period d n hP hn done st c h)
    simpa using h2

theorem Create2mCandles_inv (inside : List Candle) :
    RollInv CandlePeriod2m 120000000000 2 inside (Create2mCandles inside) := by
  rw [Create2mCandles_eq_foldl]
  have h := foldl_stepRoll_inv CandlePeriod2m 120000000000 2 PeriodTS_2m (by decide) inside []
    Stage.fresh (RollInv_fresh _ _ _)
  simpa using h

theorem Create10mCandles_inv (inside : List Candle) :
    RollInv CandlePeriod10m 600000000000 5 inside (Create10mCandles inside) := by
  rw [Create10mCandles_eq_foldl]
  have h := foldl_stepRoll_inv CandlePeriod10m 600000000000 5 PeriodTS_10m (by decide) inside []
    Stage.fresh (RollInv_fresh _ _ _)
  simpa using h

/-! ## The roll-up stages on one window -/

/-- C3 (code defect).  Two valid 1-minute AAPL candles with window starts 0 and
one minute, `a` with open 1, high 4, low 0, close 2 and `b` with open 3,
high 6, low 1, close 5, fed to a fresh `Create2mCandles`.  In either order the
stage emits exactly one candle with window start 0.  Fed as `a`, `b` the
candle has Open 1 but Close 1, the low of `b`, not its close 5.  Fed as `b`,
`a` it has Open 0, the low of `a`, and Close 3, the open of `b`.  The four
prices built from one child carry the same timestamp, and `calculateCandle`
keeps the last price that is later (earlier) than the first one. -/
theorem Create2mCandles_open_close_pair :
    (Create2mCandles
        [ { Ticker := "AAPL", Period := "1m", Open := 1, High := 4, Low := 0, Close := 2,
            TS := 0 },
          { Ticker := "AAPL", Period := "1m", Open := 3, High := 6, Low := 1, Close := 5,
            TS := 60000000000 } ]).out
      = [ { Ticker := "AAPL", Period := "", Open := 1, High := 6, Low := 0, Close := 1,
            TS := 0 } ] ∧
    (Create2mCandles
        [ { Ticker := "AAPL", Period := "1m", Open := 3, High := 6, Low := 1, Close := 5,
            TS := 60000000000 },
          { Ticker := "AAPL", Period := "1m", Open := 1, High := 4, Low := 0, Close := 2,
            TS := 0 } ]).out
      = [ { Ticker := "AAPL", Period := "", Open := 0, High := 6, Low := 0, Close := 3,
            TS := 0 } ] := by
  constructor <;> decide

/-- Five candles of one symbol whose timestamps have one 10-minute window key,
fed to a fresh `Create10mCandles`: exactly one candle comes out, with that
window start. -/
theorem Create10mCandles_five_same_key (s : String) (W : Time) (a b c d e : Candle)
    (hs : ∀ x ∈ [a, b, c, d, e], x.Ticker = s)
    (hw : ∀ x ∈ [a, b, c, d, e], x.TS.Truncate 600000000000 = W) :
    ∃ x, (Create10mCandles [a, b, c, d, e]).out = [x] ∧ x.TS = W := by
  simp only [List.mem_cons, List.mem_singleton, List.not_mem_nil, or_false, forall_eq_or_imp,
    forall_eq] at hs hw
  obtain ⟨ha, hb, hc, hd, he⟩ := hs
  obtain ⟨ha2, hb2, hc2, hd2, he2⟩ := hw
  simp [Create10mCandles, step10m, Stage.fresh, PeriodTS_10m, accumulate, mapGet, mapSet,
    mapSlice2, mapSlice, emit, ha, hb, hc, hd, he, ha2, hb2, hc2, hd2, he2, candlePrices,
    calculateCandle_cons, discard, mapDelete]

/-- Four candles of one symbol whose timestamps have one 10-minute window key,
fed to a fresh `Create10mCandles`: nothing comes out. -/
theorem Create10mCandles_four_same_key (s : String) (W : Time) (a b c d : Candle)
    (hs : ∀ x ∈ [a, b, c, d], x.Ticker = s)
    (hw : ∀ x ∈ [a, b, c, d], x.TS.Truncate 600000000000 = W) :
    (Create10mCandles [a, b, c, d]).out = [] := by
  simp only [List.mem_cons, List.mem_singleton, List.not_mem_nil, or_false, forall_eq_or_imp,
    forall_eq] at hs hw
  obtain ⟨ha, hb, hc, hd⟩ := hs
  obtain ⟨ha2, hb2, hc2, hd2⟩ := hw
  simp [Create10mCandles, step10m, Stage.fresh, PeriodTS_10m, accumulate, mapGet, mapSet,
    mapSlice2, mapSlice, ha, hb, hc, hd, ha2, hb2, hc2, hd2]

/-- A list of length four has four elements. -/
theorem length_eq_four {α : Type} (l : List α) (h : l.length = 4) :
    ∃ a b c d, l = [a, b, c, d] := by
  match l, h with
  | [a, b, c, d], _ => exact ⟨a, b, c, d, rfl⟩

/-- A list of length five has five elements. -/
theorem length_eq_five {α : Type} (l : List α) (h : l.length = 5) :
    ∃ a b c d e, l = [a, b, c, d, e] := by
  match l, h with
  | [a, b, c, d, e], _ => exact ⟨a, b, c, d, e, rfl⟩

/-- C4 (as stated, refuted).  Five AAPL candles with the window starts 00:00,
00:02, 00:04, 00:06, 00:08, the third carrying its timestamp in another
Location than the other four, fed to a fresh `Create10mCandles`: all five
timestamps truncate to the instant 00:00, yet the stage emits nothing, because
the map key of the third candle differs from that of the others in its
Location. -/
theorem Create10mCandles_five_two_locations :
    (Create10mCandles
        [ { Ticker := "AAPL", Period := "2m", Open := 1, High := 4, Low := 0, Close := 2,
            TS := { ns := 0, loc := 0, mono := none } },
          { Ticker := "AAPL", Period := "2m", Open := 2, High := 5, Low := 1, Close := 3,
            TS := { ns := 120000000000, loc := 0, mono := none } },
          { Ticker := "AAPL", Period := "2m", Open := 3, High := 6, Low := 2, Close := 4,
            TS := { ns := 240000000000, loc := 1, mono := none } },
          { Ticker := "AAPL", Period := "2m", Open := 4, High := 7, Low := 3, Close := 5,
            TS := { ns := 360000000000, loc := 0, mono := none } },
          { Ticker := "AAPL", Period := "2m", Open := 5, High := 8, Low := 4, Close := 6,
            TS := { ns := 480000000000, loc := 0, mono := none } } ]).out = [] ∧
    (∀ ts ∈ [ ({ ns := 0, loc := 0, mono := none } : Time),
              { ns := 120000000000, loc := 0, mono := none },
              { ns := 240000000000, loc := 1, mono := none },
              { ns := 360000000000, loc := 0, mono := none },
              { ns := 480000000000, loc := 0, mono := none } ],
      (PeriodTS CandlePeriod10m ts).1.ns = 0) := by
  constructor <;> decide

/-- C4 (amended).  Five 2-minute candles `cs` of one symbol whose timestamps
are all in one Location and whose window starts are, in some order, `W`,
`W + 2m`, `W + 4m`, `W + 6m`, `W + 8m` for a 10-minute-aligned instant
`W = k * 10m`: fed to a fresh `Create10mCandles` they make it emit exactly one
candle, whose window start is `W` in that Location; any four of them `cs4`, in
any order, followed by the end of the input, make it emit nothing. -/
theorem Create10mCandles_five_and_four (s : String) (k : Int) (l : Nat)
    (cs cs4 : List Candle)
    (hs : ∀ c ∈ cs, c.Ticker = s) (hloc : ∀ c ∈ cs, c.TS.loc = l)
    (hts : (cs.map (fun c => c.TS.ns)).Perm
      [k * (10 * Minute), k * (10 * Minute) + 2 * Minute, k * (10 * Minute) + 4 * Minute,
       k * (10 * Minute) + 6 * Minute, k * (10 * Minute) + 8 * Minute])
    (hsub : cs4.Subperm cs) (hlen : cs4.length = 4) :
    (∃ x, (Create10mCandles cs).out = [x] ∧
        x.TS = { ns := k * (10 * Minute), loc := l, mono := none }) ∧
      (Create10mCandles cs4).out = [] := by
  have hw : ∀ c ∈ cs, c.TS.Truncate 600000000000
      = { ns := k * (10 * Minute), loc := l, mono := none } := by
    intro c hc
    have hm : c.TS.ns ∈ cs.map (fun c => c.TS.ns) := List.mem_map.mpr ⟨c, hc, rfl⟩
    have hm2 := hts.mem_iff.mp hm
    simp only [List.mem_cons, List.mem_singleton, List.not_mem_nil, or_false, Minute] at hm2
    rw [Truncate_10m, hloc c hc]
    congr 1
    unfold Minute
    omega
  have hl : cs.length = 5 := by
    have h := hts.length_eq
    simpa using h
  constructor
  · obtain ⟨a, b, c, d, e, rfl⟩ := length_eq_five cs hl
    exact Create10mCandles_five_same_key s _ a b c d e hs hw
  · obtain ⟨a, b, c, d, rfl⟩ := length_eq_four cs4 hlen
    exact Create10mCandles_four_same_key s _ a b c d
      (fun x hx => hs x (hsub.subset hx)) (fun x hx => hw x (hsub.subset hx))

theorem Create10mCandles_five_and_four_witness :
    (∃ x, (Create10mCandles
        [ { Ticker := "AAPL", Period := "2m", Open := 1, High := 4, Low := 0, Close := 2,
            TS := { ns := 1 * (10 * Minute) + 4 * Minute, loc := 7, mono := none } },
          { Ticker := "AAPL", Period := "2m", Open := 2, High := 5, Low := 1, Close := 3,
            TS := { ns := 1 * (10 * Minute), loc := 7, mono := none } },
          { Ticker := "AAPL", Period := "2m", Open := 3, High := 6, Low := 2, Close := 4,
            TS := { ns := 1 * (10 * Minute) + 8 * Minute, loc := 7, mono := none } },
          { Ticker := "AAPL", Period := "2m", Open := 4, High := 7, Low := 3, Close := 5,
            TS := { ns := 1 * (10 * Minute) + 2 * Minute, loc := 7, mono := none } },
          { Ticker := "AAPL", Period := "2m", Open := 5, High := 8, Low := 4, Close := 6,
            TS := { ns := 1 * (10 * Minute) + 6 * Minute, loc := 7, mono := none } } ]).out
          = [x] ∧
        x.TS = { ns := 1 * (10 * Minute), loc := 7, mono := none }) ∧
      (Create10mCandles
        [ { Ticker := "AAPL", Period := "2m", Open := 5, High := 8, Low := 4, Close := 6,
            TS := { ns := 1 * (10 * Minute) + 6 * Minute, loc := 7, mono := none } },
          { Ticker := "AAPL", Period := "2m", Open := 1, High := 4, Low := 0, Close := 2,
            TS := { ns := 1 * (10 * Minute) + 4 * Minute, loc := 7, mono := none } },
          { Ticker := "AAPL", Period := "2m", Open := 2, High := 5, Low := 1, Close := 3,
            TS := { ns := 1 * (10 * Minute), loc := 7, mono := none } },
          { Ticker := "AAPL", Period := "2m", Open := 3, High := 6, Low := 2, Close := 4,
            TS := { ns := 1 * (10 * Minute) + 8 * Minute, loc := 7, mono := none } } ]).out
        = [] :=
  Create10mCandles_five_and_four "AAPL" 1 7 _ _ (by simp) (by simp) (by decide) (by decide)
    (by decide)

/-- The high the loop of `calculateCandle` ends with is the one price among
the starting high and the values of the slice that is above all of them. -/
theorem calculateLoop_highPrice_eq (tb te : Time) (l : List Price) (r : Running) (m : F64)
    (hr : r.highPrice ≠ F64.nan) (hl : ∀ q ∈ l, q.Value ≠ F64.nan)
    (hm : m = r.highPrice ∨ ∃ q ∈ l, q.Value = m)
    (hub : r.highPrice ≤ m) (hub2 : ∀ q ∈ l, q.Value ≤ m) :
    (calculateLoop tb te r l).highPrice = m := by
  obtain ⟨h1, h2⟩ := calculateLoop_highPrice_bound tb te l r hr hl
  apply F64.le_antisymm
  · rcases calculateLoop_highPrice_mem tb te l r with h | ⟨q, hq, h⟩
    · rw [h]; exact hub
    · rw [← h]; exact hub2 q hq
  · rcases hm with h | ⟨q, hq, h⟩
    · rw [h]; exact h1
    · rw [← h]; exact h2 q hq

/-- The low the loop of `calculateCandle` ends with is the one price among
the starting low and the values of the slice that is below all of them. -/
theorem calculateLoop_lowPrice_eq (tb te : Time) (l : List Price) (r : Running) (m : F64)
    (hr : r.lowPrice ≠ F64.nan) (hl : ∀ q ∈ l, q.Value ≠ F64.nan)
    (hm : m = r.lowPrice ∨ ∃ q ∈ l, q.Value = m)
    (hlb : m ≤ r.lowPrice) (hlb2 : ∀ q ∈ l, m ≤ q.Value) :
    (calculateLoop tb te r l).lowPrice = m := by
  obtain ⟨h1, h2⟩ := calculateLoop_lowPrice_bound tb te l r hr hl
  apply F64.le_antisymm
  · rcases hm with h | ⟨q, hq, h⟩
    · rw [h]; exact h1
    · rw [← h]; exact h2 q hq
  · rcases calculateLoop_lowPrice_mem tb te l r with h | ⟨q, hq, h⟩
    · rw [h]; exact hlb
    · rw [← h]; exact hlb2 q hq

/-- Two candles of one symbol with one 2-minute window key, each with its low
below and its high above its open and close, fed to a fresh `Create2mCandles`:
one candle comes out, with the larger high and the smaller low. -/
theorem Create2mCandles_pair (a b : Candle) (hs : a.Ticker = b.Ticker)
    (hw : a.TS.Truncate 120000000000 = b.TS.Truncate 120000000000)
    (ha : a.Low ≤ a.Open ∧ a.Open ≤ a.High ∧ a.Low ≤ a.Close ∧ a.Close ≤ a.High)
    (hb : b.Low ≤ b.Open ∧ b.Open ≤ b.High ∧ b.Low ≤ b.Close ∧ b.Close ≤ b.High) :
    ∃ x, (Create2mCandles [a, b]).out = [x] ∧
      x.High = F64.larger a.High b.High ∧ x.Low = F64.smaller a.Low b.Low := by
  have naO := (F64.le_ne_nan ha.1).2
  have naL := (F64.le_ne_nan ha.1).1
  have naH := (F64.le_ne_nan ha.2.1).2
  have naC := (F64.le_ne_nan ha.2.2.1).2
  have nbO := (F64.le_ne_nan hb.1).2
  have nbL := (F64.le_ne_nan hb.1).1
  have nbH := (F64.le_ne_nan hb.2.1).2
  have nbC := (F64.le_ne_nan hb.2.2.1).2
  obtain ⟨u1, u2, _⟩ := F64.larger_spec naH nbH
  obtain ⟨l1, l2, _⟩ := F64.smaller_spec naL nbL
  have haLH : a.Low ≤ a.High := F64.le_trans ha.1 ha.2.1
  have hbLH : b.Low ≤ b.High := F64.le_trans hb.1 hb.2.1
  simp only [Create2mCandles, List.foldl, step2m, Stage.fresh, PeriodTS_2m, accumulate, mapGet,
    mapSet, mapSlice2, mapSlice, emit, hs, hw, candlePrices, calculateCandle_cons, discard,
    mapDelete, ne_eq, not_true_eq_false, if_false,
    Option.isNone_none, Option.isNone_some, if_true, Option.getD_some, Option.getD_none,
    List.nil_append, List.cons_append, List.singleton_append, Bool.false_eq_true]
  refine ⟨_, rfl, ?_, ?_⟩
  · apply calculateLoop_highPrice_eq
    · exact naO
    · intro q hq
      simp only [List.mem_cons, List.mem_singleton, List.not_mem_nil, or_false] at hq
      rcases hq with rfl | rfl | rfl | rfl | rfl | rfl | rfl | rfl <;> assumption
    · right
      rcases F64.larger_choice a.High b.High with h | h
      · exact ⟨{ Ticker := b.Ticker, Value := a.High, TS := a.TS }, by simp, h.symm⟩
      · exact ⟨{ Ticker := b.Ticker, Value := b.High, TS := b.TS }, by simp, h.symm⟩
    · exact F64.le_trans ha.2.1 u1
    · intro q hq
      simp only [List.mem_cons, List.mem_singleton, List.not_mem_nil, or_false] at hq
      rcases hq with rfl | rfl | rfl | rfl | rfl | rfl | rfl | rfl
      · exact F64.le_trans ha.2.1 u1
      · exact F64.le_trans ha.2.2.2 u1
      · exact u1
      · exact F64.le_trans haLH u1
      · exact F64.le_trans hb.2.1 u2
      · exact F64.le_trans hb.2.2.2 u2
      · exact u2
      · exact F64.le_trans hbLH u2
  · apply calculateLoop_lowPrice_eq
    · exact naO
    · intro q hq
      simp only [List.mem_cons, List.mem_singleton, List.not_mem_nil, or_false] at hq
      rcases hq with rfl | rfl | rfl | rfl | rfl | rfl | rfl | rfl <;> assumption
    · right
      rcases F64.smaller_choice a.Low b.Low with h | h
      · exact ⟨{ Ticker := b.Ticker, Value := a.Low, TS := a.TS }, by simp, h.symm⟩
      · exact ⟨{ Ticker := b.Ticker, Value := b.Low, TS := b.TS }, by simp, h.symm⟩
    · exact F64.le_trans l1 ha.1
    · intro q hq
      simp only [List.mem_cons, List.mem_singleton, List.not_mem_nil, or_false] at hq
      rcases hq with rfl | rfl | rfl | rfl | rfl | rfl | rfl | rfl
      · exact F64.le_trans l1 ha.1
      · exact F64.le_trans l1 ha.2.2.1
      · exact F64.le_trans l1 haLH
      · exact l1
      · exact F64.le_trans l2 hb.1
      · exact F64.le_trans l2 hb.2.2.1
      · exact F64.le_trans l2 hbLH
      · exact l2

/-- C19 (as stated, refuted).  Two valid AAPL candles whose timestamps 00:00:00
and 00:01:00 fall in the same 2-minute window but are in different Locations,
fed to a fresh `Create2mCandles` in either order: the stage emits no candle at
all, because the two window keys differ in their Location. -/
theorem Create2mCandles_pair_two_locations :
    (Create2mCandles
        [ { Ticker := "AAPL", Period := "1m", Open := 1, High := 4, Low := 0, Close := 2,
            TS := { ns := 0, loc := 0, mono := none } },
          { Ticker := "AAPL", Period := "1m", Open := 3, High := 6, Low := 1, Close := 5,
            TS := { ns := 60000000000, loc := 1, mono := none } } ]).out = [] ∧
    (Create2mCandles
        [ { Ticker := "AAPL", Period := "1m", Open := 3, High := 6, Low := 1, Close := 5,
            TS := { ns := 60000000000, loc := 1, mono := none } },
          { Ticker := "AAPL", Period := "1m", Open := 1, High := 4, Low := 0, Close := 2,
            TS := { ns := 0, loc := 0, mono := none } } ]).out = [] ∧
    (PeriodTS CandlePeriod2m { ns := 0, loc := 0, mono := none }).1.ns
      = (PeriodTS CandlePeriod2m { ns := 60000000000, loc := 1, mono := none }).1.ns ∧
    ((0 : F64) ≤ 1 ∧ (1 : F64) ≤ 4 ∧ (0 : F64) ≤ 2 ∧ (2 : F64) ≤ 4) ∧
    ((1 : F64) ≤ 3 ∧ (3 : F64) ≤ 6 ∧ (1 : F64) ≤ 5 ∧ (5 : F64) ≤ 6) := by
  refine ⟨by decide, by decide, by decide, by decide, by decide⟩

/-- C19 (amended).  Two candles `c0`, `c1` of one symbol whose timestamps fall
in the same 2-minute window and are in the same Location, each with
`Low <= Open <= High` and `Low <= Close <= High`: fed to a fresh
`Create2mCandles` in the order `c0`, `c1` or in the order `c1`, `c0`, the
stage emits one candle, and in both orders its High is the larger of
`c0.High` and `c1.High` and its Low is the smaller of `c0.Low` and
`c1.Low`. -/
theorem Create2mCandles_pair_high_low (c0 c1 : Candle) (hs : c0.Ticker = c1.Ticker)
    (hw : (PeriodTS CandlePeriod2m c0.TS).1.ns = (PeriodTS CandlePeriod2m c1.TS).1.ns)
    (hloc : c0.TS.loc = c1.TS.loc)
    (h0 : c0.Low ≤ c0.Open ∧ c0.Open ≤ c0.High ∧ c0.Low ≤ c0.Close ∧ c0.Close ≤ c0.High)
    (h1 : c1.Low ≤ c1.Open ∧ c1.Open ≤ c1.High ∧ c1.Low ≤ c1.Close ∧ c1.Close ≤ c1.High) :
    ∃ x y, (Create2mCandles [c0, c1]).out = [x] ∧ (Create2mCandles [c1, c0]).out = [y] ∧
      x.High = F64.larger c0.High c1.High ∧ x.Low = F64.smaller c0.Low c1.Low ∧
      y.High = F64.larger c0.High c1.High ∧ y.Low = F64.smaller c0.Low c1.Low := by
  have hkey : c0.TS.Truncate 120000000000 = c1.TS.Truncate 120000000000 := by
    simp only [PeriodTS_2m, Truncate_2m] at hw
    rw [Truncate_2m, Truncate_2m, hloc]
    congr 1
  obtain ⟨x, hx, hxh, hxl⟩ := Create2mCandles_pair c0 c1 hs hkey h0 h1
  obtain ⟨y, hy, hyh, hyl⟩ := Create2mCandles_pair c1 c0 hs.symm hkey.symm h1 h0
  refine ⟨x, y, hx, hy, hxh, hxl, ?_, ?_⟩
  · rw [hyh]
    exact F64.larger_comm (F64.le_ne_nan h1.2.1).2 (F64.le_ne_nan h0.2.1).2
  · rw [hyl]
    exact F64.smaller_comm (F64.le_ne_nan h1.1).1 (F64.le_ne_nan h0.1).1

theorem Create2mCandles_pair_high_low_witness :
    ∃ x y,
      (Create2mCandles
        [ { Ticker := "AAPL", Period := "1m", Open := 1, High := 4, Low := 0, Close := 2,
            TS := 0 },
          { Ticker := "AAPL", Period := "1m", Open := 3, High := 6, Low := 1, Close := 5,
            TS := 60000000000 } ]).out = [x] ∧
      (Create2mCandles
        [ { Ticker := "AAPL", Period := "1m", Open := 3, High := 6, Low := 1, Close := 5,
            TS := 60000000000 },
          { Ticker := "AAPL", Period := "1m", Open := 1, High := 4, Low := 0, Close := 2,
            TS := 0 } ]).out = [y] ∧
      x.High = F64.larger 4 6 ∧ x.Low = F64.smaller 0 1 ∧
      y.High = F64.larger 4 6 ∧ y.Low = F64.smaller 0 1 :=
  Create2mCandles_pair_high_low
    { Ticker := "AAPL", Period := "1m", Open := 1, High := 4, Low := 0, Close := 2, TS := 0 }
    { Ticker := "AAPL", Period := "1m", Open := 3, High := 6, Low := 1, Close := 5,
      TS := 60000000000 }
    rfl (by decide) (by decide) (by decide) (by decide)

/-! ## The roll-up stages: what is emitted -/

/-- C13 (as stated, refuted).  Two AAPL candles that both have the window
start 00:00:00, fed to a fresh `Create2mCandles`: the stage emits a candle for
the window 00:00:00 although no child with the window start 00:01:00 has
arrived. -/
theorem Create2mCandles_same_child_window :
    (Create2mCandles
        [ { Ticker := "AAPL", Period := "1m", Open := 1, High := 4, Low := 0, Close := 2,
            TS := 0 },
          { Ticker := "AAPL", Period := "1m", Open := 3, High := 6, Low := 1, Close := 5,
            TS := 0 } ]).out
      = [ { Ticker := "AAPL", Period := "", Open := 1, High := 6, Low := 0, Close := 1,
            TS := 0 } ] ∧
    ∀ c ∈ [ ({ Ticker := "AAPL", Period := "1m", Open := 1, High := 4, Low := 0, Close := 2,
               TS := 0 } : Candle),
            { Ticker := "AAPL", Period := "1m", Open := 3, High := 6, Low := 1, Close := 5,
              TS := 0 } ], c.TS.ns ≠ 0 + Minute := by
  constructor <;> decide

/-- C13 (amended).  For every input sequence, every candle `Create2mCandles`
emits for a symbol and a window `W` was reduced from exactly two received
candles of that symbol whose timestamps both fall in the 2-minute window `W`;
the prices handed to `calculateCandle` are the four prices of the one followed
by the four prices of the other. -/
theorem Create2mCandles_children (inside : List Candle) (c : Candle)
    (hc : c ∈ (Create2mCandles inside).out) :
    ∃ c0 c1, c0 ∈ inside ∧ c1 ∈ inside ∧ c0.Ticker = c.Ticker ∧ c1.Ticker = c.Ticker ∧
      (PeriodTS CandlePeriod2m c0.TS).1 = c.TS ∧ (PeriodTS CandlePeriod2m c1.TS).1 = c.TS ∧
      calculateCandle (candlePrices c.Ticker c0 ++ candlePrices c.Ticker c1) c.TS
        CandlePeriod2m = some c := by
  obtain ⟨_, _, hout, _⟩ := Create2mCandles_inv inside
  obtain ⟨acc, hlen, hmem, hcalc⟩ := hout c hc
  obtain ⟨c0, c1, rfl⟩ := List.length_eq_two.mp hlen
  have h0 := hmem c0 (by simp)
  have h1 := hmem c1 (by simp)
  refine ⟨c0, c1, h0.1, h1.1, h0.2.1, h1.2.1, ?_, ?_, ?_⟩
  · rw [PeriodTS_2m]; exact h0.2.2
  · rw [PeriodTS_2m]; exact h1.2.2
  · simpa using hcalc

theorem Create2mCandles_children_witness :
    ∃ c0 c1,
      c0 ∈ [ ({ Ticker := "AAPL", Period := "1m", Open := 1, High := 4, Low := 0, Close := 2,
                TS := 0 } : Candle),
             { Ticker := "AAPL", Period := "1m", Open := 3, High := 6, Low := 1, Close := 5,
               TS := 60000000000 } ] ∧
      c1 ∈ [ ({ Ticker := "AAPL", Period := "1m", Open := 1, High := 4, Low := 0, Close := 2,
                TS := 0 } : Candle),
             { Ticker := "AAPL", Period := "1m", Open := 3, High := 6, Low := 1, Close := 5,
               TS := 60000000000 } ] ∧
      c0.Ticker = "AAPL" ∧ c1.Ticker = "AAPL" ∧
      (PeriodTS CandlePeriod2m c0.TS).1 = 0 ∧ (PeriodTS CandlePeriod2m c1.TS).1 = 0 ∧
      calculateCandle (candlePrices "AAPL" c0 ++ candlePrices "AAPL" c1) 0 CandlePeriod2m
        = some { Ticker := "AAPL", Period := "", Open := 1, High := 6, Low := 0, Close := 1,
                 TS := 0 } :=
  Create2mCandles_children
    [ { Ticker := "AAPL", Period := "1m", Open := 1, High := 4, Low := 0, Close := 2, TS := 0 },
      { Ticker := "AAPL", Period := "1m", Open := 3, High := 6, Low := 1, Close := 5,
        TS := 60000000000 } ]
    { Ticker := "AAPL", Period := "", Open := 1, High := 6, Low := 0, Close := 1, TS := 0 }
    (by decide)

/-- C17.  After any input sequence, every accumulator present in
`Create2mCandles` holds exactly 1 candle and every accumulator present in
`Create10mCandles` holds between 1 and 4 candles; and for every symbol `s` and
window key `W` (the `time.Time` under which the map stores the window, that
is its start instant and its Location), the number of candles emitted for
`(s, W)` is the number of input candles of symbol `s` whose timestamp has the
window key `W`, divided by 2 (respectively 5) and rounded down. -/
theorem rollup_accumulators_and_counts (inside : List Candle) (s : String) (W : Time) :
    (∀ t k acc, stored (Create2mCandles inside).candleMap t k = some acc → acc.length = 1) ∧
    (∀ t k acc, stored (Create10mCandles inside).candleMap t k = some acc →
      1 ≤ acc.length ∧ acc.length ≤ 4) ∧
    (Create2mCandles inside).out.countP (fun c => decide (c.Ticker = s ∧ c.TS = W)) =
      inside.countP
        (fun c => decide (c.Ticker = s ∧ (PeriodTS CandlePeriod2m c.TS).1 = W)) / 2 ∧
    (Create10mCandles inside).out.countP (fun c => decide (c.Ticker = s ∧ c.TS = W)) =
      inside.countP
        (fun c => decide (c.Ticker = s ∧ (PeriodTS CandlePeriod10m c.TS).1 = W)) / 5 := by
  obtain ⟨_, hacc2, _, hcnt2, _⟩ := Create2mCandles_inv inside
  obtain ⟨_, hacc10, _, hcnt10, _⟩ := Create10mCandles_inv inside
  have hlt2 : (mapSlice2 (Create2mCandles inside).candleMap s W).length < 2 := by
    rw [mapSlice2_eq_stored]
    cases hs : stored (Create2mCandles inside).candleMap s W with
    | none => simp
    | some a => exact (hacc2 _ _ _ hs).2.1
  have hlt10 : (mapSlice2 (Create10mCandles inside).candleMap s W).length < 5 := by
    rw [mapSlice2_eq_stored]
    cases hs : stored (Create10mCandles inside).candleMap s W with
    | none => simp
    | some a => exact (hacc10 _ _ _ hs).2.1
  refine ⟨?_, ?_, ?_, ?_⟩
  · intro t k acc h
    have := hacc2 t k acc h
    omega
  · intro t k acc h
    have := hacc10 t k acc h
    omega
  · have h := hcnt2 s W
    simp only [PeriodTS_2m]
    omega
  · have h := hcnt10 s W
    simp only [PeriodTS_10m]
    omega

theorem rollup_accumulators_and_counts_witness :
    ([ ({ Ticker := "AAPL", Period := "1m", Open := 3, High := 6, Low := 1, Close := 5,
          TS := 120000000000 } : Candle) ]).length = 1 ∧
    (Create2mCandles
        [ { Ticker := "AAPL", Period := "1m", Open := 1, High := 4, Low := 0, Close := 2,
            TS := 0 },
          { Ticker := "AAPL", Period := "1m", Open := 3, High := 6, Low := 1, Close := 5,
            TS := { ns := 60000000000, loc := 1, mono := none } },
          { Ticker := "AAPL", Period := "1m", Open := 3, High := 6, Low := 1, Close := 5,
            TS := 60000000000 },
          { Ticker := "AAPL", Period := "1m", Open := 3, High := 6, Low := 1, Close := 5,
            TS := 120000000000 } ]).out.countP
        (fun c => decide (c.Ticker = "AAPL" ∧ c.TS = 0)) =
      [ ({ Ticker := "AAPL", Period := "1m", Open := 1, High := 4, Low := 0, Close := 2,
           TS := 0 } : Candle),
        { Ticker := "AAPL", Period := "1m", Open := 3, High := 6, Low := 1, Close := 5,
          TS := { ns := 60000000000, loc := 1, mono := none } },
        { Ticker := "AAPL", Period := "1m", Open := 3, High := 6, Low := 1, Close := 5,
          TS := 60000000000 },
        { Ticker := "AAPL", Period := "1m", Open := 3, High := 6, Low := 1, Close := 5,
          TS := 120000000000 } ].countP
        (fun c => decide (c.Ticker = "AAPL" ∧ (PeriodTS CandlePeriod2m c.TS).1 = 0)) / 2 :=
  ⟨(rollup_accumulators_and_counts
      [ { Ticker := "AAPL", Period := "1m", Open := 1, High := 4, Low := 0, Close := 2,
          TS := 0 },
        { Ticker := "AAPL", Period := "1m", Open := 3, High := 6, Low := 1, Close := 5,
          TS := { ns := 60000000000, loc := 1, mono := none } },
        { Ticker := "AAPL", Period := "1m", Open := 3, High := 6, Low := 1, Close := 5,
          TS := 60000000000 },
        { Ticker := "AAPL", Period := "1m", Open := 3, High := 6, Low := 1, Close := 5,
          TS := 120000000000 } ] "AAPL" 0).1 "AAPL" 120000000000 _ (by decide),
   (rollup_accumulators_and_counts
      [ { Ticker := "AAPL", Period := "1m", Open := 1, High := 4, Low := 0, Close := 2,
          TS := 0 },
        { Ticker := "AAPL", Period := "1m", Open := 3, High := 6, Low := 1, Close := 5,
          TS := { ns := 60000000000, loc := 1, mono := none } },
        { Ticker := "AAPL", Period := "1m", Open := 3, High := 6, Low := 1, Close := 5,
          TS := 60000000000 },
        { Ticker := "AAPL", Period := "1m", Open := 3, High := 6, Low := 1, Close := 5,
          TS := 120000000000 } ] "AAPL" 0).2.2.1⟩

/-! ## The roll-up stages: order of emission -/

theorem pairwise_of_filter_sorted (l : List Candle)
    (h : ∀ s, ((l.filter (fun c => decide (c.Ticker = s))).map (fun c => c.TS.ns)).Pairwise
      (· ≤ ·)) :
    l.Pairwise (fun a b => a.Ticker = b.Ticker → a.TS.ns ≤ b.TS.ns) := by
  induction l with
  | nil => exact List.Pairwise.nil
  | cons a l ih =>
    rw [List.pairwise_cons]
    constructor
    · intro b hb hab
      have := h a.Ticker
      simp only [List.filter_cons, decide_True, if_true, List.map_cons,
        List.pairwise_cons] at this
      exact this.1 b.TS.ns
        (List.mem_map.mpr ⟨b, List.mem_filter.mpr ⟨hb, by simp [hab]⟩, rfl⟩)
    · apply ih
      intro s
      have := h s
      by_cases ha : a.Ticker = s
      · simp only [List.filter_cons, ha, decide_True, if_true, List.map_cons,
          List.pairwise_cons] at this
        exact this.2
      · simpa [List.filter_cons, ha] using this

theorem filter_sorted_of_pairwise (l : List Candle)
    (h : l.Pairwise (fun a b => a.Ticker = b.Ticker → a.TS.ns ≤ b.TS.ns)) (s : String) :
    ((l.filter (fun c => decide (c.Ticker = s))).map (fun c => c.TS.ns)).Pairwise (· ≤ ·) := by
  rw [List.pairwise_map, List.pairwise_filter]
  apply h.imp
  intro a b hab ha hb
  exact hab (by rw [ha, hb])

/-- What the loop body of a roll-up stage sends: nothing, or one candle with
the ticker of the received candle and the window key of its timestamp. -/
theorem stepRoll_out (period : CandlePeriod) (d : Int) (n : Nat)
    (hP : ∀ ts, PeriodTS period ts = (ts.Truncate d, none)) (st : Stage Candle) (c : Candle) :
    (stepRoll period n st c).out = st.out ∨
      ∃ x, (stepRoll period n st c).out = st.out ++ [x] ∧ x.Ticker = c.Ticker ∧
        x.TS = c.TS.Truncate d := by
  by_cases hst : st.status = Status.running
  · rcases stepRoll_running period d n hP st c hst with ⟨_, heq⟩ | ⟨_, x, _, hxt, hxk, heq⟩
    · left; rw [heq]
    · right; exact ⟨x, by rw [heq], hxt, hxk⟩
  · left
    unfold stepRoll
    rw [if_pos hst]

/-- A roll-up stage fed candles whose timestamps do not decrease within a
symbol sends candles whose window starts do not decrease within a symbol. -/
theorem foldl_stepRoll_sorted (period : CandlePeriod) (d : Int) (n : Nat)
    (hP : ∀ ts, PeriodTS period ts = (ts.Truncate d, none))
    (hmono : ∀ a b : Time, a.ns ≤ b.ns → (a.Truncate d).ns ≤ (b.Truncate d).ns)
    (inside : List Candle) (st : Stage Candle)
    (hin : inside.Pairwise (fun a b => a.Ticker = b.Ticker → a.TS.ns ≤ b.TS.ns))
    (hout : st.out.Pairwise (fun a b => a.Ticker = b.Ticker → a.TS.ns ≤ b.TS.ns))
    (hcross : ∀ y ∈ st.out, ∀ c ∈ inside, y.Ticker = c.Ticker →
      y.TS.ns ≤ (c.TS.Truncate d).ns) :
    (inside.foldl (stepRoll period n) st).out.Pairwise
      (fun a b => a.Ticker = b.Ticker → a.TS.ns ≤ b.TS.ns) := by
  induction inside generalizing st with
  | nil => exact hout
  | cons c rest ih =>
    rw [List.pairwise_cons] at hin
    rw [List.foldl_cons]
    rcases stepRoll_out period d n hP st c with heq | ⟨x, heq, hxt, hxk⟩
    · apply ih _ hin.2
      · rw [heq]; exact hout
      · rw [heq]
        intro y hy c2 hc2
        exact hcross y hy c2 (List.mem_cons_of_mem _ hc2)
    · apply ih _ hin.2
      · rw [heq, List.pairwise_append]
        refine ⟨hout, List.pairwise_singleton _ _, ?_⟩
        intro y hy z hz hyz
        have : z = x := by simpa using hz
        subst this
        rw [hxk]
        exact hcross y hy c (List.mem_cons_self _ _) (by rw [hyz, hxt])
      · rw [heq]
        intro y hy c2 hc2 hyc
        rcases List.mem_append.mp hy with hy | hy
        · exact hcross y hy c2 (List.mem_cons_of_mem _ hc2) hyc
        · have : y = x := by simpa using hy
          subst this
          rw [hxk]
          exact hmono _ _ (hin.1 c2 hc2 (by rw [← hxt, hyc]))

/-- C14.  If for every symbol the window starts (the instants of `TS`) of the
input candles of that symbol do not decrease in arrival order, then for every
symbol the window starts of the candles `Create2mCandles` emits for that
symbol do not decrease in emission order, and the same holds for
`Create10mCandles`. -/
theorem rollup_emission_order (inside : List Candle)
    (h : ∀ s, ((inside.filter (fun c => decide (c.Ticker = s))).map
      (fun c => c.TS.ns)).Pairwise (· ≤ ·)) (s : String) :
    (((Create2mCandles inside).out.filter (fun c => decide (c.Ticker = s))).map
        (fun c => c.TS.ns)).Pairwise (· ≤ ·) ∧
    (((Create10mCandles inside).out.filter (fun c => decide (c.Ticker = s))).map
        (fun c => c.TS.ns)).Pairwise (· ≤ ·) := by
  have hin := pairwise_of_filter_sorted inside h
  constructor
  · apply filter_sorted_of_pairwise
    rw [Create2mCandles_eq_foldl]
    exact foldl_stepRoll_sorted CandlePeriod2m 120000000000 2 PeriodTS_2m
      (fun a b hab => by rw [Truncate_2m, Truncate_2m]; simp only []; omega)
      inside Stage.fresh hin List.Pairwise.nil
      (fun y hy => by simp [Stage.fresh] at hy)
  · apply filter_sorted_of_pairwise
    rw [Create10mCandles_eq_foldl]
    exact foldl_stepRoll_sorted CandlePeriod10m 600000000000 5 PeriodTS_10m
      (fun a b hab => by rw [Truncate_10m, Truncate_10m]; simp only []; omega)
      inside Stage.fresh hin List.Pairwise.nil
      (fun y hy => by simp [Stage.fresh] at hy)

theorem rollup_emission_order_witness :
    (((Create2mCandles
        [ { Ticker := "AAPL", Period := "1m", Open := 1, High := 4, Low := 0, Close := 2,
            TS := 0 },
          { Ticker := "SBER", Period := "1m", Open := 1, High := 4, Low := 0, Close := 2,
            TS := 120000000000 },
          { Ticker := "AAPL", Period := "1m", Open := 3, High := 6, Low := 1, Close := 5,
            TS := 60000000000 },
          { Ticker := "SBER", Period := "1m", Open := 1, High := 4, Low := 0, Close := 2,
            TS := 180000000000 } ]).out.filter (fun c => decide (c.Ticker = "AAPL"))).map
        (fun c => c.TS.ns)).Pairwise (· ≤ ·) ∧
    (((Create10mCandles
        [ { Ticker := "AAPL", Period := "1m", Open := 1, High := 4, Low := 0, Close := 2,
            TS := 0 },
          { Ticker := "SBER", Period := "1m", Open := 1, High := 4, Low := 0, Close := 2,
            TS := 120000000000 },
          { Ticker := "AAPL", Period := "1m", Open := 3, High := 6, Low := 1, Close := 5,
            TS := 60000000000 },
          { Ticker := "SBER", Period := "1m", Open := 1, High := 4, Low := 0, Close := 2,
            TS := 180000000000 } ]).out.filter (fun c => decide (c.Ticker = "AAPL"))).map
        (fun c => c.TS.ns)).Pairwise (· ≤ ·) :=
  rollup_emission_order _ (fun s => filter_sorted_of_pairwise _ (by decide) s) "AAPL"

/-! ## The 1-minute stage -/

/-- The flush loop changes nothing when no visited window start lies exactly
one minute before `prevTS`. -/
theorem flushLoop_skip (ticker : String) (prevTS : Time) (visit : List Time) (st : Stage Price)
    (h : ∀ k ∈ visit, prevTS.Sub k ≠ Minute) :
    flushLoop ticker prevTS visit st = st := by
  induction visit generalizing st with
  | nil => rfl
  | cons k rest ih =>
    have hk : prevTS.Sub k ≠ Minute := h k (List.mem_cons_self _ _)
    have hrest : ∀ j ∈ rest, prevTS.Sub j ≠ Minute :=
      fun j hj => h j (List.mem_cons_of_mem _ hj)
    unfold flushLoop
    by_cases hst : st.status ≠ Status.running
    · rw [if_pos hst]
    · rw [if_neg hst]
      cases hg : mapGet ((mapGet st.candleMap ticker).getD []) k with
      | none => exact ih st hrest
      | some prices =>
        show (if prevTS.Sub k = Minute then _ else _) = st
        rw [if_neg hk]
        exact ih st hrest

/-- The pass over one ticker changes nothing when no two window starts stored
for that ticker are exactly one minute apart. -/
theorem flushTicker_skip (o : MapOrder) (hv : o.Valid) (st : Stage Price) (ticker : String)
    (h : ∀ tg, mapGet st.candleMap ticker = some tg →
      ∀ a ∈ mapKeys tg, ∀ b ∈ mapKeys tg, a.Sub b ≠ Minute) :
    flushTicker o st ticker = st := by
  unfold flushTicker
  by_cases hst : st.status ≠ Status.running
  · rw [if_pos hst]
  · rw [if_neg hst]
    cases hg : mapGet st.candleMap ticker with
    | none => rfl
    | some tg =>
      show flushLoop ticker _ _ st = st
      apply flushLoop_skip
      intro b hb
      have hb2 : b ∈ mapKeys tg := (hv.2.2 ticker (mapKeys tg)).mem_iff.mp hb
      cases hf : o.firstRange ticker (mapKeys tg) with
      | nil =>
        have hp := hv.2.1 ticker (mapKeys tg)
        rw [hf] at hp
        have hnil : mapKeys tg = [] := List.Perm.eq_nil hp.symm
        rw [hnil] at hb2
        cases hb2
      | cons a rest =>
        have ha : a ∈ mapKeys tg :=
          (hv.2.1 ticker (mapKeys tg)).mem_iff.mp (by rw [hf]; exact List.mem_cons_self _ _)
        simpa using h tg hg a ha b hb2

/-- The state after the append of the tick and before the flush pass. -/
theorem step1m_eq_foldl (o : MapOrder) (st : Stage Price) (p : Price)
    (hst : st.status = Status.running) :
    step1m o st p =
      (o.tickers (mapKeys (accumulate st.candleMap p.Ticker
          (p.TS.Truncate 60000000000) p))).foldl (flushTicker o)
        { candleMap := accumulate st.candleMap p.Ticker (p.TS.Truncate 60000000000) p,
          out := st.out, status := Status.running, calls := st.calls } := by
  unfold step1m
  simp only [hst, ne_eq, not_true_eq_false, if_false, PeriodTS_1m]

/-! ## The 1-minute stage: one flush pass -/

/-- Sending the candle of a non-empty slice: the candle has the ticker of the
first price and the given window start, it is appended to `out`, the slice is
recorded as passed to `calculateCandle`, and the accumulator is deleted. -/
theorem emit_cons {α : Type} (st : Stage α) (p0 : Price) (l : List Price) (t : String)
    (k : Time) (period : CandlePeriod) :
    ∃ x, calculateCandle (p0 :: l) k period = some x ∧ x.Ticker = p0.Ticker ∧ x.TS = k ∧
      emit st (p0 :: l) t k period =
        { candleMap := discard st.candleMap t k, out := st.out ++ [x], status := st.status,
          calls := st.calls ++ [p0 :: l] } := by
  refine ⟨_, calculateCandle_cons p0 l k period, rfl, rfl, ?_⟩
  unfold emit
  rw [calculateCandle_cons]

/-- The accumulator the flush loop looks up is `stored`. -/
theorem mapGet_getD_eq_stored {β : Type} (m : List (String × List (Time × List β)))
    (t : String) (k : Time) : mapGet ((mapGet m t).getD []) k = stored m t k := by
  unfold stored
  cases mapGet m t with
  | none => rfl
  | some tg => rfl

/-- The flush loop of one ticker keeps the relation to the start of the pass;
every candle it sends is of that ticker and has a window start exactly one
minute before `prevTS`. -/
theorem flushLoop_flushed (done : List Price) (st0 : Stage Price)
    (hrec : TickRec done st0.candleMap) (t : String) (P : Time) (acc2 : List Price)
    (hP : stored st0.candleMap t P = some acc2) (visit : List Time) (st : Stage Price)
    (new : List Candle) (h : Flushed st0 st new) :
    ∃ new1, Flushed st0 (flushLoop t P visit st) (new ++ new1) ∧
      ∀ c ∈ new1, c.Ticker = t ∧ P.Sub c.TS = Minute := by
  induction visit generalizing st new with
  | nil =>
    refine ⟨[], ?_, fun c hc => by cases hc⟩
    rw [List.append_nil]
    exact h
  | cons k rest ih =>
    have hst : ¬ st.status ≠ Status.running := not_not.mpr h.1
    unfold flushLoop
    rw [if_neg hst, mapGet_getD_eq_stored]
    cases hg : stored st.candleMap t k with
    | none => exact ih st new h
    | some prices =>
      by_cases hsub : P.Sub k = Minute
      · simp only [hsub, if_true]
        obtain ⟨hrun, hnd, hout, hrel, hnew, hgone, hkeys, hcalls, hlog⟩ := h
        have hs0 : stored st0.candleMap t k = some prices := by
          rcases hrel t k with h1 | ⟨h1, _⟩
          · rw [← h1]; exact hg
          · rw [h1] at hg; cases hg
        obtain ⟨hne, hmem⟩ := hrec t k prices hs0
        cases prices with
        | nil => exact absurd rfl hne
        | cons p0 l =>
          obtain ⟨x, hx, hxt, hxk, hemit⟩ := emit_cons st p0 l t k CandlePeriod1m
          have hxt2 : x.Ticker = t := by rw [hxt]; exact (hmem p0 (List.mem_cons_self _ _)).1
          have hfl : Flushed st0 (emit st (p0 :: l) t k CandlePeriod1m) (new ++ [x]) := by
            rw [hemit]
            refine ⟨hrun, nodup_mapKeys_discard _ _ _ hnd, ?_, ?_, ?_, ?_, ?_, ?_, ?_⟩
            · simp [hout]
            · intro t2 k2
              simp only [stored_discard]
              by_cases hkey : t2 = t ∧ k2 = k
              · obtain ⟨rfl, rfl⟩ := hkey
                right
                simp only [and_self, if_true, true_and]
                exact ⟨p0 :: l, x, hs0, hx, by simp, hxt2, hxk⟩
              · rw [if_neg hkey]
                rcases hrel t2 k2 with h1 | ⟨h1, acc, c, h2, h3, h4, h5, h6⟩
                · exact Or.inl h1
                · exact Or.inr ⟨h1, acc, c, h2, h3, List.mem_append_left _ h4, h5, h6⟩
            · intro c hc
              rcases List.mem_append.mp hc with hc | hc
              · exact hnew c hc
              · have : c = x := by simpa using hc
                subst this
                rw [hxt2, hxk]
                exact ⟨p0 :: l, P, acc2, hs0, hx, hP, hsub⟩
            · intro c hc
              simp only [stored_discard]
              by_cases hkey : c.Ticker = t ∧ c.TS = k
              · rw [if_pos hkey]
              · rw [if_neg hkey]
                rcases List.mem_append.mp hc with hc | hc
                · exact hgone c hc
                · have : c = x := by simpa using hc
                  subst this
                  exact absurd ⟨hxt2, hxk⟩ hkey
            · rw [List.map_append, List.nodup_append]
              refine ⟨hkeys, by simp, ?_⟩
              intro a ha hb
              have hb2 : a = (x.Ticker, x.TS) := by simpa using hb
              obtain ⟨c, hc, hca⟩ := List.mem_map.mp ha
              have hck : c.Ticker = t ∧ c.TS = k := by
                rw [hb2, hxt2, hxk] at hca
                exact ⟨congrArg Prod.fst hca, congrArg Prod.snd hca⟩
              have := hgone c hc
              rw [hck.1, hck.2, hg] at this
              cases this
            · intro prices hp
              rcases List.mem_append.mp hp with hp | hp
              · exact hcalls prices hp
              · have : prices = p0 :: l := by simpa using hp
                rw [this]
                exact List.cons_ne_nil _ _
            · refine List.rel_append hlog (List.Forall₂.cons ?_ List.Forall₂.nil)
              rw [hxk]
              exact hx
          obtain ⟨new2, h2, hall⟩ := ih _ (new ++ [x]) hfl
          refine ⟨x :: new2, ?_, ?_⟩
          · have : new ++ x :: new2 = new ++ [x] ++ new2 := by simp
            rw [this]
            exact h2
          · intro c hc
            rcases List.mem_cons.mp hc with rfl | hc
            · exact ⟨hxt2, by rw [hxk]; exact hsub⟩
            · exact hall c hc
      · simp only [hsub, if_false]
        exact ih st new h

/-- The pass over one ticker keeps the relation to the start of the pass; the
candles it sends are of that ticker, and their window starts are all exactly
one minute before one and the same key. -/
theorem flushTicker_flushed (o : MapOrder) (hv : o.Valid) (done : List Price)
    (st0 st : Stage Price) (new : List Candle) (t : String)
    (hrec : TickRec done st0.candleMap) (h : Flushed st0 st new) :
    ∃ new1, Flushed st0 (flushTicker o st t) (new ++ new1) ∧
      (∀ c ∈ new1, c.Ticker = t) ∧ ∃ P : Time, ∀ c ∈ new1, P.Sub c.TS = Minute := by
  have hnone : ∃ new1, Flushed st0 st (new ++ new1) ∧
      (∀ c ∈ new1, c.Ticker = t) ∧ ∃ P : Time, ∀ c ∈ new1, P.Sub c.TS = Minute := by
    refine ⟨[], ?_, (fun c hc => by cases hc), 0, (fun c hc => by cases hc)⟩
    rw [List.append_nil]
    exact h
  unfold flushTicker
  have hst : ¬ st.status ≠ Status.running := not_not.mpr h.1
  rw [if_neg hst]
  cases hg : mapGet st.candleMap t with
  | none => exact hnone
  | some tg =>
    simp only []
    cases hf : o.firstRange t (mapKeys tg) with
    | nil =>
      have hp := hv.2.1 t (mapKeys tg)
      rw [hf] at hp
      have hnil : mapKeys tg = [] := List.Perm.eq_nil hp.symm
      have hs := hv.2.2 t (mapKeys tg)
      rw [hnil] at hs ⊢
      rw [List.Perm.eq_nil hs]
      exact hnone
    | cons a rest =>
      have ha : a ∈ mapKeys tg :=
        (hv.2.1 t (mapKeys tg)).mem_iff.mp (by rw [hf]; exact List.mem_cons_self _ _)
      obtain ⟨acc2, hacc2⟩ := (mem_mapKeys_iff tg a).mp ha
      have hsa : stored st.candleMap t a = some acc2 := by simp [stored, hg, hacc2]
      have hsa0 : stored st0.candleMap t a = some acc2 := by
        rcases h.2.2.2.1 t a with h1 | ⟨h1, _⟩
        · rw [← h1]; exact hsa
        · rw [h1] at hsa; cases hsa
      obtain ⟨new1, h1, hall⟩ := flushLoop_flushed done st0 hrec t a acc2 hsa0
        (o.secondRange t (mapKeys tg)) st new h
      simp only [List.head?_cons, Option.getD_some]
      exact ⟨new1, h1, fun c hc => (hall c hc).1, a, fun c hc => (hall c hc).2⟩

/-- The pass over distinct tickers `ts` keeps the relation to the start of the
pass; every candle sent is of one of the tickers, and the window starts of
the candles sent for one symbol are all exactly one minute before one and the
same key. -/
theorem foldl_flushTicker_flushed (o : MapOrder) (hv : o.Valid) (done : List Price)
    (st0 : Stage Price) (hrec : TickRec done st0.candleMap) (ts : List String)
    (hts : ts.Nodup) (st : Stage Price) (new : List Candle) (h : Flushed st0 st new) :
    ∃ new1, Flushed st0 (ts.foldl (flushTicker o) st) (new ++ new1) ∧
      (∀ c ∈ new1, c.Ticker ∈ ts) ∧
      ∀ s, ∃ P : Time, ∀ c ∈ new1, c.Ticker = s → P.Sub c.TS = Minute := by
  induction ts generalizing st new with
  | nil =>
    refine ⟨[], ?_, (fun c hc => by cases hc), fun s => ⟨0, (fun c hc => by cases hc)⟩⟩
    rw [List.append_nil]
    exact h
  | cons t rest ih =>
    rw [List.nodup_cons] at hts
    obtain ⟨new1, h1, ht1, P1, hP1⟩ := flushTicker_flushed o hv done st0 st new t hrec h
    obtain ⟨new2, h2, ht2, hP2⟩ := ih hts.2 (flushTicker o st t) (new ++ new1) h1
    refine ⟨new1 ++ new2, ?_, ?_, ?_⟩
    · rw [← List.append_assoc]
      exact h2
    · intro c hc
      rcases List.mem_append.mp hc with hc | hc
      · rw [ht1 c hc]; exact List.mem_cons_self _ _
      · exact List.mem_cons_of_mem _ (ht2 c hc)
    · intro s
      by_cases hs : s = t
      · subst hs
        refine ⟨P1, ?_⟩
        intro c hc hcs
        rcases List.mem_append.mp hc with hc | hc
        · exact hP1 c hc
        · have := ht2 c hc
          rw [hcs] at this
          exact absurd this hts.1
      · obtain ⟨P2, hP2s⟩ := hP2 s
        refine ⟨P2, ?_⟩
        intro c hc hcs
        rcases List.mem_append.mp hc with hc | hc
        · have := ht1 c hc
          rw [hcs] at this
          exact absurd this hs
        · exact hP2s c hc hcs

/-! ## The 1-minute stage: invariant of the run -/

theorem TickInv_fresh : TickInv [] Stage.fresh := by
  refine ⟨rfl, ?_, ?_, ?_, ?_, List.Forall₂.nil⟩
  · simp [Stage.fresh, mapKeys]
  · intro t k acc h
    simp [stored, Stage.fresh, mapGet] at h
  · intro c hc
    simp [Stage.fresh] at hc
  · intro prices hp
    simp [Stage.fresh] at hp

/-- Appending the received tick to the accumulator of its symbol and window
key keeps `TickRec`. -/
theorem TickRec_accumulate (done : List Price) (m : List (String × List (Time × List Price)))
    (p : Price) (hrec : TickRec done m) :
    TickRec (done ++ [p]) (accumulate m p.Ticker (p.TS.Truncate 60000000000) p) := by
  intro t k acc hs
  rw [stored_accumulate] at hs
  by_cases hkey : t = p.Ticker ∧ k = p.TS.Truncate 60000000000
  · rw [if_pos hkey] at hs
    obtain ⟨rfl, rfl⟩ := hkey
    cases hs
    refine ⟨by simp, ?_⟩
    intro x hx
    rcases List.mem_append.mp hx with hx | hx
    · rw [mapSlice2_eq_stored] at hx
      cases hs2 : stored m p.Ticker (p.TS.Truncate 60000000000) with
      | none => rw [hs2] at hx; simp at hx
      | some a =>
        rw [hs2] at hx
        obtain ⟨h1, h2, h3⟩ := (hrec _ _ _ hs2).2 x hx
        exact ⟨h1, h2, List.mem_append_left _ h3⟩
    · have : x = p := by simpa using hx
      subst this
      exact ⟨rfl, rfl, by simp⟩
  · rw [if_neg hkey] at hs
    obtain ⟨h1, h2⟩ := hrec t k acc hs
    exact ⟨h1, fun x hx => ⟨(h2 x hx).1, (h2 x hx).2.1, List.mem_append_left _ (h2 x hx).2.2⟩⟩

/-- A key stored in the 1-minute stage is the truncation of the timestamp of a
received tick: it has no monotonic reading and the Location of that tick. -/
theorem TickRec_key (done : List Price) (m : List (String × List (Time × List Price)))
    (hrec : TickRec done m) (t : String) (k : Time) (acc : List Price)
    (hs : stored m t k = some acc) :
    k.mono = none ∧ ∃ x ∈ done, x.Ticker = t ∧ x.TS.Truncate 60000000000 = k := by
  obtain ⟨hne, hmem⟩ := hrec t k acc hs
  cases acc with
  | nil => exact absurd rfl hne
  | cons q l =>
    have := hmem q (List.mem_cons_self _ _)
    exact ⟨by rw [← this.2.1]; rfl, q, this.2.2, this.1, this.2.1⟩

/-- One received tick: the invariant is kept; the candles sent while
processing the tick relate to the state right after the append as `Flushed`
says; and the window starts of the candles sent for one symbol are all
exactly one minute before one and the same key. -/
theorem step1m_spec (o : MapOrder) (hv : o.Valid) (done : List Price) (st : Stage Price)
    (p : Price) (h : TickInv done st) :
    ∃ new, TickInv (done ++ [p]) (step1m o st p) ∧
      Flushed { candleMap := accumulate st.candleMap p.Ticker (p.TS.Truncate 60000000000) p,
                out := st.out, status := Status.running, calls := st.calls }
        (step1m o st p) new ∧
      ∀ s, ∃ P : Time, ∀ c ∈ new, c.Ticker = s → P.Sub c.TS = Minute := by
  obtain ⟨hst, hnd, hrec, hout, hcalls, hlog⟩ := h
  have hrec1 := TickRec_accumulate done st.candleMap p hrec
  have hnd1 := nodup_mapKeys_accumulate st.candleMap p.Ticker (p.TS.Truncate 60000000000) p hnd
  have hfl0 : Flushed
      { candleMap := accumulate st.candleMap p.Ticker (p.TS.Truncate 60000000000) p,
        out := st.out, status := Status.running, calls := st.calls }
      { candleMap := accumulate st.candleMap p.Ticker (p.TS.Truncate 60000000000) p,
        out := st.out, status := Status.running, calls := st.calls } [] :=
    ⟨rfl, hnd1, by simp, fun t k => Or.inl rfl, (fun c hc => by cases hc),
      (fun c hc => by cases hc), by simp, hcalls, hlog⟩
  have hperm := hv.1 (mapKeys (accumulate st.candleMap p.Ticker (p.TS.Truncate 60000000000) p))
  obtain ⟨new, hfl, _, hcommon⟩ := foldl_flushTicker_flushed o hv (done ++ [p]) _ hrec1
    (o.tickers (mapKeys (accumulate st.candleMap p.Ticker (p.TS.Truncate 60000000000) p)))
    ((hperm.nodup_iff).mpr hnd1) _ [] hfl0
  rw [List.nil_append, ← step1m_eq_foldl o st p hst] at hfl
  refine ⟨new, ?_, hfl, hcommon⟩
  obtain ⟨hst2, hnd2, hout2, hrel, hnew, _, _, hcalls2, hlog2⟩ := hfl
  refine ⟨hst2, hnd2, ?_, ?_, hcalls2, hlog2⟩
  · intro t k acc hs
    rcases hrel t k with h1 | ⟨h1, _⟩
    · rw [h1] at hs
      exact hrec1 t k acc hs
    · rw [h1] at hs; cases hs
  · intro c hc
    rw [hout2] at hc
    rcases List.mem_append.mp hc with hc | hc
    · obtain ⟨prices, h1, h2, h3, q, hq, h4⟩ := hout c hc
      exact ⟨prices, h1, fun x hx => ⟨List.mem_append_left _ (h2 x hx).1, (h2 x hx).2⟩, h3, q,
        List.mem_append_left _ hq, h4⟩
    · obtain ⟨acc, k2, acc2, hs1, hcalc, hs2, hsub⟩ := hnew c hc
      obtain ⟨hne, hmem⟩ := hrec1 _ _ _ hs1
      obtain ⟨hne2, hmem2⟩ := hrec1 _ _ _ hs2
      refine ⟨acc, hne, fun x hx => ⟨(hmem x hx).2.2, (hmem x hx).1, (hmem x hx).2.1⟩, hcalc, ?_⟩
      cases acc2 with
      | nil => exact absurd rfl hne2
      | cons q l =>
        have := hmem2 q (List.mem_cons_self _ _)
        exact ⟨q, this.2.2, this.1, by rw [this.2.1]; exact hsub⟩

/-- Receiving one more tick at the end of the input is one more loop body. -/
theorem run1m_append (pre : List Price) (order : Nat → MapOrder) (st : Stage Price) (p : Price) :
    run1m order st (pre ++ [p]) = step1m (order pre.length) (run1m order st pre) p := by
  induction pre generalizing order st with
  | nil => simp [run1m]
  | cons q l ih =>
    show run1m (fun i => order (i + 1)) (step1m (order 0) st q) (l ++ [p]) =
      step1m (order (l.length + 1)) (run1m (fun i => order (i + 1)) (step1m (order 0) st q) l) p
    rw [ih]

/-- The invariant of the 1-minute stage holds along every run. -/
theorem run1m_inv (inside : List Price) (order : Nat → MapOrder) (hv : ∀ i, (order i).Valid)
    (done : List Price) (st : Stage Price) (h : TickInv done st) :
    TickInv (done ++ inside) (run1m order st inside) := by
  induction inside generalizing order done st with
  | nil => simpa [run1m] using h
  | cons p l ih =>
    obtain ⟨_, h1, _, _⟩ := step1m_spec (order 0) (hv 0) done st p h
    have h2 := ih (fun i => order (i + 1)) (fun i => hv (i + 1)) (done ++ [p]) _ h1
    simpa [run1m] using h2

theorem Create1mCandles_inv (order : Nat → MapOrder) (hv : ∀ i, (order i).Valid)
    (inside : List Price) : TickInv inside (Create1mCandles order inside) := by
  have h := run1m_inv inside order hv [] Stage.fresh TickInv_fresh
  simpa [Create1mCandles] using h

/-! ## Iteration orders used as examples -/

theorem MapOrder.listOrder_valid : MapOrder.listOrder.Valid :=
  ⟨fun _ => List.Perm.refl _, fun _ _ => List.Perm.refl _, fun _ _ => List.Perm.refl _⟩

theorem MapOrder.newestFirst_valid : MapOrder.newestFirst.Valid :=
  ⟨fun _ => List.Perm.refl _, fun _ ks => List.reverse_perm ks, fun _ _ => List.Perm.refl _⟩

/-- Processing one more tick, seen from the state the stage had reached. -/
theorem Create1mCandles_snoc (order : Nat → MapOrder) (hv : ∀ i, (order i).Valid)
    (pre : List Price) (p : Price) :
    ∃ new,
      Flushed
        { candleMap := accumulate (Create1mCandles order pre).candleMap p.Ticker
            (p.TS.Truncate 60000000000) p,
          out := (Create1mCandles order pre).out, status := Status.running,
          calls := (Create1mCandles order pre).calls }
        (Create1mCandles order (pre ++ [p])) new ∧
      TickRec (pre ++ [p]) (accumulate (Create1mCandles order pre).candleMap p.Ticker
            (p.TS.Truncate 60000000000) p) ∧
      ∀ s, ∃ P : Time, ∀ c ∈ new, c.Ticker = s → P.Sub c.TS = Minute := by
  have hinv := Create1mCandles_inv order hv pre
  obtain ⟨new, _, hfl, hcommon⟩ := step1m_spec (order pre.length) (hv pre.length) pre
    (Create1mCandles order pre) p hinv
  refine ⟨new, ?_, TickRec_accumulate pre _ p hinv.2.2.1, hcommon⟩
  have : Create1mCandles order (pre ++ [p]) =
      step1m (order pre.length) (Create1mCandles order pre) p := by
    unfold Create1mCandles
    exact run1m_append pre order Stage.fresh p
  rw [this]
  exact hfl

/-! ## The 1-minute stage: a later window does not flush an earlier one -/

/-- C10 (code defect).  An AAPL tick at 00:00:10 and then an AAPL tick at
00:02:10, fed to a fresh `Create1mCandles`: the second tick has a window start
(00:02:00) strictly later than the accumulated window 00:00:00, yet for every
iteration order of the maps the stage emits nothing, keeps running, and still
holds the accumulator of window 00:00:00 with the first tick.  The flush test
is `prevTS.Sub(startTime) == time.Minute` with `prevTS` a window start stored
for the ticker, and no two stored window starts are one minute apart.  With
the second tick at 00:01:10 instead, and the first map range producing the key
00:00:00 first, the stage emits nothing either. -/
theorem Create1mCandles_gap_keeps_window (order : Nat → MapOrder)
    (hv : ∀ i, (order i).Valid) :
    (Create1mCandles order
        [ { Ticker := "AAPL", Value := 100, TS := 10000000000 },
          { Ticker := "AAPL", Value := 101, TS := 130000000000 } ]).out = [] ∧
      (Create1mCandles order
        [ { Ticker := "AAPL", Value := 100, TS := 10000000000 },
          { Ticker := "AAPL", Value := 101, TS := 130000000000 } ]).status = Status.running ∧
      (Create1mCandles order
        [ { Ticker := "AAPL", Value := 100, TS := 10000000000 },
          { Ticker := "AAPL", Value := 101, TS := 130000000000 } ]).candleMap
        = [("AAPL", [(0, [ { Ticker := "AAPL", Value := 100, TS := 10000000000 } ]),
                     (120000000000,
                       [ { Ticker := "AAPL", Value := 101, TS := 130000000000 } ])])] ∧
      (Create1mCandles (fun _ => MapOrder.listOrder)
        [ { Ticker := "AAPL", Value := 100, TS := 10000000000 },
          { Ticker := "AAPL", Value := 101, TS := 70000000000 } ]).out = [] := by
  have ht0 : (order 0).tickers ["AAPL"] = ["AAPL"] :=
    List.perm_singleton.mp ((hv 0).1 _)
  have ht1 : (order 1).tickers ["AAPL"] = ["AAPL"] :=
    List.perm_singleton.mp ((hv 1).1 _)
  have h1 : step1m (order 0) Stage.fresh { Ticker := "AAPL", Value := 100, TS := 10000000000 }
      = { candleMap := [("AAPL", [(0, [ { Ticker := "AAPL", Value := 100,
                                          TS := 10000000000 } ])])],
          out := [], status := Status.running, calls := [] } := by
    rw [step1m_eq_foldl _ _ _ rfl]
    have e : accumulate (Stage.fresh : Stage Price).candleMap
        ({ Ticker := "AAPL", Value := 100, TS := 10000000000 } : Price).Ticker
        (({ Ticker := "AAPL", Value := 100, TS := 10000000000 } : Price).TS.Truncate
          60000000000)
        { Ticker := "AAPL", Value := 100, TS := 10000000000 }
        = [("AAPL", [(0, [ { Ticker := "AAPL", Value := 100, TS := 10000000000 } ])])] := by
      decide
    rw [e]
    show List.foldl _ _ ((order 0).tickers ["AAPL"]) = _
    rw [ht0]
    rw [List.foldl_cons, List.foldl_nil]
    refine Eq.trans (flushTicker_skip _ (hv 0) _ _ ?_) rfl
    intro tg htg a ha b hb
    simp [mapGet] at htg
    subst htg
    simp [mapKeys] at ha hb
    subst ha
    subst hb
    decide
  have h2 : step1m (order 1)
      { candleMap := [("AAPL", [(0, [ { Ticker := "AAPL", Value := 100,
                                        TS := 10000000000 } ])])],
        out := [], status := Status.running, calls := [] }
      { Ticker := "AAPL", Value := 101, TS := 130000000000 }
      = { candleMap :=
            [("AAPL", [(0, [ { Ticker := "AAPL", Value := 100, TS := 10000000000 } ]),
                       (120000000000,
                         [ { Ticker := "AAPL", Value := 101, TS := 130000000000 } ])])],
          out := [], status := Status.running, calls := [] } := by
    rw [step1m_eq_foldl _ _ _ rfl]
    have e : accumulate
        [("AAPL", [((0 : Time), [ ({ Ticker := "AAPL", Value := 100,
                                     TS := 10000000000 } : Price) ])])]
        ({ Ticker := "AAPL", Value := 101, TS := 130000000000 } : Price).Ticker
        (({ Ticker := "AAPL", Value := 101, TS := 130000000000 } : Price).TS.Truncate
          60000000000)
        { Ticker := "AAPL", Value := 101, TS := 130000000000 }
        = [("AAPL", [(0, [ { Ticker := "AAPL", Value := 100, TS := 10000000000 } ]),
                     (120000000000,
                       [ { Ticker := "AAPL", Value := 101, TS := 130000000000 } ])])] := by
      decide
    rw [e]
    show List.foldl _ _ ((order 1).tickers ["AAPL"]) = _
    rw [ht1]
    rw [List.foldl_cons, List.foldl_nil]
    refine Eq.trans (flushTicker_skip _ (hv 1) _ _ ?_) rfl
    intro tg htg a ha b hb
    simp [mapGet] at htg
    subst htg
    simp [mapKeys] at ha hb
    rcases ha with rfl | rfl <;> rcases hb with rfl | rfl <;> decide
  have hrun : Create1mCandles order
        [ { Ticker := "AAPL", Value := 100, TS := 10000000000 },
          { Ticker := "AAPL", Value := 101, TS := 130000000000 } ]
      = { candleMap :=
            [("AAPL", [(0, [ { Ticker := "AAPL", Value := 100, TS := 10000000000 } ]),
                       (120000000000,
                         [ { Ticker := "AAPL", Value := 101, TS := 130000000000 } ])])],
          out := [], status := Status.running, calls := [] } := by
    unfold Create1mCandles
    simp only [run1m]
    rw [h1]
    exact h2
  rw [hrun]
  exact ⟨rfl, rfl, rfl, by decide⟩

theorem Create1mCandles_gap_keeps_window_witness :
    (Create1mCandles (fun _ => MapOrder.listOrder)
        [ { Ticker := "AAPL", Value := 100, TS := 10000000000 },
          { Ticker := "AAPL", Value := 101, TS := 130000000000 } ]).out = [] ∧
      (Create1mCandles (fun _ => MapOrder.listOrder)
        [ { Ticker := "AAPL", Value := 100, TS := 10000000000 },
          { Ticker := "AAPL", Value := 101, TS := 130000000000 } ]).status = Status.running ∧
      (Create1mCandles (fun _ => MapOrder.listOrder)
        [ { Ticker := "AAPL", Value := 100, TS := 10000000000 },
          { Ticker := "AAPL", Value := 101, TS := 130000000000 } ]).candleMap
        = [("AAPL", [(0, [ { Ticker := "AAPL", Value := 100, TS := 10000000000 } ]),
                     (120000000000,
                       [ { Ticker := "AAPL", Value := 101, TS := 130000000000 } ])])] ∧
      (Create1mCandles (fun _ => MapOrder.listOrder)
        [ { Ticker := "AAPL", Value := 100, TS := 10000000000 },
          { Ticker := "AAPL", Value := 101, TS := 70000000000 } ]).out = [] :=
  Create1mCandles_gap_keeps_window (fun _ => MapOrder.listOrder)
    (fun _ => ⟨fun _ => List.Perm.refl _, fun _ _ => List.Perm.refl _,
      fun _ _ => List.Perm.refl _⟩)

/-! ## The 1-minute stage: late ticks and the flush rule -/

/-- C11 (as stated, refuted).  AAPL ticks at 00:00:10 and 00:01:10, then a late
AAPL tick at 00:00:20.  With iteration orders in which the first range over
the AAPL table produces 00:01:00 first while the second and the third tick are
processed, the candle for (AAPL, 00:00:00) is emitted and its accumulator
deleted by the second tick, and the late tick makes the stage emit a second
candle for (AAPL, 00:00:00).  With an order that produces the key stored last
first, the late tick creates a new accumulator for (AAPL, 00:00:00) that stays
stored.  Both orders are valid. -/
theorem Create1mCandles_late_tick_not_dropped :
    (∀ i : Nat, (if i = 1 then MapOrder.newestFirst else MapOrder.listOrder).Valid) ∧
    (Create1mCandles (fun i => if i = 1 then MapOrder.newestFirst else MapOrder.listOrder)
        [ { Ticker := "AAPL", Value := 100, TS := 10000000000 },
          { Ticker := "AAPL", Value := 101, TS := 70000000000 } ]).out
      = [ { Ticker := "AAPL", Period := "", Open := 100, High := 100, Low := 100,
            Close := 100, TS := 0 } ] ∧
    stored (Create1mCandles (fun i => if i = 1 then MapOrder.newestFirst else MapOrder.listOrder)
        [ { Ticker := "AAPL", Value := 100, TS := 10000000000 },
          { Ticker := "AAPL", Value := 101, TS := 70000000000 } ]).candleMap "AAPL" 0 = none ∧
    (Create1mCandles (fun i => if i = 1 then MapOrder.newestFirst else MapOrder.listOrder)
        [ { Ticker := "AAPL", Value := 100, TS := 10000000000 },
          { Ticker := "AAPL", Value := 101, TS := 70000000000 },
          { Ticker := "AAPL", Value := 99, TS := 20000000000 } ]).out
      = [ { Ticker := "AAPL", Period := "", Open := 100, High := 100, Low := 100,
            Close := 100, TS := 0 },
          { Ticker := "AAPL", Period := "", Open := 99, High := 99, Low := 99,
            Close := 99, TS := 0 } ] ∧
    (∀ i : Nat, ((fun _ => MapOrder.newestFirst) i).Valid) ∧
    stored (Create1mCandles (fun _ => MapOrder.newestFirst)
        [ { Ticker := "AAPL", Value := 100, TS := 10000000000 },
          { Ticker := "AAPL", Value := 101, TS := 70000000000 },
          { Ticker := "AAPL", Value := 99, TS := 20000000000 } ]).candleMap "AAPL" 0
      = some [ { Ticker := "AAPL", Value := 99, TS := 20000000000 } ] := by
  refine ⟨?_, by decide, by decide, by decide, fun _ => MapOrder.newestFirst_valid, by decide⟩
  intro i
  by_cases h : i = 1
  · rw [if_pos h]; exact MapOrder.newestFirst_valid
  · rw [if_neg h]; exact MapOrder.listOrder_valid

/-- C11 (amended).  In the 1-minute stage a tick whose symbol and window `W`
have no accumulator when it arrives, as a late tick after the candle for
(symbol, `W`) was emitted and its accumulator deleted, is not dropped: the
stage stores the accumulator holding just that tick under (symbol, `W`), and
when the tick has been processed that accumulator is either still stored, or
it has been deleted and a candle for (symbol, `W`) reduced from that tick alone
is among the candles emitted while processing the tick. -/
theorem Create1mCandles_late_tick (order : Nat → MapOrder) (hv : ∀ i, (order i).Valid)
    (pre : List Price) (p : Price)
    (hnone : stored (Create1mCandles order pre).candleMap p.Ticker
      (PeriodTS CandlePeriod1m p.TS).1 = none) :
    stored (accumulate (Create1mCandles order pre).candleMap p.Ticker
        (PeriodTS CandlePeriod1m p.TS).1 p) p.Ticker (PeriodTS CandlePeriod1m p.TS).1
      = some [p] ∧
    ∃ new, (Create1mCandles order (pre ++ [p])).out = (Create1mCandles order pre).out ++ new ∧
      (stored (Create1mCandles order (pre ++ [p])).candleMap p.Ticker
          (PeriodTS CandlePeriod1m p.TS).1 = some [p] ∨
        (stored (Create1mCandles order (pre ++ [p])).candleMap p.Ticker
            (PeriodTS CandlePeriod1m p.TS).1 = none ∧
          ∃ c, calculateCandle [p] (PeriodTS CandlePeriod1m p.TS).1 CandlePeriod1m = some c ∧
            c ∈ new ∧ c.Ticker = p.Ticker ∧ c.TS = (PeriodTS CandlePeriod1m p.TS).1)) := by
  simp only [PeriodTS_1m] at hnone ⊢
  have hacc : stored (accumulate (Create1mCandles order pre).candleMap p.Ticker
      (p.TS.Truncate 60000000000) p) p.Ticker (p.TS.Truncate 60000000000) = some [p] := by
    rw [stored_accumulate, mapSlice2_eq_stored, hnone]
    simp
  refine ⟨hacc, ?_⟩
  obtain ⟨new, ⟨_, _, hout, hrel, _⟩, _⟩ := Create1mCandles_snoc order hv pre p
  refine ⟨new, hout, ?_⟩
  rcases hrel p.Ticker (p.TS.Truncate 60000000000) with h1 | ⟨h1, acc, c, h2, h3, h4, h5, h6⟩
  · left
    rw [h1]
    exact hacc
  · right
    have h2' : stored (accumulate (Create1mCandles order pre).candleMap p.Ticker
        (p.TS.Truncate 60000000000) p) p.Ticker (p.TS.Truncate 60000000000) = some acc := h2
    rw [hacc] at h2'
    cases h2'
    exact ⟨h1, c, h3, h4, h5, h6⟩

theorem Create1mCandles_late_tick_witness :
    stored (accumulate
        (Create1mCandles (fun i => if i = 1 then MapOrder.newestFirst else MapOrder.listOrder)
          [ { Ticker := "AAPL", Value := 100, TS := 10000000000 },
            { Ticker := "AAPL", Value := 101, TS := 70000000000 } ]).candleMap "AAPL"
        (PeriodTS CandlePeriod1m 20000000000).1
        { Ticker := "AAPL", Value := 99, TS := 20000000000 }) "AAPL"
        (PeriodTS CandlePeriod1m 20000000000).1
      = some [ { Ticker := "AAPL", Value := 99, TS := 20000000000 } ] ∧
    ∃ new,
      (Create1mCandles (fun i => if i = 1 then MapOrder.newestFirst else MapOrder.listOrder)
          ([ { Ticker := "AAPL", Value := 100, TS := 10000000000 },
            { Ticker := "AAPL", Value := 101, TS := 70000000000 } ] ++
            [ { Ticker := "AAPL", Value := 99, TS := 20000000000 } ])).out
        = (Create1mCandles (fun i => if i = 1 then MapOrder.newestFirst else MapOrder.listOrder)
          [ { Ticker := "AAPL", Value := 100, TS := 10000000000 },
            { Ticker := "AAPL", Value := 101, TS := 70000000000 } ]).out ++ new ∧
      (stored (Create1mCandles (fun i => if i = 1 then MapOrder.newestFirst else MapOrder.listOrder)
          ([ { Ticker := "AAPL", Value := 100, TS := 10000000000 },
            { Ticker := "AAPL", Value := 101, TS := 70000000000 } ] ++
            [ { Ticker := "AAPL", Value := 99, TS := 20000000000 } ])).candleMap "AAPL"
          (PeriodTS CandlePeriod1m 20000000000).1
          = some [ { Ticker := "AAPL", Value := 99, TS := 20000000000 } ] ∨
        (stored (Create1mCandles (fun i => if i = 1 then MapOrder.newestFirst else MapOrder.listOrder)
          ([ { Ticker := "AAPL", Value := 100, TS := 10000000000 },
            { Ticker := "AAPL", Value := 101, TS := 70000000000 } ] ++
            [ { Ticker := "AAPL", Value := 99, TS := 20000000000 } ])).candleMap "AAPL"
            (PeriodTS CandlePeriod1m 20000000000).1 = none ∧
          ∃ c, calculateCandle [ { Ticker := "AAPL", Value := 99, TS := 20000000000 } ]
              (PeriodTS CandlePeriod1m 20000000000).1 CandlePeriod1m = some c ∧
            c ∈ new ∧ c.Ticker = "AAPL" ∧ c.TS = (PeriodTS CandlePeriod1m 20000000000).1)) :=
  Create1mCandles_late_tick
    (fun i => if i = 1 then MapOrder.newestFirst else MapOrder.listOrder)
    (fun i => by
      by_cases h : i = 1
      · simp only [h, if_true]; exact MapOrder.newestFirst_valid
      · simp only [h, if_false]; exact MapOrder.listOrder_valid)
    [ { Ticker := "AAPL", Value := 100, TS := 10000000000 },
            { Ticker := "AAPL", Value := 101, TS := 70000000000 } ]
    { Ticker := "AAPL", Value := 99, TS := 20000000000 } (by decide)

/-- `Sub` of a time without monotonic reading compares wall-clock instants. -/
theorem Sub_of_mono_none_right (a b : Time) (h : b.mono = none) :
    a.Sub b = subInstant a.ns b.ns := by
  unfold Time.Sub
  rw [h]
  cases a.mono <;> rfl

/-- Two window keys without monotonic reading, in the same Location, both
exactly one minute before the same time, are the same key. -/
theorem key_eq_of_Sub_eq_Minute (P a b : Time) (ha : P.Sub a = Minute) (hb : P.Sub b = Minute)
    (hma : a.mono = none) (hmb : b.mono = none) (hl : a.loc = b.loc) : a = b := by
  rw [Sub_of_mono_none_right P a hma] at ha
  rw [Sub_of_mono_none_right P b hmb] at hb
  have h1 := subInstant_eq_Minute _ _ ha
  have h2 := subInstant_eq_Minute _ _ hb
  cases a
  cases b
  simp only [Time.mk.injEq] at *
  exact ⟨by omega, hl, by rw [hma, hmb]⟩

/-- In a list whose elements have distinct keys, at most one element satisfies
a predicate all of whose solutions have the same key. -/
theorem countP_le_one_of_nodup_map {α β : Type} (f : α → β) (p : α → Bool) (l : List α)
    (hnd : (l.map f).Nodup)
    (h : ∀ a ∈ l, ∀ b ∈ l, p a = true → p b = true → f a = f b) : l.countP p ≤ 1 := by
  induction l with
  | nil => simp
  | cons a l ih =>
    rw [List.map_cons, List.nodup_cons] at hnd
    have ih2 := ih hnd.2 (fun x hx y hy => h x (List.mem_cons_of_mem _ hx) y
      (List.mem_cons_of_mem _ hy))
    by_cases hpa : p a = true
    · have hzero : l.countP p = 0 := by
        rw [List.countP_eq_zero]
        intro b hb hpb
        apply hnd.1
        rw [h a (List.mem_cons_self _ _) b (List.mem_cons_of_mem _ hb) hpa hpb]
        exact List.mem_map_of_mem f hb
      rw [List.countP_cons_of_pos _ _ hpa, hzero]
    · rw [List.countP_cons_of_neg _ _ hpa]
      exact ih2

/-- C20 (as stated, refuted).  AAPL ticks at 00:00:10 in one Location and at
00:00:20 in another Location, then an AAPL tick at 00:01:10, with the valid
iteration order that produces the key stored last first: nothing is emitted
for the first two ticks, and while the third tick is processed the stage
emits two AAPL candles, one for each of the two keys of the instant 00:00:00,
both exactly one minute before the key 00:01:00. -/
theorem Create1mCandles_two_candles_one_tick :
    (∀ i : Nat, ((fun _ => MapOrder.newestFirst) i).Valid) ∧
    (Create1mCandles (fun _ => MapOrder.newestFirst)
        [ { Ticker := "AAPL", Value := 100,
            TS := { ns := 10000000000, loc := 0, mono := none } },
          { Ticker := "AAPL", Value := 99,
            TS := { ns := 20000000000, loc := 1, mono := none } } ]).out = [] ∧
    (Create1mCandles (fun _ => MapOrder.newestFirst)
        ([ { Ticker := "AAPL", Value := 100,
             TS := { ns := 10000000000, loc := 0, mono := none } },
           { Ticker := "AAPL", Value := 99,
             TS := { ns := 20000000000, loc := 1, mono := none } } ] ++
         [ { Ticker := "AAPL", Value := 101,
             TS := { ns := 70000000000, loc := 0, mono := none } } ])).out
      = [ { Ticker := "AAPL", Period := "", Open := 100, High := 100, Low := 100,
            Close := 100, TS := { ns := 0, loc := 0, mono := none } },
          { Ticker := "AAPL", Period := "", Open := 99, High := 99, Low := 99,
            Close := 99, TS := { ns := 0, loc := 1, mono := none } } ] ∧
    ([ ({ Ticker := "AAPL", Period := "", Open := 100, High := 100, Low := 100,
          Close := 100, TS := { ns := 0, loc := 0, mono := none } } : Candle),
       { Ticker := "AAPL", Period := "", Open := 99, High := 99, Low := 99,
         Close := 99, TS := { ns := 0, loc := 1, mono := none } } ]).countP
      (fun c => decide (c.Ticker = "AAPL")) = 2 := by
  refine ⟨fun _ => MapOrder.newestFirst_valid, by decide, by decide, by decide⟩

/-- C20 (amended).  For every valid iteration order of the maps, when the
1-minute stage has received the ticks `pre` and processes one more tick `p`:
every candle it emits while processing `p` is for a symbol and a window key
`W` such that the table of that symbol, at that moment (after `p` was
appended), holds a key whose instant is exactly one minute after that of `W`;
per symbol and Location of the window key at most one candle is emitted, so
at most one candle per symbol when all ticks received so far are in one
Location.  And over a whole run on `inside`: if no tick of symbol `s` falls in
the minute that starts one minute after the instant `W`, no candle for `s`
with a window start at the instant `W` is ever emitted. -/
theorem Create1mCandles_flush_rule (order : Nat → MapOrder) (hv : ∀ i, (order i).Valid)
    (pre : List Price) (p : Price) (inside : List Price) (s : String) (W : Int) :
    (∃ new, (Create1mCandles order (pre ++ [p])).out = (Create1mCandles order pre).out ++ new ∧
      (∀ c ∈ new, ∃ k2 acc,
        stored (accumulate (Create1mCandles order pre).candleMap p.Ticker
          (PeriodTS CandlePeriod1m p.TS).1 p) c.Ticker k2 = some acc ∧
        k2.Sub c.TS = Minute ∧ k2.ns = c.TS.ns + Minute) ∧
      (∀ t l, new.countP (fun c => decide (c.Ticker = t ∧ c.TS.loc = l)) ≤ 1) ∧
      ((∀ q ∈ pre ++ [p], q.TS.loc = p.TS.loc) →
        ∀ t, new.countP (fun c => decide (c.Ticker = t)) ≤ 1)) ∧
    ((∀ q ∈ inside, q.Ticker = s → (PeriodTS CandlePeriod1m q.TS).1.ns ≠ W + Minute) →
      ∀ c ∈ (Create1mCandles order inside).out, ¬ (c.Ticker = s ∧ c.TS.ns = W)) := by
  constructor
  · obtain ⟨new, ⟨_, _, hout, _, hnew, _, hkeys, _⟩, hrec, hcommon⟩ :=
      Create1mCandles_snoc order hv pre p
    simp only [] at hnew
    have hkey : ∀ c ∈ new, c.TS.mono = none ∧
        ∃ x ∈ pre ++ [p], x.TS.Truncate 60000000000 = c.TS := by
      intro c hc
      obtain ⟨acc, _, _, hs1, _⟩ := hnew c hc
      obtain ⟨h1, x, hx, _, h2⟩ := TickRec_key _ _ hrec _ _ _ hs1
      exact ⟨h1, x, hx, h2⟩
    refine ⟨new, hout, ?_, ?_, ?_⟩
    · intro c hc
      obtain ⟨_, k2, acc2, _, _, hs2, hsub⟩ := hnew c hc
      rw [PeriodTS_1m]
      refine ⟨k2, acc2, hs2, hsub, ?_⟩
      rw [Sub_of_mono_none_right k2 c.TS (hkey c hc).1] at hsub
      exact subInstant_eq_Minute _ _ hsub
    · intro t l
      obtain ⟨P, hP⟩ := hcommon t
      apply countP_le_one_of_nodup_map (fun c => (c.Ticker, c.TS)) _ new hkeys
      intro a ha b hb hpa hpb
      simp only [decide_eq_true_eq] at hpa hpb
      have := key_eq_of_Sub_eq_Minute P a.TS b.TS (hP a ha hpa.1) (hP b hb hpb.1)
        (hkey a ha).1 (hkey b hb).1 (by rw [hpa.2, hpb.2])
      rw [hpa.1, hpb.1, this]
    · intro hloc t
      obtain ⟨P, hP⟩ := hcommon t
      apply countP_le_one_of_nodup_map (fun c => (c.Ticker, c.TS)) _ new hkeys
      intro a ha b hb hpa hpb
      simp only [decide_eq_true_eq] at hpa hpb
      have hla : a.TS.loc = p.TS.loc := by
        obtain ⟨x, hx, hxa⟩ := (hkey a ha).2
        rw [← hxa]
        exact hloc x hx
      have hlb : b.TS.loc = p.TS.loc := by
        obtain ⟨x, hx, hxb⟩ := (hkey b hb).2
        rw [← hxb]
        exact hloc x hx
      have := key_eq_of_Sub_eq_Minute P a.TS b.TS (hP a ha hpa) (hP b hb hpb)
        (hkey a ha).1 (hkey b hb).1 (by rw [hla, hlb])
      rw [hpa, hpb, this]
  · intro hno c hc hkey
    obtain ⟨_, _, _, hout, _⟩ := Create1mCandles_inv order hv inside
    obtain ⟨_, _, _, _, q, hq, hqt, hqk⟩ := hout c hc
    apply hno q hq (by rw [hqt, hkey.1])
    rw [PeriodTS_1m]
    rw [Sub_of_mono_none _ _ rfl] at hqk
    have := subInstant_eq_Minute _ _ hqk
    rw [hkey.2] at this
    exact this

theorem Create1mCandles_flush_rule_witness :
    (∃ new,
      (Create1mCandles (fun _ => MapOrder.newestFirst)
          ([ { Ticker := "AAPL", Value := 100, TS := 10000000000 } ] ++
            [ { Ticker := "AAPL", Value := 101, TS := 70000000000 } ])).out
        = (Create1mCandles (fun _ => MapOrder.newestFirst)
            [ { Ticker := "AAPL", Value := 100, TS := 10000000000 } ]).out ++ new ∧
      (∀ c ∈ new, ∃ k2 acc,
        stored (accumulate
          (Create1mCandles (fun _ => MapOrder.newestFirst)
            [ { Ticker := "AAPL", Value := 100, TS := 10000000000 } ]).candleMap
          ({ Ticker := "AAPL", Value := 101, TS := 70000000000 } : Price).Ticker
          (PeriodTS CandlePeriod1m
            ({ Ticker := "AAPL", Value := 101, TS := 70000000000 } : Price).TS).1
          { Ticker := "AAPL", Value := 101, TS := 70000000000 }) c.Ticker k2
          = some acc ∧
        k2.Sub c.TS = Minute ∧ k2.ns = c.TS.ns + Minute) ∧
      (∀ t l, new.countP (fun c => decide (c.Ticker = t ∧ c.TS.loc = l)) ≤ 1) ∧
      ((∀ q ∈ [ ({ Ticker := "AAPL", Value := 100, TS := 10000000000 } : Price) ] ++
            [ { Ticker := "AAPL", Value := 101, TS := 70000000000 } ],
          q.TS.loc = ({ Ticker := "AAPL", Value := 101, TS := 70000000000 } : Price).TS.loc) →
        ∀ t, new.countP (fun c => decide (c.Ticker = t)) ≤ 1)) ∧
    (∀ c ∈ (Create1mCandles (fun _ => MapOrder.newestFirst)
        [ { Ticker := "AAPL", Value := 100, TS := 10000000000 },
          { Ticker := "AAPL", Value := 101, TS := 130000000000 } ]).out,
      ¬ (c.Ticker = "AAPL" ∧ c.TS.ns = 0)) :=
  ⟨(Create1mCandles_flush_rule (fun _ => MapOrder.newestFirst)
      (fun _ => MapOrder.newestFirst_valid)
      [ { Ticker := "AAPL", Value := 100, TS := 10000000000 } ]
      { Ticker := "AAPL", Value := 101, TS := 70000000000 }
      [ { Ticker := "AAPL", Value := 100, TS := 10000000000 },
        { Ticker := "AAPL", Value := 101, TS := 130000000000 } ] "AAPL" 0).1,
   (Create1mCandles_flush_rule (fun _ => MapOrder.newestFirst)
      (fun _ => MapOrder.newestFirst_valid)
      [ { Ticker := "AAPL", Value := 100, TS := 10000000000 } ]
      { Ticker := "AAPL", Value := 101, TS := 70000000000 }
      [ { Ticker := "AAPL", Value := 100, TS := 10000000000 },
        { Ticker := "AAPL", Value := 101, TS := 130000000000 } ] "AAPL" 0).2 (by decide)⟩

/-! ## All three stages: symbols and non-empty accumulators -/

/-- C12.  After any input sequence, in each of the three stages every record
stored in the accumulator keyed by symbol `t` and window start `k` has ticker
`t` and a timestamp whose `PeriodTS` for the stage's period is `k`; and every
emitted candle was reduced by `calculateCandle` from prices that all carry the
candle's ticker and were built from received records of that ticker. -/
theorem symbols_do_not_share_state (order : Nat → MapOrder) (hv : ∀ i, (order i).Valid)
    (ticks : List Price) (candles : List Candle) :
    (∀ t k acc, stored (Create1mCandles order ticks).candleMap t k = some acc →
      ∀ x ∈ acc, x.Ticker = t ∧ (PeriodTS CandlePeriod1m x.TS).1 = k) ∧
    (∀ c ∈ (Create1mCandles order ticks).out, ∃ prices : List Price,
      calculateCandle prices c.TS CandlePeriod1m = some c ∧
      ∀ q ∈ prices, q ∈ ticks ∧ q.Ticker = c.Ticker) ∧
    (∀ t k acc, stored (Create2mCandles candles).candleMap t k = some acc →
      ∀ x ∈ acc, x.Ticker = t ∧ (PeriodTS CandlePeriod2m x.TS).1 = k) ∧
    (∀ c ∈ (Create2mCandles candles).out, ∃ acc : List Candle,
      (∀ x ∈ acc, x ∈ candles ∧ x.Ticker = c.Ticker) ∧
      calculateCandle (acc.flatMap (candlePrices c.Ticker)) c.TS CandlePeriod2m = some c ∧
      ∀ q ∈ acc.flatMap (candlePrices c.Ticker), q.Ticker = c.Ticker) ∧
    (∀ t k acc, stored (Create10mCandles candles).candleMap t k = some acc →
      ∀ x ∈ acc, x.Ticker = t ∧ (PeriodTS CandlePeriod10m x.TS).1 = k) ∧
    (∀ c ∈ (Create10mCandles candles).out, ∃ acc : List Candle,
      (∀ x ∈ acc, x ∈ candles ∧ x.Ticker = c.Ticker) ∧
      calculateCandle (acc.flatMap (candlePrices c.Ticker)) c.TS CandlePeriod10m = some c ∧
      ∀ q ∈ acc.flatMap (candlePrices c.Ticker), q.Ticker = c.Ticker) := by
  obtain ⟨_, _, hrec1, hout1, _⟩ := Create1mCandles_inv order hv ticks
  obtain ⟨_, hacc2, hout2, _⟩ := Create2mCandles_inv candles
  obtain ⟨_, hacc10, hout10, _⟩ := Create10mCandles_inv candles
  refine ⟨?_, ?_, ?_, ?_, ?_, ?_⟩
  · intro t k acc h x hx
    obtain ⟨h1, h2, _⟩ := (hrec1 t k acc h).2 x hx
    exact ⟨h1, by rw [PeriodTS_1m]; exact h2⟩
  · intro c hc
    obtain ⟨prices, _, hmem, hcalc, _⟩ := hout1 c hc
    exact ⟨prices, hcalc, fun q hq => ⟨(hmem q hq).1, (hmem q hq).2.1⟩⟩
  · intro t k acc h x hx
    obtain ⟨h1, h2, _⟩ := (hacc2 t k acc h).2.2 x hx
    exact ⟨h1, by rw [PeriodTS_2m]; exact h2⟩
  · intro c hc
    obtain ⟨acc, _, hmem, hcalc⟩ := hout2 c hc
    exact ⟨acc, fun x hx => ⟨(hmem x hx).1, (hmem x hx).2.1⟩, hcalc,
      fun q hq => mem_flatMap_candlePrices _ _ q hq⟩
  · intro t k acc h x hx
    obtain ⟨h1, h2, _⟩ := (hacc10 t k acc h).2.2 x hx
    exact ⟨h1, by rw [PeriodTS_10m]; exact h2⟩
  · intro c hc
    obtain ⟨acc, _, hmem, hcalc⟩ := hout10 c hc
    exact ⟨acc, fun x hx => ⟨(hmem x hx).1, (hmem x hx).2.1⟩, hcalc,
      fun q hq => mem_flatMap_candlePrices _ _ q hq⟩

theorem symbols_do_not_share_state_witness :
    ({ Ticker := "AAPL", Value := 101, TS := 20000000000 } : Price).Ticker = "AAPL" ∧
      (PeriodTS CandlePeriod1m
        ({ Ticker := "AAPL", Value := 101, TS := 20000000000 } : Price).TS).1 = 0 :=
  (symbols_do_not_share_state (fun _ => MapOrder.listOrder) (fun _ => MapOrder.listOrder_valid)
    [ { Ticker := "AAPL", Value := 100, TS := 10000000000 },
      { Ticker := "SBER", Value := 7, TS := 15000000000 },
      { Ticker := "AAPL", Value := 101, TS := 20000000000 } ]
    [ { Ticker := "AAPL", Period := "1m", Open := 1, High := 4, Low := 0, Close := 2,
        TS := 0 } ]).1 "AAPL" 0
    [ { Ticker := "AAPL", Value := 100, TS := 10000000000 },
      { Ticker := "AAPL", Value := 101, TS := 20000000000 } ] (by decide)
    { Ticker := "AAPL", Value := 101, TS := 20000000000 } (by simp)

/-- C16.  For every input sequence none of the three stages stops in a panic:
each is still running at the end of its input.  Every accumulator present in
a stage's map is non-empty.  In each stage the candles sent are, in order,
the results of the calls of `calculateCandle` the stage made; every slice the
1-minute stage passed to `calculateCandle` is non-empty, every slice
`Create2mCandles` passed holds exactly 8 prices and every slice
`Create10mCandles` passed holds exactly 20 prices. -/
theorem calculateCandle_never_empty (order : Nat → MapOrder) (hv : ∀ i, (order i).Valid)
    (ticks : List Price) (candles : List Candle) :
    (Create1mCandles order ticks).status = Status.running ∧
    (Create2mCandles candles).status = Status.running ∧
    (Create10mCandles candles).status = Status.running ∧
    (∀ t k acc, stored (Create1mCandles order ticks).candleMap t k = some acc → acc ≠ []) ∧
    (∀ t k acc, stored (Create2mCandles candles).candleMap t k = some acc → acc ≠ []) ∧
    (∀ t k acc, stored (Create10mCandles candles).candleMap t k = some acc → acc ≠ []) ∧
    List.Forall₂ (fun prices c => calculateCandle prices c.TS CandlePeriod1m = some c)
      (Create1mCandles order ticks).calls (Create1mCandles order ticks).out ∧
    (∀ prices ∈ (Create1mCandles order ticks).calls, prices ≠ []) ∧
    List.Forall₂ (fun prices c => calculateCandle prices c.TS CandlePeriod2m = some c)
      (Create2mCandles candles).calls (Create2mCandles candles).out ∧
    (∀ prices ∈ (Create2mCandles candles).calls, prices.length = 8) ∧
    List.Forall₂ (fun prices c => calculateCandle prices c.TS CandlePeriod10m = some c)
      (Create10mCandles candles).calls (Create10mCandles candles).out ∧
    (∀ prices ∈ (Create10mCandles candles).calls, prices.length = 20) := by
  obtain ⟨hst1, _, hrec1, _, hcalls1, hlog1⟩ := Create1mCandles_inv order hv ticks
  obtain ⟨hst2, hacc2, _, _, hcalls2, hlog2⟩ := Create2mCandles_inv candles
  obtain ⟨hst10, hacc10, _, _, hcalls10, hlog10⟩ := Create10mCandles_inv candles
  refine ⟨hst1, hst2, hst10, ?_, ?_, ?_, hlog1, hcalls1, hlog2, hcalls2, hlog10, hcalls10⟩
  · intro t k acc h
    exact (hrec1 t k acc h).1
  · intro t k acc h
    have := (hacc2 t k acc h).1
    intro hnil
    rw [hnil] at this
    simp at this
  · intro t k acc h
    have := (hacc10 t k acc h).1
    intro hnil
    rw [hnil] at this
    simp at this

theorem calculateCandle_never_empty_witness :
    (Create1mCandles (fun _ => MapOrder.newestFirst)
        [ { Ticker := "AAPL", Value := 100, TS := 10000000000 },
          { Ticker := "AAPL", Value := 101, TS := 70000000000 } ]).status = Status.running ∧
    ([ ({ Ticker := "AAPL", Value := 100, TS := 10000000000 } : Price) ] ≠ []) ∧
    ([ ({ Ticker := "AAPL", Value := 1, TS := 0 } : Price),
       { Ticker := "AAPL", Value := 2, TS := 0 },
       { Ticker := "AAPL", Value := 4, TS := 0 },
       { Ticker := "AAPL", Value := 0, TS := 0 },
       { Ticker := "AAPL", Value := 3, TS := 60000000000 },
       { Ticker := "AAPL", Value := 5, TS := 60000000000 },
       { Ticker := "AAPL", Value := 6, TS := 60000000000 },
       { Ticker := "AAPL", Value := 1, TS := 60000000000 } ]).length = 8 ∧
    (Create10mCandles
        [ { Ticker := "AAPL", Period := "1m", Open := 1, High := 4, Low := 0, Close := 2,
            TS := 0 },
          { Ticker := "AAPL", Period := "1m", Open := 3, High := 6, Low := 1, Close := 5,
            TS := 60000000000 } ]).status = Status.running :=
  ⟨(calculateCandle_never_empty (fun _ => MapOrder.newestFirst)
      (fun _ => MapOrder.newestFirst_valid)
      [ { Ticker := "AAPL", Value := 100, TS := 10000000000 },
        { Ticker := "AAPL", Value := 101, TS := 70000000000 } ]
      [ { Ticker := "AAPL", Period := "1m", Open := 1, High := 4, Low := 0, Close := 2, TS := 0 },
        { Ticker := "AAPL", Period := "1m", Open := 3, High := 6, Low := 1, Close := 5,
          TS := 60000000000 } ]).1,
   (calculateCandle_never_empty (fun _ => MapOrder.newestFirst)
      (fun _ => MapOrder.newestFirst_valid)
      [ { Ticker := "AAPL", Value := 100, TS := 10000000000 },
        { Ticker := "AAPL", Value := 101, TS := 70000000000 } ]
      [ { Ticker := "AAPL", Period := "1m", Open := 1, High := 4, Low := 0, Close := 2, TS := 0 },
        { Ticker := "AAPL", Period := "1m", Open := 3, High := 6, Low := 1, Close := 5,
          TS := 60000000000 } ]).2.2.2.2.2.2.2.1 _ (by decide),
   (calculateCandle_never_empty (fun _ => MapOrder.newestFirst)
      (fun _ => MapOrder.newestFirst_valid)
      [ { Ticker := "AAPL", Value := 100, TS := 10000000000 },
        { Ticker := "AAPL", Value := 101, TS := 70000000000 } ]
      [ { Ticker := "AAPL", Period := "1m", Open := 1, High := 4, Low := 0, Close := 2, TS := 0 },
        { Ticker := "AAPL", Period := "1m", Open := 3, High := 6, Low := 1, Close := 5,
          TS := 60000000000 } ]).2.2.2.2.2.2.2.2.2.1 _ (by decide),
   (calculateCandle_never_empty (fun _ => MapOrder.newestFirst)
      (fun _ => MapOrder.newestFirst_valid)
      [ { Ticker := "AAPL", Value := 100, TS := 10000000000 },
        { Ticker := "AAPL", Value := 101, TS := 70000000000 } ]
      [ { Ticker := "AAPL", Period := "1m", Open := 1, High := 4, Low := 0, Close := 2, TS := 0 },
        { Ticker := "AAPL", Period := "1m", Open := 3, High := 6, Low := 1, Close := 5,
          TS := 60000000000 } ]).2.2.1⟩

end Domain
